import Mathlib

/-!
# ngtcp2 acknowledgement tracker (lib/ngtcp2_acktr.c)

A shallow embedding of `lib/ngtcp2_acktr.c` and theorems about it.

Representation choices.

* The singly linked list `acktr->ent` (linked through `next`) is a Lean list of
  nodes, head first.  The `pprev` field of a node always holds the address of
  the slot that points to the node (every function of the file that links or
  unlinks a node rewrites it), so it is determined by the node's position and is
  not stored.
* A slot (`ngtcp2_acktr_entry **`) is a natural number `p`: slot `0` is
  `&acktr->ent`, slot `p + 1` is `&n->next` for the node `n` at position `p`.
* A node pointer (`ngtcp2_acktr_entry *`, used for `acktr->tail`) is an
  `entry_ptr`: the position of the node it designates.  When a node is linked
  or unlinked in front of it, the pointer is re-indexed so that it keeps
  designating the same node, which is what an untouched C pointer does.
* `uint64_t` and `size_t` values are natural numbers; subtraction, increment
  and decrement wrap modulo `2 ^ 64` explicitly.
* `ngtcp2_log` and `ngtcp2_mem` have no effect on the tracker state and are
  left out; releasing a node removes it from the model.
-/

namespace Ngtcp2

/-! ## Machine arithmetic -/

/-- The constant UINT64_MAX. -/
def UINT64_MAX : Nat := 2 ^ 64 - 1

/-- Subtraction `a - b` of `uint64_t` / `size_t` values, wrapping modulo `2 ^ 64`:
for operands below `2 ^ 64` this is `(a + 2 ^ 64 - b) % 2 ^ 64` (`u64_sub_mod`). -/
def u64_sub (a b : Nat) : Nat := if b ≤ a then a - b else a + 2 ^ 64 - b

/-- Increment `++n` of a `size_t`, wrapping modulo `2 ^ 64`: for `n` below `2 ^ 64`
this is `(n + 1) % 2 ^ 64` (`size_inc_mod`). -/
def size_inc (n : Nat) : Nat := if n + 1 = 2 ^ 64 then 0 else n + 1

/-- Decrement `--n` of a `size_t`, wrapping modulo `2 ^ 64`. -/
def size_dec (n : Nat) : Nat := u64_sub n 1

/-- The cast `(uint8_t)x` of an `int`. -/
def to_u8 (x : Int) : Nat := (x % 256).toNat

/-! ## Constants of the headers -/

/-- Modelled from the spec: the error code NGTCP2_ERR_PROTO (the spec's
`ProtocolViolation`) is declared in `ngtcp2.h`, which is not among the sources;
it is a negative `int`, here the value of the upstream header. -/
def NGTCP2_ERR_PROTO : Int := -205

/-- Modelled from the spec: the flag bits are declared in `ngtcp2_acktr.h`,
which is not among the sources.  The spec names three booleans kept in one
bitmask (active ack per packet-number space, handshake ack finished); the bit
values are those of the upstream header. -/
def NGTCP2_ACKTR_FLAG_NONE : Nat := 0x00

/-- Modelled from the spec: the active-ack bit of the unprotected space (see
`NGTCP2_ACKTR_FLAG_NONE`). -/
def NGTCP2_ACKTR_FLAG_ACTIVE_ACK_UNPROTECTED : Nat := 0x01

/-- Modelled from the spec: the active-ack bit of the protected space (see
`NGTCP2_ACKTR_FLAG_NONE`). -/
def NGTCP2_ACKTR_FLAG_ACTIVE_ACK_PROTECTED : Nat := 0x02

/-- Modelled from the spec: both active-ack bits; the comment in
`ngtcp2_acktr_add` ("Should be sent in both protected and unprotected ACK")
says the constant covers both spaces (see `NGTCP2_ACKTR_FLAG_NONE`). -/
def NGTCP2_ACKTR_FLAG_ACTIVE_ACK : Nat :=
  NGTCP2_ACKTR_FLAG_ACTIVE_ACK_UNPROTECTED ||| NGTCP2_ACKTR_FLAG_ACTIVE_ACK_PROTECTED

/-- Modelled from the spec: the handshake-ack-finished bit (see
`NGTCP2_ACKTR_FLAG_NONE`). -/
def NGTCP2_ACKTR_FLAG_ACK_FINISHED_ACK : Nat := 0x80

/-! ## Data model -/

/-- The struct `ngtcp2_acktr_entry` without its link fields `next` and `pprev`. -/
structure ngtcp2_acktr_entry where
  pkt_num : Nat
  tstamp : Nat
  unprotected : Nat
  deriving DecidableEq

/-- One additional block `fr->blks[i]` of an ACK frame. -/
structure ngtcp2_ack_blk where
  gap : Nat
  blklen : Nat
  deriving DecidableEq

/-- The struct `ngtcp2_ack`, with the fields the tracker reads; `num_blks` is the
length of `blks`. -/
structure ngtcp2_ack where
  largest_ack : Nat
  ack_delay_unscaled : Nat
  first_ack_blklen : Nat
  blks : List ngtcp2_ack_blk
  deriving DecidableEq

/-- The struct `ngtcp2_acktr_ack_entry`: an ACK frame this endpoint sent. -/
structure ngtcp2_acktr_ack_entry where
  ack : ngtcp2_ack
  pkt_num : Nat
  ts : Nat
  ack_only : Nat
  deriving DecidableEq

/-- Modelled from the spec: the ring buffer `ngtcp2_ringbuf` (`ngtcp2_ringbuf.c`
is not among the sources) is a fixed-capacity buffer, most recent first: `buf`
lists the live slots from index 0, `nmemb` is the capacity. -/
structure ngtcp2_ringbuf where
  nmemb : Nat
  buf : List ngtcp2_acktr_ack_entry
  deriving DecidableEq

/-- A value of type `ngtcp2_acktr_entry *`. -/
inductive entry_ptr where
  /-- The pointer NULL. -/
  | null
  /-- The node at position `i` of the list, counted from the head. -/
  | node (i : Nat)
  /-- The value `ngtcp2_struct_of(&acktr->ent, ngtcp2_acktr_entry, next)`: an
  address inside the tracker itself, not a node. -/
  | head_owner
  /-- A node that has been unlinked and released. -/
  | freed
  deriving DecidableEq

/-- The struct `ngtcp2_acktr` (without `log` and `mem`). -/
structure ngtcp2_acktr where
  acks : ngtcp2_ringbuf
  hs_acks : ngtcp2_ringbuf
  ent : List ngtcp2_acktr_entry
  tail : entry_ptr
  nack : Nat
  last_hs_ack_pkt_num : Nat
  flags : Nat
  first_unacked_ts : Nat
  deriving DecidableEq

/-- A value of type `ngtcp2_ringbuf *` inside the tracker: `&acktr->acks` or
`&acktr->hs_acks`. -/
inductive ringbuf_ref where
  | acks
  | hs_acks
  deriving DecidableEq

/-- Read `*rb`. -/
def ringbuf_ref.get (rb : ringbuf_ref) (acktr : ngtcp2_acktr) : ngtcp2_ringbuf :=
  match rb with
  | .acks => acktr.acks
  | .hs_acks => acktr.hs_acks

/-- Write `*rb`. -/
def ringbuf_ref.set (rb : ringbuf_ref) (acktr : ngtcp2_acktr) (v : ngtcp2_ringbuf) :
    ngtcp2_acktr :=
  match rb with
  | .acks => { acktr with acks := v }
  | .hs_acks => { acktr with hs_acks := v }

/-- The other ring buffer of the tracker. -/
def ringbuf_ref.other : ringbuf_ref → ringbuf_ref
  | .acks => .hs_acks
  | .hs_acks => .acks

/-! ## Ring buffer operations -/

/-- Modelled from the spec: `ngtcp2_ringbuf_init` gives an empty buffer of the
requested capacity (allocation succeeding). -/
def ngtcp2_ringbuf_init (nmemb : Nat) : ngtcp2_ringbuf := { nmemb := nmemb, buf := [] }

/-- Modelled from the spec: `ngtcp2_ringbuf_len`. -/
def ngtcp2_ringbuf_len (rb : ngtcp2_ringbuf) : Nat := rb.buf.length

/-- Modelled from the spec: `ngtcp2_ringbuf_get` reads the slot at `offset` from
the front; `none` outside the live slots. -/
def ngtcp2_ringbuf_get (rb : ngtcp2_ringbuf) (offset : Nat) : Option ngtcp2_acktr_ack_entry :=
  rb.buf.get? offset

/-- Modelled from the spec: `ngtcp2_ringbuf_push_front` followed by the
assignment of the new slot: the record becomes index 0 and, at capacity, the
oldest slot is displaced. -/
def ngtcp2_ringbuf_push_front (rb : ngtcp2_ringbuf) (x : ngtcp2_acktr_ack_entry) :
    ngtcp2_ringbuf :=
  { rb with buf := (x :: rb.buf).take rb.nmemb }

/-- Modelled from the spec: `ngtcp2_ringbuf_resize` shrinks the logical length
to `len`, keeping the slots in front. -/
def ngtcp2_ringbuf_resize (rb : ngtcp2_ringbuf) (len : Nat) : ngtcp2_ringbuf :=
  { rb with buf := rb.buf.take len }

/-! ## Node pointers and slots -/

/-- The macro call `ngtcp2_struct_of(pent, ngtcp2_acktr_entry, next)` for the slot
`pent`: the node whose `next` field the slot is. -/
def ngtcp2_struct_of (pent : Nat) : entry_ptr :=
  match pent with
  | 0 => .head_owner
  | p + 1 => .node p

/-- Re-index a node pointer after a node has been linked in at slot `p`. -/
def entry_ptr.after_insert (p : Nat) : entry_ptr → entry_ptr
  | .node i => if p ≤ i then .node (i + 1) else .node i
  | q => q

/-- Re-index a node pointer after the node at slot `p` has been unlinked and
released. -/
def entry_ptr.after_remove (p : Nat) : entry_ptr → entry_ptr
  | .node i => if i < p then .node i else if i = p then .freed else .node (i - 1)
  | q => q

/-! ## ngtcp2_acktr_entry_new, ngtcp2_acktr_init -/

/-- The function `ngtcp2_acktr_entry_new`: `none` stands for NGTCP2_ERR_NOMEM
(`malloc_ok = false`). -/
def ngtcp2_acktr_entry_new (pkt_num tstamp : Nat) (unprotected : Int) (malloc_ok : Bool) :
    Option ngtcp2_acktr_entry :=
  if malloc_ok then
    some { pkt_num := pkt_num, tstamp := tstamp, unprotected := to_u8 unprotected }
  else none

/-- The function `ngtcp2_acktr_init`, both ring buffers allocated. -/
def ngtcp2_acktr_init : ngtcp2_acktr :=
  { acks := ngtcp2_ringbuf_init 128
    hs_acks := ngtcp2_ringbuf_init 32
    ent := []
    tail := .null
    nack := 0
    last_hs_ack_pkt_num := UINT64_MAX
    flags := NGTCP2_ACKTR_FLAG_NONE
    first_unacked_ts := UINT64_MAX }

/-! ## ngtcp2_acktr_add -/

/-- The search loop of `ngtcp2_acktr_add` (lines 113-122) over the nodes from
`*pent`: `some p` is the slot `pent` at which the loop stops, counted from the
slot the walk starts at; `none` is the `return NGTCP2_ERR_PROTO`. -/
def add_find (pkt_num : Nat) : List ngtcp2_acktr_entry → Option Nat
  | [] => some 0
  | e :: rest =>
    if e.pkt_num > pkt_num then (add_find pkt_num rest).map (· + 1)
    else if e.pkt_num = pkt_num then none
    else some 0

/-- The function `ngtcp2_acktr_add`, with the capacity NGTCP2_ACKTR_MAX_ENT (a
macro of the header, not among the sources) as a parameter.  The result is
the return value and the tracker afterwards; `none` is a failed
`assert(acktr->tail)` or the dereference of a `tail` that is not a node of the
list. -/
def ngtcp2_acktr_add (NGTCP2_ACKTR_MAX_ENT : Nat) (acktr : ngtcp2_acktr)
    (ent : ngtcp2_acktr_entry) (active_ack : Int) (ts : Nat) :
    Option (Int × ngtcp2_acktr) :=
  match add_find ent.pkt_num acktr.ent with
  | none => some (NGTCP2_ERR_PROTO, acktr)
  | some p =>
    -- lines 124-131: link ent in at slot p
    let ents := acktr.ent.take p ++ ent :: acktr.ent.drop p
    let tail := if p < acktr.ent.length then acktr.tail.after_insert p else .node p
    -- lines 133-143
    let flags :=
      if active_ack ≠ 0 then
        if ent.unprotected ≠ 0 then acktr.flags ||| NGTCP2_ACKTR_FLAG_ACTIVE_ACK
        else acktr.flags ||| NGTCP2_ACKTR_FLAG_ACTIVE_ACK_PROTECTED
      else acktr.flags
    let first_unacked_ts :=
      if active_ack ≠ 0 ∧ acktr.first_unacked_ts = UINT64_MAX then ts
      else acktr.first_unacked_ts
    -- lines 145-155
    let nack := size_inc acktr.nack
    if nack > NGTCP2_ACKTR_MAX_ENT then
      match tail with
      | .node i =>
        if i < ents.length then
          some (0, { acktr with
            ent := ents.take i
            tail := ngtcp2_struct_of i
            flags := flags
            first_unacked_ts := first_unacked_ts
            nack := size_dec nack })
        else none
      | _ => none
    else
      some (0, { acktr with
        ent := ents
        tail := tail
        flags := flags
        first_unacked_ts := first_unacked_ts
        nack := nack })

/-! ## ngtcp2_acktr_forget, ngtcp2_acktr_get, ngtcp2_acktr_pop -/

/-- The release loop of `ngtcp2_acktr_forget` (lines 170-175) over the chain that
starts at `ent`: one `--acktr->nack` per node. -/
def forget_loop : List ngtcp2_acktr_entry → Nat → Nat
  | [], nack => nack
  | _ :: rest, nack => forget_loop rest (size_dec nack)

/-- The function `ngtcp2_acktr_forget`; `ent` is the node at position `i`.
`none` when `ent` is not a node of the list. -/
def ngtcp2_acktr_forget (acktr : ngtcp2_acktr) (i : Nat) : Option ngtcp2_acktr :=
  if i < acktr.ent.length then
    if i ≠ 0 then
      some { acktr with
        ent := acktr.ent.take i
        tail := ngtcp2_struct_of i
        nack := forget_loop (acktr.ent.drop i) acktr.nack }
    else
      some { acktr with
        ent := []
        tail := .null
        nack := forget_loop (acktr.ent.drop i) acktr.nack }
  else none

/-- The function `ngtcp2_acktr_get` followed by the traversal through `next`: the
nodes from the head. -/
def ngtcp2_acktr_get (acktr : ngtcp2_acktr) : List ngtcp2_acktr_entry := acktr.ent

/-- The function `ngtcp2_acktr_pop`; `none` is the failed `assert(acktr->ent)`. -/
def ngtcp2_acktr_pop (acktr : ngtcp2_acktr) : Option ngtcp2_acktr :=
  match acktr.ent with
  | [] => none
  | _ :: rest =>
    some { acktr with
      nack := size_dec acktr.nack
      ent := rest
      tail := if rest ≠ [] then acktr.tail.after_remove 0 else .null }

/-! ## ngtcp2_acktr_add_ack -/

/-- The function `ngtcp2_acktr_add_ack`. -/
def ngtcp2_acktr_add_ack (acktr : ngtcp2_acktr) (pkt_num : Nat) (fr : ngtcp2_ack)
    (ts : Nat) (unprotected : Int) (ack_only : Int) : ngtcp2_acktr :=
  let ent : ngtcp2_acktr_ack_entry :=
    { ack := fr, pkt_num := pkt_num, ts := ts, ack_only := to_u8 ack_only }
  if unprotected ≠ 0 then
    { acktr with hs_acks := ngtcp2_ringbuf_push_front acktr.hs_acks ent }
  else
    { acktr with acks := ngtcp2_ringbuf_push_front acktr.acks ent }

/-! ## acktr_remove, acktr_on_ack -/

/-- The function `acktr_remove` for the slot `pent`, which points to a node. -/
def acktr_remove (acktr : ngtcp2_acktr) (pent : Nat) : ngtcp2_acktr :=
  let ents := acktr.ent.eraseIdx pent
  { acktr with
    ent := ents
    tail := if pent < ents.length then acktr.tail.after_remove pent
            else ngtcp2_struct_of pent
    nack := size_dec acktr.nack }

/-- The first loop of `acktr_on_ack` (lines 254-258) over the nodes from `*pent`:
the slot at which it stops. -/
def on_ack_seek (largest_ack : Nat) : List ngtcp2_acktr_entry → Nat → Nat
  | [], pent => pent
  | e :: rest, pent =>
    if largest_ack ≥ e.pkt_num then pent else on_ack_seek largest_ack rest (pent + 1)

/-- The loop of `acktr_on_ack` for the first range (lines 265-271); the list
argument is the chain of nodes from `*pent`. -/
def on_ack_first (largest_ack min_ack : Nat) :
    List ngtcp2_acktr_entry → ngtcp2_acktr → Nat → ngtcp2_acktr
  | [], acktr, _ => acktr
  | e :: rest, acktr, pent =>
    if min_ack ≤ e.pkt_num ∧ e.pkt_num ≤ largest_ack then
      on_ack_first largest_ack min_ack rest (acktr_remove acktr pent) pent
    else acktr

/-- The inner loop of `acktr_on_ack` for one additional block (lines 277-286);
the list argument is the chain of nodes from `*pent`.  The result is the tracker
and the slot `pent` when the loop ends. -/
def on_ack_blk (largest_ack min_ack : Nat) :
    List ngtcp2_acktr_entry → ngtcp2_acktr → Nat → ngtcp2_acktr × Nat
  | [], acktr, pent => (acktr, pent)
  | e :: rest, acktr, pent =>
    if e.pkt_num > largest_ack then on_ack_blk largest_ack min_ack rest acktr (pent + 1)
    else if e.pkt_num < min_ack then (acktr, pent)
    else on_ack_blk largest_ack min_ack rest (acktr_remove acktr pent) pent

/-- The outer loop of `acktr_on_ack` over the additional blocks (lines 273-289),
entered with the blocks from index `i` and the current `min_ack`. -/
def on_ack_blks : List ngtcp2_ack_blk → Nat → ngtcp2_acktr → Nat → ngtcp2_acktr
  | [], _, acktr, _ => acktr
  | b :: bs, min_ack, acktr, pent =>
    if pent < acktr.ent.length then
      let largest_ack := u64_sub (u64_sub min_ack b.gap) 2
      let min_ack := u64_sub largest_ack b.blklen
      let r := on_ack_blk largest_ack min_ack (acktr.ent.drop pent) acktr pent
      on_ack_blks bs min_ack r.1 r.2
    else acktr

/-- The function `acktr_on_ack`; `none` when `ack_ent_offset` is not a live slot of
`*rb`. -/
def acktr_on_ack (acktr : ngtcp2_acktr) (rb : ringbuf_ref) (ack_ent_offset : Nat) :
    Option ngtcp2_acktr :=
  match ngtcp2_ringbuf_get (rb.get acktr) ack_ent_offset with
  | none => none
  | some ent =>
    let fr := ent.ack
    let largest_ack := fr.largest_ack
    -- lines 245-251
    let acktr :=
      if ent.pkt_num ≥ acktr.last_hs_ack_pkt_num then
        { acktr with
          flags := acktr.flags ||| NGTCP2_ACKTR_FLAG_ACK_FINISHED_ACK
          last_hs_ack_pkt_num := UINT64_MAX }
      else acktr
    -- lines 254-261
    let pent := on_ack_seek largest_ack acktr.ent 0
    let acktr :=
      if pent < acktr.ent.length then
        -- lines 263-289
        let min_ack := u64_sub largest_ack fr.first_ack_blklen
        let acktr := on_ack_first largest_ack min_ack (acktr.ent.drop pent) acktr pent
        on_ack_blks fr.blks min_ack acktr pent
      else acktr
    -- fin
    some (rb.set acktr (ngtcp2_ringbuf_resize (rb.get acktr) ack_ent_offset))

/-! ## ngtcp2_acktr_recv_ack -/

/-- One invocation of `ngtcp2_conn_update_rtt(conn, rtt, ack_delay, ack_only)`. -/
structure rtt_call where
  rtt : Nat
  ack_delay : Nat
  ack_only : Nat
  deriving DecidableEq

/-- What `ngtcp2_acktr_recv_ack` does: its return value, the tracker afterwards
and the calls of `ngtcp2_conn_update_rtt` it made, in order. -/
structure recv_ack_result where
  rv : Int
  acktr : ngtcp2_acktr
  rtt_calls : List rtt_call
  deriving DecidableEq

/-- The first loop of `ngtcp2_acktr_recv_ack` (lines 309-314) over the records
from index `j`: the index at which it stops (`nacks` when it runs to the end). -/
def recv_ack_seek (largest_ack : Nat) : List ngtcp2_acktr_ack_entry → Nat → Nat
  | [], j => j
  | e :: rest, j =>
    if largest_ack ≥ e.pkt_num then j else recv_ack_seek largest_ack rest (j + 1)

/-- How the inner loop of `ngtcp2_acktr_recv_ack` for one block ends. -/
inductive blk_scan where
  /-- The `return 0` at `j == nacks`. -/
  | ret
  /-- The `break` at a record below the block, with the index `j`. -/
  | brk (j : Nat)
  /-- The call `acktr_on_ack(acktr, rb, j)`. -/
  | hit (j : Nat)
  deriving DecidableEq

/-- The inner loop of `ngtcp2_acktr_recv_ack` for one additional block (lines
337-351) over the records from index `j` (`ent` is the first of them; the empty
list is `j == nacks`). -/
def recv_ack_blk (largest_ack min_ack : Nat) : List ngtcp2_acktr_ack_entry → Nat → blk_scan
  | [], _ => .ret
  | e :: rest, j =>
    if e.pkt_num > largest_ack then recv_ack_blk largest_ack min_ack rest (j + 1)
    else if e.pkt_num < min_ack then .brk j
    else .hit j

/-- The outer loop of `ngtcp2_acktr_recv_ack` over the additional blocks (lines
333-354): `some j` is the call `acktr_on_ack(acktr, rb, j)`, `none` a `return 0`
without it. -/
def recv_ack_blks : List ngtcp2_ack_blk → Nat → List ngtcp2_acktr_ack_entry → Nat → Option Nat
  | [], _, _, _ => none
  | b :: bs, min_ack, buf, j =>
    if j < buf.length then
      let largest_ack := u64_sub (u64_sub min_ack b.gap) 2
      let min_ack := u64_sub largest_ack b.blklen
      match recv_ack_blk largest_ack min_ack (buf.drop j) j with
      | .ret => none
      | .brk j => recv_ack_blks bs min_ack buf j
      | .hit j => some j
    else none

/-- The function `ngtcp2_acktr_recv_ack`; `conn` says whether the pointer is
non-null.  `none` only if a ring-buffer index were out of range. -/
def ngtcp2_acktr_recv_ack (acktr : ngtcp2_acktr) (fr : ngtcp2_ack) (unprotected : Int)
    (conn : Bool) (ts : Nat) : Option recv_ack_result :=
  let largest_ack := fr.largest_ack
  let rb : ringbuf_ref := if unprotected ≠ 0 then .hs_acks else .acks
  let nacks := ngtcp2_ringbuf_len (rb.get acktr)
  let j := recv_ack_seek largest_ack (rb.get acktr).buf 0
  if j = nacks then some { rv := 0, acktr := acktr, rtt_calls := [] }
  else
    match ngtcp2_ringbuf_get (rb.get acktr) j with
    | none => none
    | some ent =>
      let min_ack := u64_sub largest_ack fr.first_ack_blklen
      if min_ack ≤ ent.pkt_num ∧ ent.pkt_num ≤ largest_ack then
        match acktr_on_ack acktr rb j with
        | none => none
        | some acktr =>
          some { rv := 0, acktr := acktr
                 rtt_calls :=
                  if conn = true ∧ largest_ack = ent.pkt_num ∧ ent.ack_only ≠ 0 then
                    [{ rtt := u64_sub ts ent.ts, ack_delay := fr.ack_delay_unscaled,
                       ack_only := ent.ack_only }]
                  else [] }
      else
        match recv_ack_blks fr.blks min_ack (rb.get acktr).buf j with
        | none => some { rv := 0, acktr := acktr, rtt_calls := [] }
        | some j =>
          match acktr_on_ack acktr rb j with
          | none => none
          | some acktr => some { rv := 0, acktr := acktr, rtt_calls := [] }

/-! ## ngtcp2_acktr_commit_ack, ngtcp2_acktr_require_active_ack,
ngtcp2_acktr_include_protected_pkt -/

/-- The function `ngtcp2_acktr_commit_ack`; `(uint8_t)~F` is `255 - F` for a flag
`F` below 256. -/
def ngtcp2_acktr_commit_ack (acktr : ngtcp2_acktr) (unprotected : Int) : ngtcp2_acktr :=
  if unprotected ≠ 0 then
    { acktr with flags := acktr.flags &&& (255 - NGTCP2_ACKTR_FLAG_ACTIVE_ACK_UNPROTECTED) }
  else
    { acktr with
      flags := acktr.flags &&& (255 - NGTCP2_ACKTR_FLAG_ACTIVE_ACK_PROTECTED)
      first_unacked_ts := UINT64_MAX }

/-- The function `ngtcp2_acktr_require_active_ack`; the result is the `int` it
returns. -/
def ngtcp2_acktr_require_active_ack (acktr : ngtcp2_acktr) (unprotected : Int)
    (max_ack_delay ts : Nat) : Int :=
  if unprotected ≠ 0 then
    ((acktr.flags &&& NGTCP2_ACKTR_FLAG_ACTIVE_ACK_UNPROTECTED : Nat) : Int)
  else if acktr.flags &&& NGTCP2_ACKTR_FLAG_ACTIVE_ACK_PROTECTED ≠ 0 ∧
      acktr.first_unacked_ts ≤ u64_sub ts max_ack_delay then 1
  else 0

/-- The loop of `ngtcp2_acktr_include_protected_pkt` (lines 380-384) over the nodes
from `ent`, and the `return 0` after it. -/
def include_protected_loop : List ngtcp2_acktr_entry → Int
  | [] => 0
  | e :: rest => if e.unprotected = 0 then 1 else include_protected_loop rest

/-- The function `ngtcp2_acktr_include_protected_pkt`; it only reads the tracker, so
the result is the `int` it returns. -/
def ngtcp2_acktr_include_protected_pkt (acktr : ngtcp2_acktr) : Int :=
  include_protected_loop acktr.ent

/-! ## Notions the properties are stated with -/

/-- The packet-number ranges `(min_ack, largest_ack)` of the additional blocks,
as both walkers (`acktr_on_ack`, `ngtcp2_acktr_recv_ack`) compute them from the
previous `min_ack`: `largest_ack = min_ack - gap - 2`, then
`min_ack = largest_ack - blklen`, in `uint64_t` arithmetic. -/
def decoded_blk_ranges : Nat → List ngtcp2_ack_blk → List (Nat × Nat)
  | _, [] => []
  | min_ack, b :: bs =>
    let largest_ack := u64_sub (u64_sub min_ack b.gap) 2
    let min_ack := u64_sub largest_ack b.blklen
    (min_ack, largest_ack) :: decoded_blk_ranges min_ack bs

/-- The decoded ranges of an ACK frame: `(largest_ack - first_ack_blklen,
largest_ack)`, then one range per additional block. -/
def decoded_ranges (fr : ngtcp2_ack) : List (Nat × Nat) :=
  (u64_sub fr.largest_ack fr.first_ack_blklen, fr.largest_ack) ::
    decoded_blk_ranges (u64_sub fr.largest_ack fr.first_ack_blklen) fr.blks

/-- Whether the packet number `n` lies in one of the ranges `(min, max)`. -/
def covered (rs : List (Nat × Nat)) (n : Nat) : Bool :=
  rs.any (fun r => decide (r.1 ≤ n) && decide (n ≤ r.2))

/-- No subtraction underflows while the blocks are decoded from `min_ack`. -/
def blks_valid : Nat → List ngtcp2_ack_blk → Prop
  | _, [] => True
  | min_ack, b :: bs =>
    b.gap + 2 ≤ min_ack ∧ b.blklen ≤ min_ack - b.gap - 2 ∧
      blks_valid (min_ack - b.gap - 2 - b.blklen) bs

instance blks_valid_decidable : (m : Nat) → (bs : List ngtcp2_ack_blk) →
    Decidable (blks_valid m bs)
  | _, [] => isTrue trivial
  | m, b :: bs =>
    have := blks_valid_decidable (m - b.gap - 2 - b.blklen) bs
    inferInstanceAs (Decidable (b.gap + 2 ≤ m ∧ b.blklen ≤ m - b.gap - 2 ∧
      blks_valid (m - b.gap - 2 - b.blklen) bs))

/-- A valid ACK frame (what `ngtcp2_pkt_validate_ack` accepts): `largest_ack` is
a `uint64_t` and no subtraction underflows while its ranges are decoded. -/
def ack_valid (fr : ngtcp2_ack) : Prop :=
  fr.largest_ack < 2 ^ 64 ∧ fr.first_ack_blklen ≤ fr.largest_ack ∧
    blks_valid (fr.largest_ack - fr.first_ack_blklen) fr.blks

instance ack_valid_decidable (fr : ngtcp2_ack) : Decidable (ack_valid fr) :=
  inferInstanceAs (Decidable (_ ∧ _ ∧ _))

/-- The tracked list is strictly descending by `pkt_num`. -/
def ent_descending (l : List ngtcp2_acktr_entry) : Prop :=
  l.Pairwise (fun a b => a.pkt_num > b.pkt_num)

instance ent_descending_decidable (l : List ngtcp2_acktr_entry) :
    Decidable (ent_descending l) :=
  inferInstanceAs (Decidable (List.Pairwise _ _))

/-- The carrying packet numbers of a sent-ACK buffer are strictly descending
from index 0. -/
def ack_descending (l : List ngtcp2_acktr_ack_entry) : Prop :=
  l.Pairwise (fun a b => a.pkt_num > b.pkt_num)

instance ack_descending_decidable (l : List ngtcp2_acktr_ack_entry) :
    Decidable (ack_descending l) :=
  inferInstanceAs (Decidable (List.Pairwise _ _))

/-! ## Call sequences and reachable states -/

/-- One call of `ngtcp2_acktr_add` per element of the list, in order, each on the
tracker the previous call left; the return values are collected in order. -/
def add_seq (NGTCP2_ACKTR_MAX_ENT : Nat) :
    List (ngtcp2_acktr_entry × Int × Nat) → ngtcp2_acktr → Option (List Int × ngtcp2_acktr)
  | [], acktr => some ([], acktr)
  | (ent, active_ack, ts) :: rest, acktr =>
    match ngtcp2_acktr_add NGTCP2_ACKTR_MAX_ENT acktr ent active_ack ts with
    | none => none
    | some (rv, acktr) =>
      match add_seq NGTCP2_ACKTR_MAX_ENT rest acktr with
      | none => none
      | some (rvs, acktr) => some (rv :: rvs, acktr)

/-- The trackers that calls of the public functions produce from
`ngtcp2_acktr_init`; `ngtcp2_acktr_add` is called with timestamps that satisfy
`ts_ok`. -/
inductive reachable (NGTCP2_ACKTR_MAX_ENT : Nat) (ts_ok : Nat → Prop) : ngtcp2_acktr → Prop
  | init : reachable NGTCP2_ACKTR_MAX_ENT ts_ok ngtcp2_acktr_init
  | add (acktr : ngtcp2_acktr) (ent : ngtcp2_acktr_entry) (active_ack : Int) (ts : Nat)
      (rv : Int) (acktr' : ngtcp2_acktr) :
      reachable NGTCP2_ACKTR_MAX_ENT ts_ok acktr → ts_ok ts →
      ngtcp2_acktr_add NGTCP2_ACKTR_MAX_ENT acktr ent active_ack ts = some (rv, acktr') →
      reachable NGTCP2_ACKTR_MAX_ENT ts_ok acktr'
  | forget (acktr : ngtcp2_acktr) (i : Nat) (acktr' : ngtcp2_acktr) :
      reachable NGTCP2_ACKTR_MAX_ENT ts_ok acktr →
      ngtcp2_acktr_forget acktr i = some acktr' →
      reachable NGTCP2_ACKTR_MAX_ENT ts_ok acktr'
  | pop (acktr acktr' : ngtcp2_acktr) :
      reachable NGTCP2_ACKTR_MAX_ENT ts_ok acktr →
      ngtcp2_acktr_pop acktr = some acktr' →
      reachable NGTCP2_ACKTR_MAX_ENT ts_ok acktr'
  | add_ack (acktr : ngtcp2_acktr) (pkt_num : Nat) (fr : ngtcp2_ack) (ts : Nat)
      (unprotected ack_only : Int) :
      reachable NGTCP2_ACKTR_MAX_ENT ts_ok acktr →
      reachable NGTCP2_ACKTR_MAX_ENT ts_ok
        (ngtcp2_acktr_add_ack acktr pkt_num fr ts unprotected ack_only)
  | recv_ack (acktr : ngtcp2_acktr) (fr : ngtcp2_ack) (unprotected : Int) (conn : Bool)
      (ts : Nat) (res : recv_ack_result) :
      reachable NGTCP2_ACKTR_MAX_ENT ts_ok acktr →
      ngtcp2_acktr_recv_ack acktr fr unprotected conn ts = some res →
      reachable NGTCP2_ACKTR_MAX_ENT ts_ok res.acktr
  | commit_ack (acktr : ngtcp2_acktr) (unprotected : Int) :
      reachable NGTCP2_ACKTR_MAX_ENT ts_ok acktr →
      reachable NGTCP2_ACKTR_MAX_ENT ts_ok (ngtcp2_acktr_commit_ack acktr unprotected)

/-- The pointer `acktr->tail` designates the last node whenever the list is not
empty. -/
def tail_ok (acktr : ngtcp2_acktr) : Prop :=
  acktr.ent ≠ [] → acktr.tail = .node (acktr.ent.length - 1)

/-- The list invariant: strictly descending by `pkt_num`, `nack` equal to the
number of nodes, and at most NGTCP2_ACKTR_MAX_ENT nodes. -/
def list_inv (NGTCP2_ACKTR_MAX_ENT : Nat) (acktr : ngtcp2_acktr) : Prop :=
  ent_descending acktr.ent ∧ acktr.nack = acktr.ent.length ∧
    acktr.nack ≤ NGTCP2_ACKTR_MAX_ENT

/-! ## Machine arithmetic lemmas -/

theorem u64_sub_mod (a b : Nat) (ha : a < 2 ^ 64) (hb : b < 2 ^ 64) :
    u64_sub a b = (a + 2 ^ 64 - b) % 2 ^ 64 := by
  unfold u64_sub; split <;> omega

theorem size_inc_mod (n : Nat) (hn : n < 2 ^ 64) : size_inc n = (n + 1) % 2 ^ 64 := by
  unfold size_inc; split <;> omega

theorem u64_sub_eq (a b : Nat) (h : b ≤ a) : u64_sub a b = a - b := by
  unfold u64_sub; split <;> omega

theorem size_dec_eq (n : Nat) (h : 0 < n) : size_dec n = n - 1 := by
  unfold size_dec u64_sub; split <;> omega

theorem size_inc_eq (n : Nat) (hn : n + 1 < 2 ^ 64) : size_inc n = n + 1 := by
  unfold size_inc; split <;> omega

theorem size_inc_le (n : Nat) : size_inc n ≤ n + 1 := by
  unfold size_inc; split <;> omega

/-! ## C9: the delayed-ack deadline -/

/-- Where the deadline test of `ngtcp2_acktr_require_active_ack` is right: with
the protected flag set, `F <= T` and `D <= T` (all `uint64_t`), the result is 1
exactly when `T - F >= D`. -/
theorem require_active_ack_no_underflow (acktr : ngtcp2_acktr) (D T : Nat)
    (hflag : acktr.flags &&& NGTCP2_ACKTR_FLAG_ACTIVE_ACK_PROTECTED ≠ 0)
    (hFT : acktr.first_unacked_ts ≤ T) (hD : D ≤ T) :
    (T - acktr.first_unacked_ts < D →
        ngtcp2_acktr_require_active_ack acktr 0 D T = 0) ∧
    (T - acktr.first_unacked_ts ≥ D →
        ngtcp2_acktr_require_active_ack acktr 0 D T = 1) := by
  have hs : u64_sub T D = T - D := u64_sub_eq T D hD
  constructor
  · intro h
    have : ¬ acktr.first_unacked_ts ≤ T - D := by omega
    simp [ngtcp2_acktr_require_active_ack, hs, this]
  · intro h
    have : acktr.first_unacked_ts ≤ T - D := by omega
    simp [ngtcp2_acktr_require_active_ack, hs, this, hflag]

/-- C9 (code defect): with the protected flag set, `first_unacked_ts = 0`,
`max_ack_delay = 10` and `ts = 5`, so that `ts - first_unacked_ts = 5 < 10`,
`ngtcp2_acktr_require_active_ack` returns 1: `ts - max_ack_delay` underflows to
`2 ^ 64 - 5` and the deadline test succeeds before the delay has elapsed. -/
theorem require_active_ack_underflow :
    ngtcp2_acktr_require_active_ack
      { ngtcp2_acktr_init with
        flags := NGTCP2_ACKTR_FLAG_ACTIVE_ACK_PROTECTED, first_unacked_ts := 0 } 0 10 5 = 1 ∧
    5 - 0 < 10 ∧ u64_sub 5 10 = 2 ^ 64 - 5 := by
  decide

/-! ## C4: duplicate packet numbers -/

theorem add_find_dup (x : Nat) (l : List ngtcp2_acktr_entry) (hs : ent_descending l)
    (hx : ∃ e ∈ l, e.pkt_num = x) : add_find x l = none := by
  induction l with
  | nil => simp at hx
  | cons e rest ih =>
    obtain ⟨e', he', hxe⟩ := hx
    have hs' := List.pairwise_cons.mp hs
    simp only [add_find]
    rcases List.mem_cons.mp he' with h | h
    · subst h
      simp [hxe]
    · have hlt : e.pkt_num > x := by
        have := hs'.1 e' h
        omega
      simp [hlt, ih hs'.2 ⟨e', h, hxe⟩]

/-- C4: on a tracker whose list is strictly descending, adding an entry whose
`pkt_num` is already in the list makes `ngtcp2_acktr_add` return
NGTCP2_ERR_PROTO with the tracker unchanged (list, nack, flags,
first_unacked_ts and everything else), whatever `active_ack` is. -/
theorem add_duplicate_rejected (MAX_ENT : Nat) (acktr : ngtcp2_acktr)
    (ent : ngtcp2_acktr_entry) (active_ack : Int) (ts : Nat)
    (hs : ent_descending acktr.ent)
    (hdup : ∃ e ∈ acktr.ent, e.pkt_num = ent.pkt_num) :
    ngtcp2_acktr_add MAX_ENT acktr ent active_ack ts = some (NGTCP2_ERR_PROTO, acktr) := by
  simp [ngtcp2_acktr_add, add_find_dup ent.pkt_num acktr.ent hs hdup]

theorem add_duplicate_rejected_witness :
    ngtcp2_acktr_add 4
      { ngtcp2_acktr_init with
        ent := [⟨9, 1, 0⟩, ⟨5, 2, 0⟩, ⟨2, 3, 1⟩], nack := 3, tail := .node 2 }
      ⟨5, 7, 0⟩ 1 8
      = some (NGTCP2_ERR_PROTO,
        { ngtcp2_acktr_init with
          ent := [⟨9, 1, 0⟩, ⟨5, 2, 0⟩, ⟨2, 3, 1⟩], nack := 3, tail := .node 2 }) :=
  add_duplicate_rejected 4 _ ⟨5, 7, 0⟩ 1 8 (by decide) (by decide)

/-! ## C10: a peer ACK that matches no sent record -/

theorem covered_cons (r : Nat × Nat) (rs : List (Nat × Nat)) (n : Nat) :
    covered (r :: rs) n = ((decide (r.1 ≤ n) && decide (n ≤ r.2)) || covered rs n) := by
  simp [covered]

theorem recv_ack_seek_le (la : Nat) (l : List ngtcp2_acktr_ack_entry) (j : Nat) :
    j ≤ recv_ack_seek la l j ∧ recv_ack_seek la l j ≤ j + l.length := by
  induction l generalizing j with
  | nil => simp [recv_ack_seek]
  | cons e rest ih =>
    simp only [recv_ack_seek]
    split
    · simp
    · have := ih (j + 1)
      simp only [List.length_cons]
      omega

theorem recv_ack_blk_hit (la mn : Nat) (l : List ngtcp2_acktr_ack_entry) (j j' : Nat)
    (h : recv_ack_blk la mn l j = .hit j') :
    ∃ e ∈ l, mn ≤ e.pkt_num ∧ e.pkt_num ≤ la := by
  induction l generalizing j with
  | nil => simp [recv_ack_blk] at h
  | cons e rest ih =>
    simp only [recv_ack_blk] at h
    split at h
    · obtain ⟨e', he', hr⟩ := ih (j + 1) h
      exact ⟨e', List.mem_cons_of_mem _ he', hr⟩
    · split at h
      · simp at h
      · exact ⟨e, List.mem_cons_self _ _, by omega, by omega⟩

theorem recv_ack_blks_none (blks : List ngtcp2_ack_blk) (mn : Nat)
    (buf : List ngtcp2_acktr_ack_entry) (j : Nat)
    (h : ∀ r ∈ buf, covered (decoded_blk_ranges mn blks) r.pkt_num = false) :
    recv_ack_blks blks mn buf j = none := by
  induction blks generalizing mn j with
  | nil => simp [recv_ack_blks]
  | cons b bs ih =>
    simp only [recv_ack_blks]
    split
    · split
      · rfl
      · apply ih
        intro r hr
        have := h r hr
        simp only [decoded_blk_ranges, covered_cons, Bool.or_eq_false_iff] at this
        exact this.2
      · rename_i j' hhit
        obtain ⟨e, he, h1, h2⟩ := recv_ack_blk_hit _ _ _ _ _ hhit
        have := h e (List.mem_of_mem_drop he)
        simp only [decoded_blk_ranges, covered_cons, Bool.or_eq_false_iff] at this
        simp [h1, h2] at this
    · rfl

theorem recv_ack_unmatched (acktr : ngtcp2_acktr) (fr : ngtcp2_ack) (unprotected : Int)
    (conn : Bool) (ts : Nat)
    (h : ∀ r ∈ ((if unprotected ≠ 0 then ringbuf_ref.hs_acks else ringbuf_ref.acks).get
        acktr).buf, covered (decoded_ranges fr) r.pkt_num = false) :
    ngtcp2_acktr_recv_ack acktr fr unprotected conn ts
      = some { rv := 0, acktr := acktr, rtt_calls := [] } := by
  unfold ngtcp2_acktr_recv_ack
  simp only []
  generalize (if unprotected ≠ 0 then ringbuf_ref.hs_acks else ringbuf_ref.acks) = rb at h ⊢
  split
  · rfl
  · rename_i hj
    have hle := recv_ack_seek_le fr.largest_ack (rb.get acktr).buf 0
    have hlt : recv_ack_seek fr.largest_ack (rb.get acktr).buf 0 < (rb.get acktr).buf.length := by
      simp only [ngtcp2_ringbuf_len] at hj
      omega
    split
    · rename_i hnone
      simp [ngtcp2_ringbuf_get, List.get?_eq_none] at hnone
      omega
    · rename_i ent hent
      have hmem : ent ∈ (rb.get acktr).buf := by
        simp only [ngtcp2_ringbuf_get] at hent
        exact List.get?_mem hent
      have hc := h ent hmem
      simp only [decoded_ranges, covered_cons, Bool.or_eq_false_iff] at hc
      have hnot : ¬ (u64_sub fr.largest_ack fr.first_ack_blklen ≤ ent.pkt_num ∧
          ent.pkt_num ≤ fr.largest_ack) := by
        intro hh
        simp [hh.1, hh.2] at hc
      rw [if_neg hnot]
      rw [recv_ack_blks_none]
      intro r hr
      have := h r hr
      simp only [decoded_ranges, covered_cons, Bool.or_eq_false_iff] at this
      exact this.2

/-- C10: for every tracker, peer frame, space, `conn` and `ts`: if no record of
the selected sent-ACK buffer has its `pkt_num` in a decoded range of the peer
frame, `ngtcp2_acktr_recv_ack` returns 0, leaves the whole tracker as it was
(list, nack, both buffers, flags, first_unacked_ts, last_hs_ack_pkt_num) and
does not call `ngtcp2_conn_update_rtt`. -/
theorem recv_ack_no_match (acktr : ngtcp2_acktr) (fr : ngtcp2_ack) (unprotected : Int)
    (conn : Bool) (ts : Nat)
    (h : ∀ r ∈ ((if unprotected ≠ 0 then ringbuf_ref.hs_acks else ringbuf_ref.acks).get
        acktr).buf, covered (decoded_ranges fr) r.pkt_num = false) :
    ngtcp2_acktr_recv_ack acktr fr unprotected conn ts
      = some { rv := 0, acktr := acktr, rtt_calls := [] } :=
  recv_ack_unmatched acktr fr unprotected conn ts h

theorem recv_ack_no_match_witness :
    ngtcp2_acktr_recv_ack
      { ngtcp2_acktr_init with
        ent := [⟨3, 0, 0⟩, ⟨2, 0, 0⟩], nack := 2, tail := .node 1,
        acks := { nmemb := 128, buf := [⟨⟨3, 0, 1, []⟩, 20, 5, 1⟩, ⟨⟨2, 0, 0, []⟩, 14, 4, 0⟩,
                       ⟨⟨2, 0, 0, []⟩, 11, 3, 0⟩] } }
      ⟨18, 0, 3, [⟨0, 1⟩]⟩ 0 true 100
      = some { rv := 0,
               acktr := { ngtcp2_acktr_init with
                 ent := [⟨3, 0, 0⟩, ⟨2, 0, 0⟩], nack := 2, tail := .node 1,
                 acks := { nmemb := 128,
                           buf := [⟨⟨3, 0, 1, []⟩, 20, 5, 1⟩, ⟨⟨2, 0, 0, []⟩, 14, 4, 0⟩,
                       ⟨⟨2, 0, 0, []⟩, 11, 3, 0⟩] } },
               rtt_calls := [] } :=
  recv_ack_no_match _ ⟨18, 0, 3, [⟨0, 1⟩]⟩ 0 true 100 (by decide)

/-! ## C6: ngtcp2_acktr_forget -/

theorem forget_loop_eq (l : List ngtcp2_acktr_entry) (n : Nat) (h : l.length ≤ n) :
    forget_loop l n = n - l.length := by
  induction l generalizing n with
  | nil => simp [forget_loop]
  | cons e rest ih =>
    simp only [List.length_cons] at h
    simp only [forget_loop, List.length_cons]
    rw [size_dec_eq n (by omega), ih (n - 1) (by omega)]
    omega

theorem filter_gt_eq_take (l : List ngtcp2_acktr_entry) (i : Nat) (node : ngtcp2_acktr_entry)
    (hs : ent_descending l) (hnode : l.get? i = some node) :
    l.filter (fun e => decide (e.pkt_num > node.pkt_num)) = l.take i := by
  have hi : i < l.length := List.get?_eq_some.mp hnode |>.1
  have hdrop : l.drop i = node :: l.drop (i + 1) := by
    have := List.drop_eq_getElem_cons hi
    rw [this]
    have h2 : l[i] = node := by
      have := List.get?_eq_some.mp hnode
      obtain ⟨_, h3⟩ := this
      simpa using h3
    rw [h2]
  have hsplit : l = l.take i ++ node :: l.drop (i + 1) := by
    conv_lhs => rw [← List.take_append_drop i l, hdrop]
  have hs' : ent_descending (l.take i ++ node :: l.drop (i + 1)) := by
    rw [← hsplit]; exact hs
  unfold ent_descending at hs'
  rw [List.pairwise_append] at hs'
  obtain ⟨_, h2, h3⟩ := hs'
  have h2' := List.pairwise_cons.mp h2
  conv_lhs => rw [hsplit]
  rw [List.filter_append]
  have e1 : (l.take i).filter (fun e => decide (e.pkt_num > node.pkt_num)) = l.take i := by
    rw [List.filter_eq_self]
    intro a ha
    have := h3 a ha node (List.mem_cons_self _ _)
    simpa using this
  have e2 : (node :: l.drop (i + 1)).filter (fun e => decide (e.pkt_num > node.pkt_num)) = [] := by
    rw [List.filter_eq_nil_iff]
    intro a ha
    rcases List.mem_cons.mp ha with h | h
    · subst h; simp
    · have := h2'.1 a h
      simp only [decide_eq_true_eq]
      omega
  rw [e1, e2, List.append_nil]

/-- C6: on a tracker with a strictly descending list and `nack` equal to its
length, `ngtcp2_acktr_forget` applied to the node at position `i` leaves exactly
the nodes in front of it, in their order (these are the nodes with a larger
`pkt_num`), removes the node and all that follow, and lowers `nack` by the
number of removed nodes; for the head (`i = 0`) the list becomes empty and
`nack` becomes 0. -/
theorem forget_removes_node_and_followers (acktr : ngtcp2_acktr) (i : Nat)
    (node : ngtcp2_acktr_entry) (hnode : acktr.ent.get? i = some node)
    (hs : ent_descending acktr.ent)
    (hn : acktr.nack = acktr.ent.length) :
    ∃ a, ngtcp2_acktr_forget acktr i = some a ∧
      a.ent = acktr.ent.take i ∧
      a.ent = acktr.ent.filter (fun e => decide (e.pkt_num > node.pkt_num)) ∧
      a.nack + (acktr.ent.length - a.ent.length) = acktr.nack ∧
      acktr.ent.length - a.ent.length = (acktr.ent.drop i).length ∧
      (i = 0 → a.ent = [] ∧ a.nack = 0) := by
  have hi : i < acktr.ent.length := List.get?_eq_some.mp hnode |>.1
  have hloop : forget_loop (acktr.ent.drop i) acktr.nack = acktr.nack - (acktr.ent.drop i).length :=
    forget_loop_eq _ _ (by simp; omega)
  have hfil := filter_gt_eq_take acktr.ent i node hs hnode
  unfold ngtcp2_acktr_forget
  rw [if_pos hi]
  by_cases h0 : i = 0
  · subst h0
    refine ⟨_, rfl, ?_⟩
    simp only [hloop, hfil]
    simp
    omega
  · rw [if_pos h0]
    refine ⟨_, rfl, ?_⟩
    simp only [hloop, hfil]
    simp [h0]
    omega

theorem forget_removes_node_and_followers_witness :
    ∃ a, ngtcp2_acktr_forget
        { ngtcp2_acktr_init with
          ent := [⟨9, 1, 0⟩, ⟨5, 2, 0⟩, ⟨2, 3, 1⟩], nack := 3, tail := .node 2 } 1 = some a ∧
      a.ent = [⟨9, 1, 0⟩] ∧ a.nack = 1 := by
  obtain ⟨a, h1, h2, _, h4, _⟩ := forget_removes_node_and_followers
    { ngtcp2_acktr_init with
      ent := [⟨9, 1, 0⟩, ⟨5, 2, 0⟩, ⟨2, 3, 1⟩], nack := 3, tail := .node 2 } 1 ⟨5, 2, 0⟩
    (by decide) (by decide) (by decide)
  refine ⟨a, h1, by simpa using h2, ?_⟩
  rw [h2] at h4
  simp at h4
  omega

/-! ## ngtcp2_acktr_add on a well-formed tracker -/

theorem add_find_spec (x : Nat) (l : List ngtcp2_acktr_entry) (hs : ent_descending l)
    (hx : ∀ e ∈ l, e.pkt_num ≠ x) :
    ∃ p, add_find x l = some p ∧ p ≤ l.length ∧
      (∀ e ∈ l.take p, e.pkt_num > x) ∧ (∀ e ∈ l.drop p, e.pkt_num < x) := by
  induction l with
  | nil => exact ⟨0, rfl, by simp, by simp, by simp⟩
  | cons e rest ih =>
    have hs' := List.pairwise_cons.mp hs
    have hne : e.pkt_num ≠ x := hx e (List.mem_cons_self _ _)
    by_cases hgt : e.pkt_num > x
    · obtain ⟨p, hp, hle, h1, h2⟩ := ih hs'.2 (fun e' he' => hx e' (List.mem_cons_of_mem _ he'))
      refine ⟨p + 1, by simp [add_find, hgt, hp], by simp; omega, ?_, ?_⟩
      · intro a ha
        simp only [List.take_succ_cons, List.mem_cons] at ha
        rcases ha with h | h
        · subst h; exact hgt
        · exact h1 a h
      · intro a ha
        simp only [List.drop_succ_cons] at ha
        exact h2 a ha
    · refine ⟨0, by simp [add_find, hgt, hne], by simp, by simp, ?_⟩
      intro a ha
      simp only [List.drop_zero, List.mem_cons] at ha
      rcases ha with h | h
      · subst h; omega
      · have := hs'.1 a h
        omega

theorem insert_descending (l : List ngtcp2_acktr_entry) (ent : ngtcp2_acktr_entry) (p : Nat)
    (hs : ent_descending l)
    (h1 : ∀ e ∈ l.take p, e.pkt_num > ent.pkt_num)
    (h2 : ∀ e ∈ l.drop p, e.pkt_num < ent.pkt_num) :
    ent_descending (l.take p ++ ent :: l.drop p) := by
  have hsplit : ent_descending (l.take p ++ l.drop p) := by
    rw [List.take_append_drop]; exact hs
  unfold ent_descending at hsplit ⊢
  rw [List.pairwise_append] at hsplit ⊢
  obtain ⟨ha, hb, hc⟩ := hsplit
  refine ⟨ha, List.pairwise_cons.mpr ⟨fun a h => h2 a h, hb⟩, ?_⟩
  intro a ha' b hb'
  rcases List.mem_cons.mp hb' with h | h
  · subst h; exact h1 a ha'
  · exact hc a ha' b h

theorem insert_perm (l : List ngtcp2_acktr_entry) (ent : ngtcp2_acktr_entry) (p : Nat) :
    (l.take p ++ ent :: l.drop p).Perm (ent :: l) := by
  have h1 : (l.take p ++ ent :: l.drop p).Perm (ent :: (l.take p ++ l.drop p)) :=
    List.perm_middle
  rwa [List.take_append_drop] at h1

/-- What `ngtcp2_acktr_add` does on a well-formed tracker for a packet number that is
not in the list: it returns 0, the node is linked in at its place in the
descending order and, if the list then exceeds the capacity, the last node is
unlinked. -/
theorem add_spec (MAX_ENT : Nat) (acktr : ngtcp2_acktr) (ent : ngtcp2_acktr_entry)
    (active_ack : Int) (ts : Nat)
    (hinv : list_inv MAX_ENT acktr) (htail : tail_ok acktr)
    (hn : acktr.nack + 1 < 2 ^ 64)
    (hx : ∀ e ∈ acktr.ent, e.pkt_num ≠ ent.pkt_num) :
    ∃ p a, ngtcp2_acktr_add MAX_ENT acktr ent active_ack ts = some (0, a) ∧
      p ≤ acktr.ent.length ∧
      ent_descending (acktr.ent.take p ++ ent :: acktr.ent.drop p) ∧
      a.ent = (acktr.ent.take p ++ ent :: acktr.ent.drop p).take MAX_ENT ∧
      list_inv MAX_ENT a ∧ tail_ok a ∧
      a.acks = acktr.acks ∧ a.hs_acks = acktr.hs_acks ∧
      a.last_hs_ack_pkt_num = acktr.last_hs_ack_pkt_num := by
  obtain ⟨hs, hnack, hcap⟩ := hinv
  obtain ⟨p, hp, hle, h1, h2⟩ := add_find_spec ent.pkt_num acktr.ent hs hx
  have hdesc := insert_descending acktr.ent ent p hs h1 h2
  have hlen : (acktr.ent.take p ++ ent :: acktr.ent.drop p).length = acktr.ent.length + 1 := by
    simp; omega
  have htl : (if p < acktr.ent.length then acktr.tail.after_insert p else entry_ptr.node p)
      = entry_ptr.node acktr.ent.length := by
    by_cases hlt : p < acktr.ent.length
    · have hne : acktr.ent ≠ [] := by
        intro h; rw [h] at hlt; simp at hlt
      rw [if_pos hlt, htail hne]
      have : p ≤ acktr.ent.length - 1 := by omega
      simp only [entry_ptr.after_insert, this, if_true]
      congr 1; omega
    · rw [if_neg hlt]; congr 1; omega
  have hinc : size_inc acktr.nack = acktr.ent.length + 1 := by
    rw [size_inc_eq _ hn, hnack]
  unfold ngtcp2_acktr_add
  simp only [hp, htl, hinc, hlen]
  by_cases hev : acktr.ent.length + 1 > MAX_ENT
  · have hM : acktr.ent.length = MAX_ENT := by omega
    rw [if_pos hev, if_pos (by omega)]
    refine ⟨p, _, rfl, hle, hdesc, by simp only [hM], ?_, ?_, rfl, rfl, rfl⟩
    · refine ⟨?_, ?_, ?_⟩
      · exact List.Pairwise.sublist (List.take_sublist _ _) hdesc
      · simp only [List.length_take, hlen]
        rw [size_dec_eq _ (by omega)]; omega
      · simp only []
        rw [size_dec_eq _ (by omega)]; omega
    · intro hne
      simp only [List.length_take, hlen] at hne ⊢
      have hpos : 0 < acktr.ent.length := by
        rcases Nat.eq_zero_or_pos acktr.ent.length with h0 | h0
        · exfalso; apply hne; rw [h0, List.take_zero]
        · exact h0
      obtain ⟨k, hk⟩ : ∃ k, acktr.ent.length = k + 1 := ⟨acktr.ent.length - 1, by omega⟩
      rw [hk]
      simp [ngtcp2_struct_of]
  · rw [if_neg hev]
    refine ⟨p, _, rfl, hle, hdesc, ?_, ?_, ?_, rfl, rfl, rfl⟩
    · exact (List.take_of_length_le (by rw [hlen]; omega)).symm
    · exact ⟨hdesc, by simp only [hlen], by simp only []; omega⟩
    · intro _
      simp only [hlen]
      rfl

/-! ## C3: insertion in any order -/

theorem add_seq_spec (MAX_ENT : Nat) (calls : List (ngtcp2_acktr_entry × Int × Nat))
    (acktr : ngtcp2_acktr)
    (hinv : list_inv MAX_ENT acktr) (htail : tail_ok acktr)
    (hlen : acktr.ent.length + calls.length ≤ MAX_ENT) (hmax : MAX_ENT < 2 ^ 64)
    (hnd : (calls.map (fun c => c.1.pkt_num)).Nodup)
    (hfresh : ∀ c ∈ calls, ∀ e ∈ acktr.ent, e.pkt_num ≠ c.1.pkt_num) :
    ∃ a, add_seq MAX_ENT calls acktr = some (List.replicate calls.length 0, a) ∧
      a.ent.Perm (calls.map (fun c => c.1) ++ acktr.ent) ∧
      list_inv MAX_ENT a ∧ tail_ok a := by
  induction calls generalizing acktr with
  | nil => exact ⟨acktr, rfl, by simp, hinv, htail⟩
  | cons c rest ih =>
    obtain ⟨ent, active_ack, ts⟩ := c
    simp only [List.length_cons] at hlen
    simp only [List.map_cons, List.nodup_cons] at hnd
    have hn : acktr.nack + 1 < 2 ^ 64 := by
      have := hinv.2.1
      omega
    obtain ⟨p, a1, hadd, _, _, hent, hinv1, htail1, _⟩ :=
      add_spec MAX_ENT acktr ent active_ack ts hinv htail hn
        (fun e he => hfresh (ent, active_ack, ts) (List.mem_cons_self _ _) e he)
    have hins : a1.ent = acktr.ent.take p ++ ent :: acktr.ent.drop p := by
      rw [hent]
      apply List.take_of_length_le
      simp; omega
    have hperm1 : a1.ent.Perm (ent :: acktr.ent) := by
      rw [hins]; exact insert_perm _ _ _
    have hlen1 : a1.ent.length = acktr.ent.length + 1 := by
      rw [hperm1.length_eq]; simp
    obtain ⟨a, hseq, hperm, hinv2, htail2⟩ := ih a1 hinv1 htail1 (by omega) hnd.2 (by
      intro c hc e he
      rcases List.mem_cons.mp (hperm1.mem_iff.mp he) with h | h
      · subst h
        intro heq
        apply hnd.1
        exact List.mem_map.mpr ⟨c, hc, heq.symm⟩
      · exact hfresh c (List.mem_cons_of_mem _ hc) e h)
    refine ⟨a, ?_, ?_, hinv2, htail2⟩
    · simp only [add_seq, hadd, hseq, List.length_cons, List.replicate_succ]
    · simp only [List.map_cons, List.cons_append]
      refine hperm.trans ?_
      refine (List.perm_append_left_iff _).mpr hperm1 |>.trans ?_
      exact List.perm_middle

theorem init_inv (MAX_ENT : Nat) : list_inv MAX_ENT ngtcp2_acktr_init ∧
    tail_ok ngtcp2_acktr_init := by
  refine ⟨⟨List.Pairwise.nil, rfl, Nat.zero_le _⟩, ?_⟩
  intro h
  exact absurd rfl h

/-- C3: pairwise distinct packet numbers, at most NGTCP2_ACKTR_MAX_ENT of them and
in any order, added one by one to a freshly initialised tracker: every
`ngtcp2_acktr_add` returns 0 and the list read from the head holds exactly the
added entries, strictly descending by `pkt_num`. -/
theorem add_any_order_descending (MAX_ENT : Nat)
    (calls : List (ngtcp2_acktr_entry × Int × Nat))
    (hmax : MAX_ENT < 2 ^ 64) (hlen : calls.length ≤ MAX_ENT)
    (hnd : (calls.map (fun c => c.1.pkt_num)).Nodup) :
    ∃ a, add_seq MAX_ENT calls ngtcp2_acktr_init
        = some (List.replicate calls.length 0, a) ∧
      (ngtcp2_acktr_get a).Perm (calls.map (fun c => c.1)) ∧
      ent_descending (ngtcp2_acktr_get a) ∧
      ((ngtcp2_acktr_get a).map (fun e => e.pkt_num)).Perm
        (calls.map (fun c => c.1.pkt_num)) := by
  obtain ⟨a, hseq, hperm, hinv, _⟩ := add_seq_spec MAX_ENT calls ngtcp2_acktr_init
    (init_inv MAX_ENT).1 (init_inv MAX_ENT).2 (by simpa [ngtcp2_acktr_init] using hlen) hmax hnd
    (by intro c _ e he; simp [ngtcp2_acktr_init] at he)
  have hperm' : a.ent.Perm (calls.map (fun c => c.1)) := by
    simpa [ngtcp2_acktr_init] using hperm
  refine ⟨a, hseq, hperm', hinv.1, ?_⟩
  have := hperm'.map (fun e => e.pkt_num)
  simpa [ngtcp2_acktr_get, List.map_map, Function.comp] using this

theorem add_any_order_descending_witness :
    ∃ a, add_seq 4 [(⟨5, 1, 0⟩, 1, 1), (⟨9, 2, 0⟩, 0, 2), (⟨2, 3, 1⟩, 1, 3), (⟨7, 4, 0⟩, 0, 4)]
        ngtcp2_acktr_init = some ([0, 0, 0, 0], a) ∧
      (ngtcp2_acktr_get a).map (fun e => e.pkt_num) = [9, 7, 5, 2] := by
  obtain ⟨a, h1, _, _, _⟩ := add_any_order_descending 4
    [(⟨5, 1, 0⟩, 1, 1), (⟨9, 2, 0⟩, 0, 2), (⟨2, 3, 1⟩, 1, 3), (⟨7, 4, 0⟩, 0, 4)]
    (by decide) (by decide) (by decide)
  refine ⟨a, h1, ?_⟩
  have h2 : add_seq 4 [(⟨5, 1, 0⟩, 1, 1), (⟨9, 2, 0⟩, 0, 2), (⟨2, 3, 1⟩, 1, 3), (⟨7, 4, 0⟩, 0, 4)]
      ngtcp2_acktr_init = some ([0, 0, 0, 0],
        { ngtcp2_acktr_init with
          ent := [⟨9, 2, 0⟩, ⟨7, 4, 0⟩, ⟨5, 1, 0⟩, ⟨2, 3, 1⟩], tail := .node 3, nack := 4,
          flags := 3, first_unacked_ts := 1 }) := by decide
  rw [h2] at h1
  injection h1 with h1
  injection h1 with _ h1
  rw [← h1]
  rfl

/-! ## C5: capacity eviction -/

theorem add_seq_append (MAX_ENT : Nat) (l1 l2 : List (ngtcp2_acktr_entry × Int × Nat))
    (acktr a1 a2 : ngtcp2_acktr) (r1 r2 : List Int)
    (h1 : add_seq MAX_ENT l1 acktr = some (r1, a1))
    (h2 : add_seq MAX_ENT l2 a1 = some (r2, a2)) :
    add_seq MAX_ENT (l1 ++ l2) acktr = some (r1 ++ r2, a2) := by
  induction l1 generalizing acktr r1 with
  | nil =>
    simp only [add_seq, Option.some.injEq, Prod.mk.injEq] at h1
    obtain ⟨hr, ha⟩ := h1
    subst hr; subst ha
    simpa using h2
  | cons c rest ih =>
    obtain ⟨ent, active_ack, ts⟩ := c
    simp only [add_seq, List.cons_append] at h1 ⊢
    cases hadd : ngtcp2_acktr_add MAX_ENT acktr ent active_ack ts with
    | none => simp [hadd] at h1
    | some x =>
      obtain ⟨rv, a'⟩ := x
      simp only [hadd] at h1 ⊢
      cases hrest : add_seq MAX_ENT rest a' with
      | none => simp [hrest] at h1
      | some y =>
        obtain ⟨rvs, a''⟩ := y
        simp only [hrest, Option.some.injEq, Prod.mk.injEq] at h1
        obtain ⟨hr, ha⟩ := h1
        subst hr; subst ha
        simp [ih a' rvs hrest]

theorem mem_take_of_descending (l : List ngtcp2_acktr_entry) (n : Nat)
    (hs : ent_descending l) (hlen : l.length = n + 1) (e : ngtcp2_acktr_entry) :
    e ∈ l.take n ↔ e ∈ l ∧ ∃ c ∈ l, c.pkt_num < e.pkt_num := by
  have hdrop : ∃ z, l.drop n = [z] := by
    have h1 : (l.drop n).length = 1 := by simp [hlen]
    match hd : l.drop n, h1 with
    | [z], _ => exact ⟨z, rfl⟩
  obtain ⟨z, hz⟩ := hdrop
  have hsplit : l = l.take n ++ [z] := by
    conv_lhs => rw [← List.take_append_drop n l, hz]
  have hs' : ent_descending (l.take n ++ [z]) := by rw [← hsplit]; exact hs
  unfold ent_descending at hs'
  rw [List.pairwise_append] at hs'
  obtain ⟨_, _, hc⟩ := hs'
  constructor
  · intro he
    refine ⟨List.mem_of_mem_take he, z, ?_, hc e he z (List.mem_singleton.mpr rfl)⟩
    rw [hsplit]; simp
  · rintro ⟨he, c, hcl, hlt⟩
    rw [hsplit] at he hcl
    rcases List.mem_append.mp he with h | h
    · exact h
    · exfalso
      have hez : e = z := List.mem_singleton.mp h
      subst hez
      rcases List.mem_append.mp hcl with h' | h'
      · have := hc c h' e (List.mem_singleton.mpr rfl)
        omega
      · have : c = e := List.mem_singleton.mp h'
        subst this
        omega

/-- C5: NGTCP2_ACKTR_MAX_ENT + 1 pairwise distinct packet numbers, in any order,
added one by one to a freshly initialised tracker: every `ngtcp2_acktr_add`
returns 0 (also the last one, whatever it adds), afterwards `nack` and the
number of nodes are NGTCP2_ACKTR_MAX_ENT, the list is strictly descending and it
holds exactly the added entries other than the one with the smallest packet
number. -/
theorem add_evicts_smallest (MAX_ENT : Nat)
    (calls : List (ngtcp2_acktr_entry × Int × Nat))
    (hmax : MAX_ENT + 1 < 2 ^ 64) (hlen : calls.length = MAX_ENT + 1)
    (hnd : (calls.map (fun c => c.1.pkt_num)).Nodup) :
    ∃ a, add_seq MAX_ENT calls ngtcp2_acktr_init
        = some (List.replicate (MAX_ENT + 1) 0, a) ∧
      a.nack = MAX_ENT ∧ a.ent.length = MAX_ENT ∧ ent_descending a.ent ∧
      ∀ e, e ∈ a.ent ↔
        (e ∈ calls.map (fun c => c.1) ∧
          ∃ c ∈ calls.map (fun c => c.1), c.pkt_num < e.pkt_num) := by
  have hne : calls ≠ [] := by
    intro h; rw [h] at hlen; simp at hlen
  obtain ⟨front, last, hsplit⟩ : ∃ front last, calls = front ++ [last] :=
    ⟨calls.dropLast, calls.getLast hne, (List.dropLast_append_getLast hne).symm⟩
  subst hsplit
  obtain ⟨ent, active_ack, ts⟩ := last
  simp only [List.length_append, List.length_singleton, Nat.add_right_cancel_iff] at hlen
  simp only [List.map_append, List.map_cons, List.map_nil] at hnd ⊢
  have hnd' := List.nodup_append.mp hnd
  obtain ⟨a1, hseq1, hperm1, hinv1, htail1⟩ := add_seq_spec MAX_ENT front ngtcp2_acktr_init
    (init_inv MAX_ENT).1 (init_inv MAX_ENT).2
    (by simp [ngtcp2_acktr_init]; omega) (by omega) hnd'.1
    (by intro c _ e he; simp [ngtcp2_acktr_init] at he)
  have hperm1' : a1.ent.Perm (front.map (fun c => c.1)) := by
    simpa [ngtcp2_acktr_init] using hperm1
  have hlen1 : a1.ent.length = MAX_ENT := by
    rw [hperm1'.length_eq]; simpa using hlen
  have hfresh : ∀ e ∈ a1.ent, e.pkt_num ≠ ent.pkt_num := by
    intro e he heq
    have hmem : e ∈ front.map (fun c => c.1) := hperm1'.mem_iff.mp he
    obtain ⟨c, hc, hce⟩ := List.mem_map.mp hmem
    have hd := hnd'.2.2
    exact hd (List.mem_map.mpr ⟨c, hc, by rw [hce]; exact heq⟩) (List.mem_singleton.mpr rfl)
  obtain ⟨p, a, hadd, _, hdesc, hent, hinv, _, _⟩ :=
    add_spec MAX_ENT a1 ent active_ack ts hinv1 htail1
      (by have := hinv1.2.1; omega) hfresh
  have hseq2 : add_seq MAX_ENT [(ent, active_ack, ts)] a1 = some ([0], a) := by
    simp [add_seq, hadd]
  have hseq := add_seq_append MAX_ENT front [(ent, active_ack, ts)] ngtcp2_acktr_init a1 a
    _ _ hseq1 hseq2
  have hinslen : (a1.ent.take p ++ ent :: a1.ent.drop p).length = MAX_ENT + 1 := by
    rw [(insert_perm a1.ent ent p).length_eq]; simp [hlen1]
  have hpermall : (a1.ent.take p ++ ent :: a1.ent.drop p).Perm
      (front.map (fun c => c.1) ++ [ent]) := by
    refine (insert_perm a1.ent ent p).trans ?_
    refine (List.Perm.cons ent hperm1').trans ?_
    exact (List.perm_append_singleton _ _).symm
  refine ⟨a, ?_, ?_, ?_, hinv.1, ?_⟩
  · rw [hseq, hlen]
    congr 2
    rw [List.replicate_succ', ]
  · rw [hinv.2.1, hent, List.length_take, hinslen]; omega
  · rw [hent, List.length_take, hinslen]; omega
  · intro e
    rw [hent, mem_take_of_descending _ MAX_ENT hdesc hinslen e]
    constructor
    · rintro ⟨he, c, hc, hlt⟩
      exact ⟨hpermall.mem_iff.mp he, c, hpermall.mem_iff.mp hc, hlt⟩
    · rintro ⟨he, c, hc, hlt⟩
      exact ⟨hpermall.mem_iff.mpr he, c, hpermall.mem_iff.mpr hc, hlt⟩

theorem add_evicts_smallest_witness :
    ∃ a, add_seq 2 [(⟨5, 1, 0⟩, 1, 1), (⟨9, 2, 0⟩, 0, 2), (⟨2, 3, 1⟩, 1, 3)]
        ngtcp2_acktr_init = some ([0, 0, 0], a) ∧
      a.nack = 2 ∧ a.ent.length = 2 ∧
      (⟨2, 3, 1⟩ : ngtcp2_acktr_entry) ∉ a.ent ∧ (⟨5, 1, 0⟩ : ngtcp2_acktr_entry) ∈ a.ent := by
  obtain ⟨a, h1, h2, h3, _, h5⟩ := add_evicts_smallest 2
    [(⟨5, 1, 0⟩, 1, 1), (⟨9, 2, 0⟩, 0, 2), (⟨2, 3, 1⟩, 1, 3)]
    (by decide) (by decide) (by decide)
  refine ⟨a, h1, h2, h3, ?_, ?_⟩
  · rw [h5]
    decide
  · rw [h5]
    decide

/-! ## The walks of acktr_on_ack over the list -/

theorem acktr_remove_ent (a : ngtcp2_acktr) (pre rest : List ngtcp2_acktr_entry)
    (e : ngtcp2_acktr_entry) (h : a.ent = pre ++ e :: rest) :
    (acktr_remove a pre.length).ent = pre ++ rest := by
  simp only [acktr_remove, h]
  rw [List.eraseIdx_append_of_length_le (Nat.le_refl _)]
  simp

theorem drop_cons_facts (l : List ngtcp2_acktr_entry) (p : Nat) (e : ngtcp2_acktr_entry)
    (rest : List ngtcp2_acktr_entry) (h : l.drop p = e :: rest) :
    l = l.take p ++ e :: rest ∧ (l.take p).length = p := by
  have hp : p < l.length := by
    rcases Nat.lt_or_ge p l.length with h1 | h1
    · exact h1
    · rw [List.drop_of_length_le h1] at h; cases h
  refine ⟨?_, ?_⟩
  · conv_lhs => rw [← List.take_append_drop p l, h]
  · rw [List.length_take]; omega

theorem covered_blk_lt (mn : Nat) (blks : List ngtcp2_ack_blk) (n : Nat)
    (hv : blks_valid mn blks)
    (hc : covered (decoded_blk_ranges mn blks) n = true) : n < mn := by
  induction blks generalizing mn with
  | nil => simp [decoded_blk_ranges, covered] at hc
  | cons b bs ih =>
    obtain ⟨h1, h2, h3⟩ := hv
    have e1 : u64_sub (u64_sub mn b.gap) 2 = mn - b.gap - 2 := by
      rw [u64_sub_eq mn b.gap (by omega), u64_sub_eq _ 2 (by omega)]
    have e2 : u64_sub (mn - b.gap - 2) b.blklen = mn - b.gap - 2 - b.blklen :=
      u64_sub_eq _ _ h2
    simp only [decoded_blk_ranges, e1, e2, covered_cons, Bool.or_eq_true, Bool.and_eq_true,
      decide_eq_true_eq] at hc
    rcases hc with hc | hc
    · omega
    · have := ih _ h3 hc
      omega

theorem on_ack_seek_spec (la : Nat) (l : List ngtcp2_acktr_entry)
    (hs : ent_descending l) :
    ∃ pre suf, l = pre ++ suf ∧ on_ack_seek la l 0 = pre.length ∧
      (∀ e ∈ pre, e.pkt_num > la) ∧ (∀ e ∈ suf, e.pkt_num ≤ la) := by
  have gen : ∀ (l : List ngtcp2_acktr_entry) (j : Nat), ent_descending l →
      ∃ pre suf, l = pre ++ suf ∧ on_ack_seek la l j = j + pre.length ∧
        (∀ e ∈ pre, e.pkt_num > la) ∧ (∀ e ∈ suf, e.pkt_num ≤ la) := by
    intro l
    induction l with
    | nil => intro j _; exact ⟨[], [], rfl, rfl, by simp, by simp⟩
    | cons e rest ih =>
      intro j hs
      have hs' := List.pairwise_cons.mp hs
      by_cases hge : la ≥ e.pkt_num
      · refine ⟨[], e :: rest, rfl, by simp [on_ack_seek, hge], by simp, ?_⟩
        intro a ha
        rcases List.mem_cons.mp ha with h | h
        · subst h; exact hge
        · have := hs'.1 a h; omega
      · obtain ⟨pre, suf, h1, h2, h3, h4⟩ := ih (j + 1) hs'.2
        refine ⟨e :: pre, suf, by simp [h1], ?_, ?_, h4⟩
        · simp only [on_ack_seek, if_neg hge, h2, List.length_cons]; omega
        · intro a ha
          rcases List.mem_cons.mp ha with h | h
          · subst h; omega
          · exact h3 a h
  obtain ⟨pre, suf, h1, h2, h3, h4⟩ := gen l 0 hs
  exact ⟨pre, suf, h1, by simpa using h2, h3, h4⟩

theorem filter_eq_self_of_lt (mn la : Nat) (l : List ngtcp2_acktr_entry)
    (h : ∀ e ∈ l, e.pkt_num < mn) :
    l.filter (fun e => !(decide (mn ≤ e.pkt_num) && decide (e.pkt_num ≤ la))) = l := by
  rw [List.filter_eq_self]
  intro a ha
  have := h a ha
  simp only [Bool.not_eq_true', Bool.and_eq_false_iff, decide_eq_false_iff_not]
  left; omega

theorem on_ack_first_ent (la mn : Nat) (suf : List ngtcp2_acktr_entry) (a : ngtcp2_acktr)
    (pre : List ngtcp2_acktr_entry) (hent : a.ent = pre ++ suf) (hs : ent_descending suf)
    (hle : ∀ e ∈ suf, e.pkt_num ≤ la) :
    ∃ S, (on_ack_first la mn suf a pre.length).ent = pre ++ S ∧
      S = suf.filter (fun e => !(decide (mn ≤ e.pkt_num) && decide (e.pkt_num ≤ la))) ∧
      (∀ e ∈ S, e.pkt_num < mn) ∧ ent_descending S := by
  induction suf generalizing a with
  | nil => exact ⟨[], by simpa [on_ack_first] using hent, rfl, by simp, List.Pairwise.nil⟩
  | cons e rest ih =>
    have hs' := List.pairwise_cons.mp hs
    have hela := hle e (List.mem_cons_self _ _)
    by_cases hin : mn ≤ e.pkt_num ∧ e.pkt_num ≤ la
    · obtain ⟨S, h1, h2, h3, h4⟩ := ih (acktr_remove a pre.length)
        (acktr_remove_ent a pre rest e hent) hs'.2
        (fun x hx => hle x (List.mem_cons_of_mem _ hx))
      refine ⟨S, by simp only [on_ack_first, if_pos hin, h1], ?_, h3, h4⟩
      rw [h2, List.filter_cons]
      simp [hin.1, hin.2]
    · have hlt : ∀ x ∈ e :: rest, x.pkt_num < mn := by
        intro x hx
        rcases List.mem_cons.mp hx with h | h
        · subst h; omega
        · have := hs'.1 x h; omega
      refine ⟨e :: rest, by simp only [on_ack_first, if_neg hin, hent], ?_, hlt, hs⟩
      exact (filter_eq_self_of_lt mn la _ hlt).symm

theorem on_ack_blk_ent (la mn : Nat) (suf : List ngtcp2_acktr_entry) (a : ngtcp2_acktr)
    (pre : List ngtcp2_acktr_entry) (hent : a.ent = pre ++ suf) (hs : ent_descending suf) :
    ∃ K S, (on_ack_blk la mn suf a pre.length).1.ent = pre ++ K ++ S ∧
      (on_ack_blk la mn suf a pre.length).2 = (pre ++ K).length ∧
      K ++ S = suf.filter (fun e => !(decide (mn ≤ e.pkt_num) && decide (e.pkt_num ≤ la))) ∧
      (∀ e ∈ K, e.pkt_num > la) ∧ (∀ e ∈ S, e.pkt_num < mn) ∧ ent_descending S := by
  induction suf generalizing a pre with
  | nil =>
    exact ⟨[], [], by simpa [on_ack_blk] using hent, by simp [on_ack_blk], rfl, by simp,
      by simp, List.Pairwise.nil⟩
  | cons e rest ih =>
    have hs' := List.pairwise_cons.mp hs
    by_cases hgt : e.pkt_num > la
    · obtain ⟨K, S, h1, h2, h3, h4, h5, h6⟩ := ih a (pre ++ [e]) (by simp [hent]) hs'.2
      have hl : (pre ++ [e]).length = pre.length + 1 := by simp
      rw [hl] at h1 h2
      refine ⟨e :: K, S, ?_, ?_, ?_, ?_, h5, h6⟩
      · simp only [on_ack_blk, if_pos hgt, h1]; simp
      · simp only [on_ack_blk, if_pos hgt, h2]; simp
      · rw [List.filter_cons]
        have : ¬ e.pkt_num ≤ la := by omega
        simp [this, h3]
      · intro x hx
        rcases List.mem_cons.mp hx with h | h
        · subst h; exact hgt
        · exact h4 x h
    · by_cases hlt : e.pkt_num < mn
      · have hall : ∀ x ∈ e :: rest, x.pkt_num < mn := by
          intro x hx
          rcases List.mem_cons.mp hx with h | h
          · subst h; exact hlt
          · have := hs'.1 x h; omega
        refine ⟨[], e :: rest, ?_, ?_, ?_, by simp, hall, hs⟩
        · simp only [on_ack_blk, if_neg hgt, if_pos hlt, hent]; simp
        · simp only [on_ack_blk, if_neg hgt, if_pos hlt]; simp
        · simpa using (filter_eq_self_of_lt mn la _ hall).symm
      · obtain ⟨K, S, h1, h2, h3, h4, h5, h6⟩ := ih (acktr_remove a pre.length) pre
          (acktr_remove_ent a pre rest e hent) hs'.2
        refine ⟨K, S, ?_, ?_, ?_, h4, h5, h6⟩
        · simp only [on_ack_blk, if_neg hgt, if_neg hlt, h1]
        · simp only [on_ack_blk, if_neg hgt, if_neg hlt, h2]
        · rw [List.filter_cons]
          have h7 : mn ≤ e.pkt_num := by omega
          have h8 : e.pkt_num ≤ la := by omega
          simp [h7, h8, h3]

theorem on_ack_blks_ent (blks : List ngtcp2_ack_blk) (mn : Nat) (a : ngtcp2_acktr)
    (pre suf : List ngtcp2_acktr_entry) (hent : a.ent = pre ++ suf)
    (hs : ent_descending suf) (hv : blks_valid mn blks) :
    (on_ack_blks blks mn a pre.length).ent
      = pre ++ suf.filter (fun e => !covered (decoded_blk_ranges mn blks) e.pkt_num) := by
  induction blks generalizing mn a pre suf with
  | nil => simp [on_ack_blks, decoded_blk_ranges, covered, hent]
  | cons b bs ih =>
    obtain ⟨hv1, hv2, hv3⟩ := hv
    have e1 : u64_sub (u64_sub mn b.gap) 2 = mn - b.gap - 2 := by
      rw [u64_sub_eq mn b.gap (by omega), u64_sub_eq _ 2 (by omega)]
    have e2 : u64_sub (mn - b.gap - 2) b.blklen = mn - b.gap - 2 - b.blklen :=
      u64_sub_eq _ _ hv2
    simp only [on_ack_blks, decoded_blk_ranges, e1, e2]
    by_cases hp : pre.length < a.ent.length
    · rw [if_pos hp]
      have hdrop : a.ent.drop pre.length = suf := by rw [hent, List.drop_left]
      rw [hdrop]
      obtain ⟨K, S, h1, h2, h3, h4, h5, h6⟩ :=
        on_ack_blk_ent (mn - b.gap - 2) (mn - b.gap - 2 - b.blklen) suf a pre hent hs
      rw [h2]
      rw [ih (mn - b.gap - 2 - b.blklen) _ (pre ++ K) S h1 h6 hv3]
      rw [List.append_assoc]
      congr 1
      have hK : K.filter (fun e =>
          !covered (decoded_blk_ranges (mn - b.gap - 2 - b.blklen) bs) e.pkt_num) = K := by
        rw [List.filter_eq_self]
        intro x hx
        have hx' := h4 x hx
        cases hc : covered (decoded_blk_ranges (mn - b.gap - 2 - b.blklen) bs) x.pkt_num with
        | false => rfl
        | true =>
          have := covered_blk_lt _ _ _ hv3 hc
          omega
      have hsplit : suf.filter (fun e =>
          !covered ((mn - b.gap - 2 - b.blklen, mn - b.gap - 2) ::
            decoded_blk_ranges (mn - b.gap - 2 - b.blklen) bs) e.pkt_num)
          = (K ++ S).filter (fun e =>
            !covered (decoded_blk_ranges (mn - b.gap - 2 - b.blklen) bs) e.pkt_num) := by
        rw [h3, List.filter_filter]
        apply List.filter_congr
        intro x _
        simp only [covered_cons, Bool.not_or]
        rw [Bool.and_comm]
      rw [hsplit, List.filter_append, hK]
    · rw [if_neg hp]
      have : suf = [] := by
        rw [hent] at hp
        simp only [List.length_append] at hp
        have : suf.length = 0 := by omega
        exact List.length_eq_zero.mp this
      rw [hent, this]
      simp

theorem drop_cons_step (a : ngtcp2_acktr) (p : Nat) (e : ngtcp2_acktr_entry)
    (rest : List ngtcp2_acktr_entry) (h : a.ent.drop p = e :: rest) :
    p < a.ent.length ∧ (acktr_remove a p).ent.drop p = rest ∧ a.ent.drop (p + 1) = rest := by
  obtain ⟨h1, h2⟩ := drop_cons_facts a.ent p e rest h
  refine ⟨?_, ?_, ?_⟩
  · rcases Nat.lt_or_ge p a.ent.length with h3 | h3
    · exact h3
    · rw [List.drop_of_length_le h3] at h; cases h
  · have := acktr_remove_ent a (a.ent.take p) rest e h1
    rw [h2] at this
    rw [this]
    exact List.drop_left' h2
  · have h3 : a.ent.drop (p + 1) = (a.ent.drop p).drop 1 := by
      rw [List.drop_drop, Nat.add_comm]
    rw [h3, h]
    rfl

theorem on_ack_first_pres (P : ngtcp2_acktr → Prop)
    (hP : ∀ a p, p < a.ent.length → P a → P (acktr_remove a p))
    (la mn : Nat) (suf : List ngtcp2_acktr_entry) (a : ngtcp2_acktr) (p : Nat)
    (hdrop : a.ent.drop p = suf) (h : P a) :
    P (on_ack_first la mn suf a p) ∧
      (on_ack_first la mn suf a p).ent.length ≤ a.ent.length := by
  induction suf generalizing a with
  | nil => exact ⟨h, Nat.le_refl _⟩
  | cons e rest ih =>
    obtain ⟨h1, h2, _⟩ := drop_cons_step a p e rest hdrop
    simp only [on_ack_first]
    split
    · have := ih (acktr_remove a p) h2 (hP a p h1 h)
      refine ⟨this.1, Nat.le_trans this.2 ?_⟩
      simp only [acktr_remove]
      exact List.length_eraseIdx_le _ _
    · exact ⟨h, Nat.le_refl _⟩

theorem on_ack_blk_pres (P : ngtcp2_acktr → Prop)
    (hP : ∀ a p, p < a.ent.length → P a → P (acktr_remove a p))
    (la mn : Nat) (suf : List ngtcp2_acktr_entry) (a : ngtcp2_acktr) (p : Nat)
    (hdrop : a.ent.drop p = suf) (h : P a) :
    P (on_ack_blk la mn suf a p).1 := by
  induction suf generalizing a p with
  | nil => exact h
  | cons e rest ih =>
    obtain ⟨h1, h2, h3⟩ := drop_cons_step a p e rest hdrop
    simp only [on_ack_blk]
    split
    · exact ih a (p + 1) h3 h
    · split
      · exact h
      · exact ih (acktr_remove a p) p h2 (hP a p h1 h)

theorem on_ack_blks_pres (P : ngtcp2_acktr → Prop)
    (hP : ∀ a p, p < a.ent.length → P a → P (acktr_remove a p))
    (blks : List ngtcp2_ack_blk) (mn : Nat) (a : ngtcp2_acktr) (p : Nat) (h : P a) :
    P (on_ack_blks blks mn a p) := by
  induction blks generalizing mn a p with
  | nil => exact h
  | cons b bs ih =>
    simp only [on_ack_blks]
    split
    · exact ih _ _ _ (on_ack_blk_pres P hP _ _ _ a p rfl h)
    · exact h

theorem filter_not_covered_self (rs : List (Nat × Nat)) (l : List ngtcp2_acktr_entry)
    (h : ∀ e ∈ l, covered rs e.pkt_num = false) :
    l.filter (fun e => !covered rs e.pkt_num) = l := by
  rw [List.filter_eq_self]
  intro a ha
  simp [h a ha]

/-- The shape of `acktr_on_ack` for a live slot `j` holding `rec`: the handshake
bookkeeping gives `a0`, the walk over the list gives `w`, and the ring buffer is
cut at `j`. -/
theorem acktr_on_ack_shape (acktr : ngtcp2_acktr) (rb : ringbuf_ref) (j : Nat)
    (rec : ngtcp2_acktr_ack_entry)
    (hrec : ngtcp2_ringbuf_get (rb.get acktr) j = some rec) :
    ∃ a0 w, acktr_on_ack acktr rb j
        = some (rb.set w (ngtcp2_ringbuf_resize (rb.get w) j)) ∧
      a0 = (if rec.pkt_num ≥ acktr.last_hs_ack_pkt_num then
              { acktr with
                flags := acktr.flags ||| NGTCP2_ACKTR_FLAG_ACK_FINISHED_ACK
                last_hs_ack_pkt_num := UINT64_MAX }
            else acktr) ∧
      (∀ P : ngtcp2_acktr → Prop,
        (∀ a p, p < a.ent.length → P a → P (acktr_remove a p)) → P a0 → P w) ∧
      (ent_descending acktr.ent → ack_valid rec.ack →
        w.ent = acktr.ent.filter (fun e => !covered (decoded_ranges rec.ack) e.pkt_num)) := by
  unfold acktr_on_ack
  rw [hrec]
  simp only []
  generalize ha0 : (if rec.pkt_num ≥ acktr.last_hs_ack_pkt_num then
              { acktr with
                flags := acktr.flags ||| NGTCP2_ACKTR_FLAG_ACK_FINISHED_ACK
                last_hs_ack_pkt_num := UINT64_MAX }
            else acktr) = a0
  have hent0 : a0.ent = acktr.ent := by
    rw [← ha0]; split <;> rfl
  refine ⟨a0, _, rfl, rfl, ?_, ?_⟩
  · intro P hP h0
    split
    · apply on_ack_blks_pres P hP
      exact (on_ack_first_pres P hP _ _ _ a0 _ rfl h0).1
    · exact h0
  · intro hs hv
    obtain ⟨hv0, hv1, hv2⟩ := hv
    have hs0 : ent_descending a0.ent := by rw [hent0]; exact hs
    obtain ⟨pre, suf, h1, h2, h3, h4⟩ := on_ack_seek_spec rec.ack.largest_ack a0.ent hs0
    have hmn : u64_sub rec.ack.largest_ack rec.ack.first_ack_blklen
        = rec.ack.largest_ack - rec.ack.first_ack_blklen := u64_sub_eq _ _ hv1
    have hsplit := hs0
    rw [h1] at hsplit
    unfold ent_descending at hsplit
    rw [List.pairwise_append] at hsplit
    have hpre : ∀ e ∈ pre, covered (decoded_ranges rec.ack) e.pkt_num = false := by
      intro e he
      have hgt := h3 e he
      cases hc : covered (decoded_ranges rec.ack) e.pkt_num with
      | false => rfl
      | true =>
        simp only [decoded_ranges, hmn, covered_cons, Bool.or_eq_true, Bool.and_eq_true,
          decide_eq_true_eq] at hc
        rcases hc with hc | hc
        · omega
        · have := covered_blk_lt _ _ _ hv2 hc
          omega
    rw [← hent0, h2]
    split
    · rename_i hlt
      have hdrop : a0.ent.drop pre.length = suf := by rw [h1, List.drop_left]
      rw [hdrop, hmn]
      obtain ⟨S, hS1, hS2, hS3, hS4⟩ :=
        on_ack_first_ent rec.ack.largest_ack (rec.ack.largest_ack - rec.ack.first_ack_blklen)
          suf a0 pre h1 hsplit.2.1 h4
      rw [on_ack_blks_ent rec.ack.blks _ _ pre S hS1 hS4 hv2]
      conv_rhs => rw [h1]
      rw [List.filter_append, filter_not_covered_self _ pre hpre]
      congr 1
      rw [hS2, List.filter_filter]
      apply List.filter_congr
      intro x _
      simp only [decoded_ranges, hmn, covered_cons, Bool.not_or]
      rw [Bool.and_comm]
    · rename_i hlt
      have hsuf : suf = [] := by
        rw [h1] at hlt
        simp only [List.length_append] at hlt
        have : suf.length = 0 := by omega
        exact List.length_eq_zero.mp this
      rw [hsuf, List.append_nil] at h1
      rw [h1]
      exact (filter_not_covered_self _ pre hpre).symm

theorem ringbuf_set_fields (rb : ringbuf_ref) (a : ngtcp2_acktr) (v : ngtcp2_ringbuf) :
    (rb.set a v).ent = a.ent ∧ (rb.set a v).nack = a.nack ∧ (rb.set a v).tail = a.tail ∧
      (rb.set a v).flags = a.flags ∧
      (rb.set a v).last_hs_ack_pkt_num = a.last_hs_ack_pkt_num ∧
      (rb.set a v).first_unacked_ts = a.first_unacked_ts ∧
      rb.get (rb.set a v) = v ∧ rb.other.get (rb.set a v) = rb.other.get a := by
  cases rb <;> exact ⟨rfl, rfl, rfl, rfl, rfl, rfl, rfl, rfl⟩

theorem remove_count (a : ngtcp2_acktr) (p : Nat) (hp : p < a.ent.length)
    (h : a.nack = a.ent.length) : (acktr_remove a p).nack = (acktr_remove a p).ent.length := by
  simp only [acktr_remove]
  rw [size_dec_eq _ (by omega), List.length_eraseIdx, if_pos hp, h]

theorem length_filter_split (c : ngtcp2_acktr_entry → Bool) (l : List ngtcp2_acktr_entry) :
    (l.filter (fun e => !c e)).length + (l.filter c).length = l.length := by
  induction l with
  | nil => rfl
  | cons e rest ih =>
    simp only [List.filter_cons]
    cases hc : c e <;> simp <;> omega

/-! ## C1: pruning on a matched ACK -/

/-- C1: for a strictly descending tracked list (with `nack` its length) and a
live ring-buffer slot `j` whose stored frame is valid, `acktr_on_ack` leaves
exactly the original list without the entries whose `pkt_num` lies in a decoded
range of the stored frame (the survivors in their order), and `nack` drops by
the number of entries removed. -/
theorem on_ack_prunes_covered (acktr : ngtcp2_acktr) (rb : ringbuf_ref) (j : Nat)
    (rec : ngtcp2_acktr_ack_entry)
    (hrec : ngtcp2_ringbuf_get (rb.get acktr) j = some rec)
    (hs : ent_descending acktr.ent) (hv : ack_valid rec.ack)
    (hn : acktr.nack = acktr.ent.length) :
    ∃ a, acktr_on_ack acktr rb j = some a ∧
      a.ent = acktr.ent.filter (fun e => !covered (decoded_ranges rec.ack) e.pkt_num) ∧
      a.nack + (acktr.ent.filter
        (fun e => covered (decoded_ranges rec.ack) e.pkt_num)).length = acktr.nack := by
  obtain ⟨a0, w, heq, ha0, hpres, hent⟩ := acktr_on_ack_shape acktr rb j rec hrec
  have hw := hent hs hv
  have hcount : w.nack = w.ent.length := by
    apply hpres (fun a => a.nack = a.ent.length) remove_count
    rw [ha0]; split <;> exact hn
  obtain ⟨f1, f2, _⟩ := ringbuf_set_fields rb w (ngtcp2_ringbuf_resize (rb.get w) j)
  refine ⟨_, heq, by rw [f1, hw], ?_⟩
  rw [f2, hcount, hw, hn]
  exact length_filter_split _ _

theorem on_ack_prunes_covered_witness :
    ∃ a, acktr_on_ack
        { ngtcp2_acktr_init with
          ent := [⟨10, 0, 0⟩, ⟨9, 0, 0⟩, ⟨8, 0, 0⟩, ⟨7, 0, 0⟩, ⟨6, 0, 0⟩, ⟨5, 0, 0⟩,
                  ⟨4, 0, 0⟩, ⟨3, 0, 0⟩],
          nack := 8, tail := .node 7,
          acks := { nmemb := 128, buf := [⟨⟨10, 0, 2, [⟨1, 1⟩]⟩, 20, 5, 1⟩] } }
        .acks 0 = some a ∧
      a.ent = [⟨7, 0, 0⟩, ⟨6, 0, 0⟩, ⟨3, 0, 0⟩] ∧ a.nack + 5 = 8 :=
  on_ack_prunes_covered
    { ngtcp2_acktr_init with
      ent := [⟨10, 0, 0⟩, ⟨9, 0, 0⟩, ⟨8, 0, 0⟩, ⟨7, 0, 0⟩, ⟨6, 0, 0⟩, ⟨5, 0, 0⟩,
              ⟨4, 0, 0⟩, ⟨3, 0, 0⟩],
      nack := 8, tail := .node 7,
      acks := { nmemb := 128, buf := [⟨⟨10, 0, 2, [⟨1, 1⟩]⟩, 20, 5, 1⟩] } }
    .acks 0 ⟨⟨10, 0, 2, [⟨1, 1⟩]⟩, 20, 5, 1⟩ (by decide) (by decide) (by decide) (by decide)

/-! ## The scan of ngtcp2_acktr_recv_ack over the sent-ACK buffer -/

theorem split_first (c : ngtcp2_acktr_ack_entry → Bool)
    (A B K S : List ngtcp2_acktr_ack_entry) (r : ngtcp2_acktr_ack_entry)
    (h : A ++ B = K ++ r :: S) (hA : ∀ x ∈ A, c x = false) (hr : c r = true) :
    ∃ K3, K = A ++ K3 ∧ B = K3 ++ r :: S := by
  induction A generalizing K with
  | nil => exact ⟨K, rfl, h⟩
  | cons a A' ih =>
    cases K with
    | nil =>
      simp only [List.cons_append, List.nil_append, List.cons.injEq] at h
      have := hA a (List.mem_cons_self _ _)
      rw [h.1, hr] at this
      cases this
    | cons k K' =>
      simp only [List.cons_append, List.cons.injEq] at h
      obtain ⟨K3, h1, h2⟩ := ih K' h.2 (fun x hx => hA x (List.mem_cons_of_mem _ hx))
      exact ⟨K3, by rw [h.1, h1]; rfl, h2⟩

theorem first_unique (c : ngtcp2_acktr_ack_entry → Bool)
    (A B K S : List ngtcp2_acktr_ack_entry) (e r : ngtcp2_acktr_ack_entry)
    (h : A ++ e :: B = K ++ r :: S) (hA : ∀ x ∈ A, c x = false) (he : c e = true)
    (hK : ∀ x ∈ K, c x = false) (hr : c r = true) : K = A ∧ r = e := by
  obtain ⟨K3, h1, h2⟩ := split_first c A (e :: B) K S r h hA hr
  cases K3 with
  | nil =>
    simp only [List.nil_append, List.cons.injEq] at h2
    exact ⟨by simpa using h1, h2.1.symm⟩
  | cons k K3' =>
    simp only [List.cons_append, List.cons.injEq] at h2
    have := hK e (by rw [h1, h2.1]; simp)
    rw [he] at this
    cases this

theorem recv_ack_seek_spec (la : Nat) (l : List ngtcp2_acktr_ack_entry)
    (hs : ack_descending l) :
    ∃ pre suf, l = pre ++ suf ∧ recv_ack_seek la l 0 = pre.length ∧
      (∀ e ∈ pre, e.pkt_num > la) ∧ (∀ e ∈ suf, e.pkt_num ≤ la) := by
  have gen : ∀ (l : List ngtcp2_acktr_ack_entry) (j : Nat), ack_descending l →
      ∃ pre suf, l = pre ++ suf ∧ recv_ack_seek la l j = j + pre.length ∧
        (∀ e ∈ pre, e.pkt_num > la) ∧ (∀ e ∈ suf, e.pkt_num ≤ la) := by
    intro l
    induction l with
    | nil => intro j _; exact ⟨[], [], rfl, rfl, by simp, by simp⟩
    | cons e rest ih =>
      intro j hs
      have hs' := List.pairwise_cons.mp hs
      by_cases hge : la ≥ e.pkt_num
      · refine ⟨[], e :: rest, rfl, by simp [recv_ack_seek, hge], by simp, ?_⟩
        intro a ha
        rcases List.mem_cons.mp ha with h | h
        · subst h; exact hge
        · have := hs'.1 a h; omega
      · obtain ⟨pre, suf, h1, h2, h3, h4⟩ := ih (j + 1) hs'.2
        refine ⟨e :: pre, suf, by simp [h1], ?_, ?_, h4⟩
        · simp only [recv_ack_seek, if_neg hge, h2, List.length_cons]; omega
        · intro a ha
          rcases List.mem_cons.mp ha with h | h
          · subst h; omega
          · exact h3 a h
  obtain ⟨pre, suf, h1, h2, h3, h4⟩ := gen l 0 hs
  exact ⟨pre, suf, h1, by simpa using h2, h3, h4⟩

theorem recv_ack_blk_spec (la mn : Nat) (l : List ngtcp2_acktr_ack_entry) (j : Nat)
    (hs : ack_descending l) :
    match recv_ack_blk la mn l j with
    | .ret => ∀ e ∈ l, e.pkt_num > la
    | .brk j' => ∃ A B, l = A ++ B ∧ j' = j + A.length ∧ (∀ e ∈ A, e.pkt_num > la) ∧
        (∀ e ∈ B, e.pkt_num < mn) ∧ ack_descending B
    | .hit j' => ∃ A e B, l = A ++ e :: B ∧ j' = j + A.length ∧ (∀ e ∈ A, e.pkt_num > la) ∧
        mn ≤ e.pkt_num ∧ e.pkt_num ≤ la := by
  induction l generalizing j with
  | nil => simp [recv_ack_blk]
  | cons e rest ih =>
    have hs' := List.pairwise_cons.mp hs
    simp only [recv_ack_blk]
    by_cases hgt : e.pkt_num > la
    · rw [if_pos hgt]
      have := ih (j + 1) hs'.2
      cases hres : recv_ack_blk la mn rest (j + 1) with
      | ret =>
        rw [hres] at this
        intro x hx
        rcases List.mem_cons.mp hx with h | h
        · subst h; exact hgt
        · exact this x h
      | brk j' =>
        rw [hres] at this
        obtain ⟨A, B, h1, h2, h3, h4, h5⟩ := this
        refine ⟨e :: A, B, by simp [h1], by simp only [List.length_cons]; omega, ?_, h4, h5⟩
        intro x hx
        rcases List.mem_cons.mp hx with h | h
        · subst h; exact hgt
        · exact h3 x h
      | hit j' =>
        rw [hres] at this
        obtain ⟨A, e', B, h1, h2, h3, h4, h5⟩ := this
        refine ⟨e :: A, e', B, by simp [h1], by simp only [List.length_cons]; omega, ?_, h4, h5⟩
        intro x hx
        rcases List.mem_cons.mp hx with h | h
        · subst h; exact hgt
        · exact h3 x h
    · rw [if_neg hgt]
      by_cases hlt : e.pkt_num < mn
      · rw [if_pos hlt]
        refine ⟨[], e :: rest, rfl, rfl, by simp, ?_, hs⟩
        intro x hx
        rcases List.mem_cons.mp hx with h | h
        · subst h; exact hlt
        · have := hs'.1 x h; omega
      · rw [if_neg hlt]
        exact ⟨[], e, rest, rfl, rfl, by simp, by omega, by omega⟩

theorem recv_ack_blks_spec (blks : List ngtcp2_ack_blk) (mn : Nat)
    (pre K2 S : List ngtcp2_acktr_ack_entry) (rec : ngtcp2_acktr_ack_entry)
    (hs : ack_descending (K2 ++ rec :: S)) (hv : blks_valid mn blks)
    (hK : ∀ r ∈ K2, covered (decoded_blk_ranges mn blks) r.pkt_num = false)
    (hrec : covered (decoded_blk_ranges mn blks) rec.pkt_num = true) :
    recv_ack_blks blks mn (pre ++ (K2 ++ rec :: S)) pre.length = some (pre ++ K2).length := by
  induction blks generalizing mn pre K2 with
  | nil => simp [decoded_blk_ranges, covered] at hrec
  | cons b bs ih =>
    obtain ⟨hv1, hv2, hv3⟩ := hv
    have e1 : u64_sub (u64_sub mn b.gap) 2 = mn - b.gap - 2 := by
      rw [u64_sub_eq mn b.gap (by omega), u64_sub_eq _ 2 (by omega)]
    have e2 : u64_sub (mn - b.gap - 2) b.blklen = mn - b.gap - 2 - b.blklen :=
      u64_sub_eq _ _ hv2
    simp only [decoded_blk_ranges, e1, e2, covered_cons] at hK hrec
    simp only [recv_ack_blks, e1, e2]
    have hj : pre.length < (pre ++ (K2 ++ rec :: S)).length := by simp
    rw [if_pos hj, List.drop_left]
    have hspec := recv_ack_blk_spec (mn - b.gap - 2) (mn - b.gap - 2 - b.blklen)
      (K2 ++ rec :: S) pre.length hs
    have hrest_lt : ∀ n, covered (decoded_blk_ranges (mn - b.gap - 2 - b.blklen) bs) n = true →
        n < mn - b.gap - 2 - b.blklen := fun n hn => covered_blk_lt _ _ _ hv3 hn
    cases hres : recv_ack_blk (mn - b.gap - 2) (mn - b.gap - 2 - b.blklen)
        (K2 ++ rec :: S) pre.length with
    | ret =>
      rw [hres] at hspec
      exfalso
      have hgt := hspec rec (by simp)
      simp only [Bool.or_eq_true, Bool.and_eq_true, decide_eq_true_eq] at hrec
      rcases hrec with h | h
      · omega
      · have := hrest_lt _ h; omega
    | brk j' =>
      rw [hres] at hspec
      obtain ⟨A, B, h1, h2, h3, h4, h5⟩ := hspec
      simp only []
      have hA : ∀ x ∈ A, (fun r : ngtcp2_acktr_ack_entry =>
          (decide (mn - b.gap - 2 - b.blklen ≤ r.pkt_num) && decide (r.pkt_num ≤ mn - b.gap - 2)
            || covered (decoded_blk_ranges (mn - b.gap - 2 - b.blklen) bs) r.pkt_num)) x
          = false := by
        intro x hx
        have hgt := h3 x hx
        simp only [Bool.or_eq_false_iff, Bool.and_eq_false_iff, decide_eq_false_iff_not]
        refine ⟨Or.inr (by omega), ?_⟩
        cases hc : covered (decoded_blk_ranges (mn - b.gap - 2 - b.blklen) bs) x.pkt_num with
        | false => rfl
        | true => have := hrest_lt _ hc; omega
      obtain ⟨K3, hk1, hk2⟩ := split_first _ A B K2 S rec h1.symm hA hrec
      have hbuf : pre ++ (K2 ++ rec :: S) = (pre ++ A) ++ (K3 ++ rec :: S) := by
        rw [hk1]; simp
      have hj' : j' = (pre ++ A).length := by rw [h2]; simp
      rw [hbuf, hj']
      rw [hk2] at h4 h5
      rw [ih (mn - b.gap - 2 - b.blklen) (pre ++ A) K3 h5 hv3]
      · rw [hk1]; simp
      · intro r hr
        have := hK r (by rw [hk1]; exact List.mem_append_right _ hr)
        simp only [Bool.or_eq_false_iff] at this
        exact this.2
      · have hlt := h4 rec (by simp)
        simp only [Bool.or_eq_true, Bool.and_eq_true, decide_eq_true_eq] at hrec
        rcases hrec with h | h
        · omega
        · exact h
    | hit j' =>
      rw [hres] at hspec
      obtain ⟨A, e, B, h1, h2, h3, h4, h5⟩ := hspec
      simp only []
      have hA : ∀ x ∈ A, (fun r : ngtcp2_acktr_ack_entry =>
          (decide (mn - b.gap - 2 - b.blklen ≤ r.pkt_num) && decide (r.pkt_num ≤ mn - b.gap - 2)
            || covered (decoded_blk_ranges (mn - b.gap - 2 - b.blklen) bs) r.pkt_num)) x
          = false := by
        intro x hx
        have hgt := h3 x hx
        simp only [Bool.or_eq_false_iff, Bool.and_eq_false_iff, decide_eq_false_iff_not]
        refine ⟨Or.inr (by omega), ?_⟩
        cases hc : covered (decoded_blk_ranges (mn - b.gap - 2 - b.blklen) bs) x.pkt_num with
        | false => rfl
        | true => have := hrest_lt _ hc; omega
      have he : (fun r : ngtcp2_acktr_ack_entry =>
          (decide (mn - b.gap - 2 - b.blklen ≤ r.pkt_num) && decide (r.pkt_num ≤ mn - b.gap - 2)
            || covered (decoded_blk_ranges (mn - b.gap - 2 - b.blklen) bs) r.pkt_num)) e
          = true := by
        simp [h4, h5]
      obtain ⟨hKA, _⟩ := first_unique _ A B K2 S e rec h1.symm hA he hK hrec
      rw [h2, hKA]; simp

theorem covered_le_largest (fr : ngtcp2_ack) (n : Nat) (hv : ack_valid fr)
    (hc : covered (decoded_ranges fr) n = true) : n ≤ fr.largest_ack := by
  obtain ⟨_, hv1, hv2⟩ := hv
  have hmn : u64_sub fr.largest_ack fr.first_ack_blklen
      = fr.largest_ack - fr.first_ack_blklen := u64_sub_eq _ _ hv1
  simp only [decoded_ranges, hmn, covered_cons, Bool.or_eq_true, Bool.and_eq_true,
    decide_eq_true_eq] at hc
  rcases hc with hc | hc
  · exact hc.2
  · have := covered_blk_lt _ _ _ hv2 hc
    omega

theorem exists_first (c : ngtcp2_acktr_ack_entry → Bool) (l : List ngtcp2_acktr_ack_entry)
    (h : ∃ r ∈ l, c r = true) :
    ∃ K rec S, l = K ++ rec :: S ∧ (∀ r ∈ K, c r = false) ∧ c rec = true := by
  induction l with
  | nil => simp at h
  | cons e rest ih =>
    cases hc : c e with
    | true => exact ⟨[], e, rest, rfl, by simp, hc⟩
    | false =>
      obtain ⟨r, hr, hcr⟩ := h
      rcases List.mem_cons.mp hr with h1 | h1
      · subst h1; rw [hc] at hcr; cases hcr
      · obtain ⟨K, rec, S, h2, h3, h4⟩ := ih ⟨r, h1, hcr⟩
        refine ⟨e :: K, rec, S, by simp [h2], ?_, h4⟩
        intro x hx
        rcases List.mem_cons.mp hx with h5 | h5
        · subst h5; exact hc
        · exact h3 x h5

theorem get?_append_length (K S : List ngtcp2_acktr_ack_entry) (x : ngtcp2_acktr_ack_entry) :
    (K ++ x :: S).get? K.length = some x := by
  induction K with
  | nil => rfl
  | cons k K' ih => simpa using ih

theorem on_ack_some (acktr : ngtcp2_acktr) (rb : ringbuf_ref) (K S : List ngtcp2_acktr_ack_entry)
    (rec : ngtcp2_acktr_ack_entry) (hbuf : (rb.get acktr).buf = K ++ rec :: S) :
    ngtcp2_ringbuf_get (rb.get acktr) K.length = some rec := by
  simp only [ngtcp2_ringbuf_get, hbuf]
  exact get?_append_length K S rec

/-- What `ngtcp2_acktr_recv_ack` does when the first record of the (descending)
buffer whose `pkt_num` is covered by the (valid) peer frame is `rec`, at index
`K.length`: it calls `acktr_on_ack` for that index, and `ngtcp2_conn_update_rtt`
under the condition of line 324. -/
theorem recv_ack_match (acktr : ngtcp2_acktr) (fr : ngtcp2_ack) (unprotected : Int)
    (conn : Bool) (ts : Nat) (K S : List ngtcp2_acktr_ack_entry)
    (rec : ngtcp2_acktr_ack_entry)
    (hbuf : ((if unprotected ≠ 0 then ringbuf_ref.hs_acks else ringbuf_ref.acks).get
        acktr).buf = K ++ rec :: S)
    (hs : ack_descending (K ++ rec :: S)) (hv : ack_valid fr)
    (hK : ∀ r ∈ K, covered (decoded_ranges fr) r.pkt_num = false)
    (hrec : covered (decoded_ranges fr) rec.pkt_num = true) :
    ∃ a, acktr_on_ack acktr (if unprotected ≠ 0 then ringbuf_ref.hs_acks else ringbuf_ref.acks)
        K.length = some a ∧
      ngtcp2_acktr_recv_ack acktr fr unprotected conn ts
        = some { rv := 0, acktr := a,
                 rtt_calls :=
                  if conn = true ∧ fr.largest_ack = rec.pkt_num ∧ rec.ack_only ≠ 0 then
                    [{ rtt := u64_sub ts rec.ts, ack_delay := fr.ack_delay_unscaled,
                       ack_only := rec.ack_only }]
                  else [] } := by
  unfold ngtcp2_acktr_recv_ack
  simp only []
  generalize (if unprotected ≠ 0 then ringbuf_ref.hs_acks else ringbuf_ref.acks) = rb at hbuf ⊢
  obtain ⟨_, a, hon, _⟩ := acktr_on_ack_shape acktr rb K.length rec (on_ack_some acktr rb K S rec hbuf)
  refine ⟨_, hon, ?_⟩
  obtain ⟨pre, suf, h1, h2, h3, h4⟩ := recv_ack_seek_spec fr.largest_ack (rb.get acktr).buf
    (by rw [hbuf]; exact hs)
  have hv' := hv
  obtain ⟨_, hv1, hv2⟩ := hv'
  have hmn : u64_sub fr.largest_ack fr.first_ack_blklen
      = fr.largest_ack - fr.first_ack_blklen := u64_sub_eq _ _ hv1
  have hpre : ∀ x ∈ pre, (fun r : ngtcp2_acktr_ack_entry =>
      covered (decoded_ranges fr) r.pkt_num) x = false := by
    intro x hx
    have hgt := h3 x hx
    cases hc : covered (decoded_ranges fr) x.pkt_num with
    | false => exact hc
    | true => have := covered_le_largest fr _ hv hc; omega
  obtain ⟨K3, hk1, hk2⟩ := split_first (fun r => covered (decoded_ranges fr) r.pkt_num)
    pre suf K S rec (by rw [← h1, hbuf]) hpre hrec
  have hlen : ngtcp2_ringbuf_len (rb.get acktr) = pre.length + suf.length := by
    simp [ngtcp2_ringbuf_len, h1]
  have hsuflen : 0 < suf.length := by rw [hk2]; simp
  rw [h2, hlen, if_neg (by omega)]
  have hsdesc : ack_descending suf := by
    have := hs
    rw [← hbuf, h1] at this
    unfold ack_descending at this
    exact (List.pairwise_append.mp this).2.1
  cases K3 with
  | nil =>
    simp only [List.nil_append] at hk2
    simp only [List.append_nil] at hk1
    have hget : ngtcp2_ringbuf_get (rb.get acktr) pre.length = some rec := by
      rw [← hk1]; exact on_ack_some acktr rb K S rec hbuf
    rw [hget]
    simp only []
    have hle : rec.pkt_num ≤ fr.largest_ack := covered_le_largest fr _ hv hrec
    by_cases hin : u64_sub fr.largest_ack fr.first_ack_blklen ≤ rec.pkt_num ∧
        rec.pkt_num ≤ fr.largest_ack
    · rw [if_pos hin, ← hk1, hon]
    · rw [if_neg hin]
      have hlt : rec.pkt_num < fr.largest_ack - fr.first_ack_blklen := by
        rw [hmn] at hin; omega
      have hblk : covered (decoded_blk_ranges (fr.largest_ack - fr.first_ack_blklen) fr.blks)
          rec.pkt_num = true := by
        have := hrec
        simp only [decoded_ranges, hmn, covered_cons, Bool.or_eq_true, Bool.and_eq_true,
          decide_eq_true_eq] at this
        rcases this with h | h
        · omega
        · exact h
      have := recv_ack_blks_spec fr.blks (fr.largest_ack - fr.first_ack_blklen) pre [] S rec
        (by rw [hk2] at hsdesc; simpa using hsdesc) hv2 (by simp) hblk
      simp only [List.nil_append, List.append_nil] at this
      rw [h1, hk2, hmn, this]
      simp only []
      rw [← hk1, hon]
      have hne : ¬ (conn = true ∧ fr.largest_ack = rec.pkt_num ∧ rec.ack_only ≠ 0) := by
        intro h; omega
      rw [if_neg hne]
  | cons k K3' =>
    have hget : ngtcp2_ringbuf_get (rb.get acktr) pre.length = some k := by
      simp only [ngtcp2_ringbuf_get, h1, hk2, List.cons_append]
      exact get?_append_length pre _ k
    rw [hget]
    simp only []
    have hkK : k ∈ K := by rw [hk1]; simp
    have hknot := hK k hkK
    have hkle : k.pkt_num ≤ fr.largest_ack := h4 k (by rw [hk2]; simp)
    have hknot' := hknot
    simp only [decoded_ranges, hmn, covered_cons, Bool.or_eq_false_iff, Bool.and_eq_false_iff,
      decide_eq_false_iff_not] at hknot'
    have hklt : k.pkt_num < fr.largest_ack - fr.first_ack_blklen := by
      rcases hknot'.1 with h | h <;> omega
    have hin : ¬ (u64_sub fr.largest_ack fr.first_ack_blklen ≤ k.pkt_num ∧
        k.pkt_num ≤ fr.largest_ack) := by
      rw [hmn]; omega
    rw [if_neg hin]
    have hsuf_lt : ∀ x ∈ suf, x.pkt_num < fr.largest_ack - fr.first_ack_blklen := by
      intro x hx
      rw [hk2] at hx hsdesc
      simp only [List.cons_append] at hx hsdesc
      rcases List.mem_cons.mp hx with h | h
      · subst h; exact hklt
      · have := (List.pairwise_cons.mp hsdesc).1 x h; omega
    have hcov_eq : ∀ x ∈ suf, covered (decoded_ranges fr) x.pkt_num
        = covered (decoded_blk_ranges (fr.largest_ack - fr.first_ack_blklen) fr.blks)
            x.pkt_num := by
      intro x hx
      have := hsuf_lt x hx
      simp only [decoded_ranges, hmn, covered_cons]
      have : ¬ (fr.largest_ack - fr.first_ack_blklen ≤ x.pkt_num) := by omega
      simp [this]
    have := recv_ack_blks_spec fr.blks (fr.largest_ack - fr.first_ack_blklen) pre
      (k :: K3') S rec (by rw [hk2] at hsdesc; exact hsdesc) hv2
      (by
        intro r hr
        rw [← hcov_eq r (by rw [hk2]; exact List.mem_append_left _ hr)]
        exact hK r (by rw [hk1]; exact List.mem_append_right _ hr))
      (by
        rw [← hcov_eq rec (by rw [hk2]; simp)]
        exact hrec)
    rw [h1, hk2, hmn, this]
    simp only []
    rw [← hk1, hon]
    have hreclt := hsuf_lt rec (by rw [hk2]; simp)
    have hne : ¬ (conn = true ∧ fr.largest_ack = rec.pkt_num ∧ rec.ack_only ≠ 0) := by
      intro h; omega
    rw [if_neg hne]

/-! ## C2: which sent record a peer ACK matches -/

theorem get?_of_lt_append (K S : List ngtcp2_acktr_ack_entry) (x r : ngtcp2_acktr_ack_entry)
    (k : Nat) (hk : k < K.length) (h : (K ++ x :: S).get? k = some r) : r ∈ K := by
  rw [List.get?_eq_getElem?, List.getElem?_append_left hk] at h
  exact List.getElem?_mem h

theorem on_ack_bufs (acktr : ngtcp2_acktr) (rb : ringbuf_ref) (j : Nat) (a : ngtcp2_acktr)
    (rec : ngtcp2_acktr_ack_entry)
    (hrec : ngtcp2_ringbuf_get (rb.get acktr) j = some rec)
    (h : acktr_on_ack acktr rb j = some a) :
    (rb.get a).buf = (rb.get acktr).buf.take j ∧ rb.other.get a = rb.other.get acktr := by
  obtain ⟨a0, w, heq, ha0, hpres, _⟩ := acktr_on_ack_shape acktr rb j rec hrec
  rw [heq] at h
  injection h with h
  have hw : w.acks = acktr.acks ∧ w.hs_acks = acktr.hs_acks := by
    apply hpres (fun a => a.acks = acktr.acks ∧ a.hs_acks = acktr.hs_acks)
    · intro a p _ ha; exact ha
    · rw [ha0]; split <;> exact ⟨rfl, rfl⟩
  have hget : rb.get w = rb.get acktr ∧ rb.other.get w = rb.other.get acktr := by
    cases rb
    · exact ⟨hw.1, hw.2⟩
    · exact ⟨hw.2, hw.1⟩
  obtain ⟨_, _, _, _, _, _, f7, f8⟩ := ringbuf_set_fields rb w (ngtcp2_ringbuf_resize (rb.get w) j)
  rw [← h, f7, f8, hget.1, hget.2]
  exact ⟨rfl, rfl⟩

/-- C2: with the carrying packet numbers of the selected sent-ACK buffer strictly
descending from index 0 and a valid peer frame, if some record's `pkt_num` lies
in a decoded range of the peer frame then `ngtcp2_acktr_recv_ack` returns 0
having called `acktr_on_ack` for the smallest index `j` whose record is covered;
afterwards the selected buffer is the original one cut to its first `j`
records (length `j`, records `0..j-1` unchanged) and the other buffer is
unchanged. -/
theorem recv_ack_first_match (acktr : ngtcp2_acktr) (fr : ngtcp2_ack) (unprotected : Int)
    (conn : Bool) (ts : Nat) (rb : ringbuf_ref)
    (hrb : rb = if unprotected ≠ 0 then ringbuf_ref.hs_acks else ringbuf_ref.acks)
    (hs : ack_descending (rb.get acktr).buf) (hv : ack_valid fr)
    (hex : ∃ r ∈ (rb.get acktr).buf, covered (decoded_ranges fr) r.pkt_num = true) :
    ∃ j rec res,
      (rb.get acktr).buf.get? j = some rec ∧
      covered (decoded_ranges fr) rec.pkt_num = true ∧
      (∀ k r, k < j → (rb.get acktr).buf.get? k = some r →
        covered (decoded_ranges fr) r.pkt_num = false) ∧
      ngtcp2_acktr_recv_ack acktr fr unprotected conn ts = some res ∧
      res.rv = 0 ∧
      acktr_on_ack acktr rb j = some res.acktr ∧
      (rb.get res.acktr).buf = (rb.get acktr).buf.take j ∧
      (rb.get res.acktr).buf.length = j ∧
      rb.other.get res.acktr = rb.other.get acktr := by
  obtain ⟨K, rec, S, hbuf, hK, hrec⟩ :=
    exists_first (fun r => covered (decoded_ranges fr) r.pkt_num) _ hex
  subst hrb
  obtain ⟨a, hon, hrecv⟩ := recv_ack_match acktr fr unprotected conn ts K S rec hbuf
    (by rw [← hbuf]; exact hs) hv hK hrec
  have hget := on_ack_some acktr _ K S rec hbuf
  obtain ⟨hb1, hb2⟩ := on_ack_bufs acktr _ K.length a rec hget hon
  refine ⟨K.length, rec, _, hget, hrec, ?_, hrecv, rfl, hon, hb1, ?_, hb2⟩
  · intro k r hk hr
    rw [hbuf] at hr
    exact hK r (get?_of_lt_append K S rec r k hk hr)
  · simp only []
    rw [hb1, hbuf]
    simp

theorem recv_ack_first_match_witness :
    ∃ j rec res,
      [(⟨⟨3, 0, 1, []⟩, 20, 5, 1⟩ : ngtcp2_acktr_ack_entry), ⟨⟨2, 0, 0, []⟩, 14, 4, 0⟩,
        ⟨⟨2, 0, 0, []⟩, 12, 3, 0⟩, ⟨⟨1, 0, 0, []⟩, 11, 2, 0⟩].get? j = some rec ∧
      rec.pkt_num = 12 ∧ j = 2 ∧
      ngtcp2_acktr_recv_ack
        { ngtcp2_acktr_init with
          ent := [⟨3, 0, 0⟩, ⟨2, 0, 0⟩, ⟨1, 0, 0⟩], nack := 3, tail := .node 2,
          acks := { nmemb := 128,
                    buf := [⟨⟨3, 0, 1, []⟩, 20, 5, 1⟩, ⟨⟨2, 0, 0, []⟩, 14, 4, 0⟩,
                            ⟨⟨2, 0, 0, []⟩, 12, 3, 0⟩, ⟨⟨1, 0, 0, []⟩, 11, 2, 0⟩] } }
        ⟨18, 0, 3, [⟨0, 1⟩]⟩ 0 true 100 = some res ∧
      res.acktr.acks.buf = [⟨⟨3, 0, 1, []⟩, 20, 5, 1⟩, ⟨⟨2, 0, 0, []⟩, 14, 4, 0⟩] ∧
      res.acktr.hs_acks = ngtcp2_ringbuf_init 32 := by
  obtain ⟨j, rec, res, h1, h2, h3, h4, _, _, h7, _, h9⟩ := recv_ack_first_match
    { ngtcp2_acktr_init with
      ent := [⟨3, 0, 0⟩, ⟨2, 0, 0⟩, ⟨1, 0, 0⟩], nack := 3, tail := .node 2,
      acks := { nmemb := 128,
                buf := [⟨⟨3, 0, 1, []⟩, 20, 5, 1⟩, ⟨⟨2, 0, 0, []⟩, 14, 4, 0⟩,
                        ⟨⟨2, 0, 0, []⟩, 12, 3, 0⟩, ⟨⟨1, 0, 0, []⟩, 11, 2, 0⟩] } }
    ⟨18, 0, 3, [⟨0, 1⟩]⟩ 0 true 100 .acks (by decide) (by decide) (by decide) (by decide)
  have hj : j = 2 := by
    rcases Nat.lt_trichotomy j 2 with h | h | h
    · exfalso
      have hj' : j = 0 ∨ j = 1 := by omega
      rcases hj' with h0 | h0 <;> subst h0 <;>
        · simp only [ringbuf_ref.get, List.get?] at h1
          injection h1 with h1
          subst h1
          revert h2
          decide
    · exact h
    · exact absurd (h3 2 ⟨⟨2, 0, 0, []⟩, 12, 3, 0⟩ h rfl) (by decide)
  subst hj
  simp only [ringbuf_ref.get, List.get?] at h1
  injection h1 with h1
  subst h1
  exact ⟨2, _, res, rfl, rfl, rfl, h4, h7, h9⟩

/-! ## C8: RTT sampling -/

theorem find?_first (c : ngtcp2_acktr_ack_entry → Bool) (K S : List ngtcp2_acktr_ack_entry)
    (rec : ngtcp2_acktr_ack_entry) (hK : ∀ r ∈ K, c r = false) (hrec : c rec = true) :
    (K ++ rec :: S).find? c = some rec := by
  induction K with
  | nil => simp [List.find?, hrec]
  | cons k K' ih =>
    have hk := hK k (List.mem_cons_self _ _)
    simp only [List.cons_append, List.find?, hk]
    exact ih (fun r hr => hK r (List.mem_cons_of_mem _ hr))

/-- C8: with a non-null `conn`, a descending selected sent-ACK buffer and a valid
peer frame, `ngtcp2_acktr_recv_ack` calls `ngtcp2_conn_update_rtt` exactly once,
with the arguments `(ts - rec.ts, fr->ack_delay_unscaled, rec.ack_only)`, when
the matched record `rec` (the first record of the buffer whose `pkt_num` the
frame covers) has `ack_only` set and `pkt_num` equal to the frame's
`largest_ack`; otherwise (no match, `ack_only` clear, or another `pkt_num`) it
does not call it. -/
theorem recv_ack_rtt_sampling (acktr : ngtcp2_acktr) (fr : ngtcp2_ack) (unprotected : Int)
    (ts : Nat) (rb : ringbuf_ref)
    (hrb : rb = if unprotected ≠ 0 then ringbuf_ref.hs_acks else ringbuf_ref.acks)
    (hs : ack_descending (rb.get acktr).buf) (hv : ack_valid fr) :
    ∃ res, ngtcp2_acktr_recv_ack acktr fr unprotected true ts = some res ∧
      res.rtt_calls =
        match (rb.get acktr).buf.find? (fun r => covered (decoded_ranges fr) r.pkt_num) with
        | some rec =>
          if rec.ack_only ≠ 0 ∧ rec.pkt_num = fr.largest_ack then
            [{ rtt := u64_sub ts rec.ts, ack_delay := fr.ack_delay_unscaled,
               ack_only := rec.ack_only }]
          else []
        | none => [] := by
  subst hrb
  by_cases hex : ∃ r ∈ ((if unprotected ≠ 0 then ringbuf_ref.hs_acks
      else ringbuf_ref.acks).get acktr).buf, covered (decoded_ranges fr) r.pkt_num = true
  · obtain ⟨K, rec, S, hbuf, hK, hrec⟩ :=
      exists_first (fun r => covered (decoded_ranges fr) r.pkt_num) _ hex
    obtain ⟨a, _, hrecv⟩ := recv_ack_match acktr fr unprotected true ts K S rec hbuf
      (by rw [← hbuf]; exact hs) hv hK hrec
    refine ⟨_, hrecv, ?_⟩
    rw [hbuf, find?_first _ K S rec hK hrec]
    simp only []
    by_cases hc : rec.ack_only ≠ 0 ∧ rec.pkt_num = fr.largest_ack
    · rw [if_pos hc, if_pos ⟨trivial, hc.2.symm, hc.1⟩]
    · rw [if_neg hc, if_neg (fun h => hc ⟨h.2.2, h.2.1.symm⟩)]
  · have hnone : ∀ r ∈ ((if unprotected ≠ 0 then ringbuf_ref.hs_acks
        else ringbuf_ref.acks).get acktr).buf, covered (decoded_ranges fr) r.pkt_num = false := by
      intro r hr
      cases hc : covered (decoded_ranges fr) r.pkt_num with
      | false => rfl
      | true => exact absurd ⟨r, hr, hc⟩ hex
    refine ⟨_, recv_ack_unmatched acktr fr unprotected true ts hnone, ?_⟩
    have : ((if unprotected ≠ 0 then ringbuf_ref.hs_acks
        else ringbuf_ref.acks).get acktr).buf.find?
          (fun r => covered (decoded_ranges fr) r.pkt_num) = none := by
      rw [List.find?_eq_none]
      intro r hr
      simp [hnone r hr]
    rw [this]

theorem recv_ack_rtt_sampling_witness :
    ∃ res, ngtcp2_acktr_recv_ack
        { ngtcp2_acktr_init with
          ent := [⟨3, 0, 0⟩, ⟨2, 0, 0⟩, ⟨1, 0, 0⟩], nack := 3, tail := .node 2,
          acks := { nmemb := 128,
                    buf := [⟨⟨3, 0, 1, []⟩, 20, 5, 1⟩, ⟨⟨2, 0, 0, []⟩, 18, 4, 1⟩,
                            ⟨⟨1, 0, 0, []⟩, 11, 2, 0⟩] } }
        ⟨18, 7, 3, [⟨0, 1⟩]⟩ 0 true 100 = some res ∧
      res.rtt_calls = [{ rtt := 96, ack_delay := 7, ack_only := 1 }] :=
  recv_ack_rtt_sampling
    { ngtcp2_acktr_init with
      ent := [⟨3, 0, 0⟩, ⟨2, 0, 0⟩, ⟨1, 0, 0⟩], nack := 3, tail := .node 2,
      acks := { nmemb := 128,
                buf := [⟨⟨3, 0, 1, []⟩, 20, 5, 1⟩, ⟨⟨2, 0, 0, []⟩, 18, 4, 1⟩,
                        ⟨⟨1, 0, 0, []⟩, 11, 2, 0⟩] } }
    ⟨18, 7, 3, [⟨0, 1⟩]⟩ 0 100 .acks (by decide) (by decide) (by decide)

/-! ## C7: the list invariant in every reachable state -/

theorem remove_inv (MAX_ENT : Nat) (a : ngtcp2_acktr) (p : Nat) (hp : p < a.ent.length)
    (h : list_inv MAX_ENT a ∧ tail_ok a) :
    list_inv MAX_ENT (acktr_remove a p) ∧ tail_ok (acktr_remove a p) := by
  obtain ⟨⟨hs, hn, hcap⟩, ht⟩ := h
  have hlen : (a.ent.eraseIdx p).length = a.ent.length - 1 := by
    rw [List.length_eraseIdx, if_pos hp]
  refine ⟨⟨?_, remove_count a p hp hn, ?_⟩, ?_⟩
  · exact List.Pairwise.sublist (List.eraseIdx_sublist _ _) hs
  · rw [remove_count a p hp hn]
    simp only [acktr_remove, hlen]
    omega
  · intro hne
    have hne0 : a.ent ≠ [] := by
      intro h0; rw [h0] at hp; simp at hp
    have htl := ht hne0
    simp only [acktr_remove, hlen] at hne ⊢
    have hpos : 0 < a.ent.length - 1 := by
      rcases Nat.eq_zero_or_pos (a.ent.length - 1) with h0 | h0
      · exfalso; apply hne; exact List.length_eq_zero.mp (by rw [hlen]; exact h0)
      · exact h0
    by_cases hlt : p < a.ent.length - 1
    · rw [if_pos hlt, htl]
      simp only [entry_ptr.after_remove]
      rw [if_neg (by omega), if_neg (by omega)]
    · rw [if_neg hlt]
      obtain ⟨k, hk⟩ : ∃ k, p = k + 1 := ⟨p - 1, by omega⟩
      rw [hk]
      simp only [ngtcp2_struct_of]
      congr 1; omega

theorem on_ack_inv (MAX_ENT : Nat) (acktr : ngtcp2_acktr) (rb : ringbuf_ref) (j : Nat)
    (a : ngtcp2_acktr) (h : list_inv MAX_ENT acktr ∧ tail_ok acktr)
    (hon : acktr_on_ack acktr rb j = some a) :
    list_inv MAX_ENT a ∧ tail_ok a := by
  cases hrec : ngtcp2_ringbuf_get (rb.get acktr) j with
  | none => simp [acktr_on_ack, hrec] at hon
  | some rec =>
    obtain ⟨a0, w, heq, ha0, hpres, _⟩ := acktr_on_ack_shape acktr rb j rec hrec
    rw [heq] at hon
    injection hon with hon
    have hw : list_inv MAX_ENT w ∧ tail_ok w := by
      apply hpres (fun a => list_inv MAX_ENT a ∧ tail_ok a) (remove_inv MAX_ENT)
      rw [ha0]; split <;> exact h
    obtain ⟨f1, f2, f3, _⟩ := ringbuf_set_fields rb w (ngtcp2_ringbuf_resize (rb.get w) j)
    rw [← hon]
    unfold list_inv tail_ok
    rw [f1, f2, f3]
    exact hw

theorem recv_ack_cases (acktr : ngtcp2_acktr) (fr : ngtcp2_ack) (unprotected : Int)
    (conn : Bool) (ts : Nat) (res : recv_ack_result)
    (h : ngtcp2_acktr_recv_ack acktr fr unprotected conn ts = some res) :
    res.acktr = acktr ∨ ∃ rb j, acktr_on_ack acktr rb j = some res.acktr := by
  unfold ngtcp2_acktr_recv_ack at h
  simp only [] at h
  generalize (if unprotected ≠ 0 then ringbuf_ref.hs_acks else ringbuf_ref.acks) = rb at h
  split at h
  · injection h with h; left; rw [← h]
  · split at h
    · cases h
    · split at h
      · split at h
        · cases h
        · rename_i a hon
          injection h with h
          right; exact ⟨rb, _, by rw [← h]; exact hon⟩
      · split at h
        · injection h with h; left; rw [← h]
        · split at h
          · cases h
          · rename_i a hon
            injection h with h
            right; exact ⟨rb, _, by rw [← h]; exact hon⟩

theorem add_inv (MAX_ENT : Nat) (hmax : MAX_ENT + 1 < 2 ^ 64) (acktr : ngtcp2_acktr)
    (ent : ngtcp2_acktr_entry) (active_ack : Int) (ts : Nat) (rv : Int) (a : ngtcp2_acktr)
    (h : list_inv MAX_ENT acktr ∧ tail_ok acktr)
    (hadd : ngtcp2_acktr_add MAX_ENT acktr ent active_ack ts = some (rv, a)) :
    list_inv MAX_ENT a ∧ tail_ok a := by
  by_cases hdup : ∃ e ∈ acktr.ent, e.pkt_num = ent.pkt_num
  · have hnone := add_find_dup ent.pkt_num acktr.ent h.1.1 hdup
    simp only [ngtcp2_acktr_add, hnone, Option.some.injEq, Prod.mk.injEq] at hadd
    rw [← hadd.2]; exact h
  · have hx : ∀ e ∈ acktr.ent, e.pkt_num ≠ ent.pkt_num :=
      fun e he heq => hdup ⟨e, he, heq⟩
    obtain ⟨p, a', hadd', _, _, _, hinv, htail, _⟩ :=
      add_spec MAX_ENT acktr ent active_ack ts h.1 h.2 (by have := h.1.2.2; omega) hx
    rw [hadd'] at hadd
    simp only [Option.some.injEq, Prod.mk.injEq] at hadd
    rw [← hadd.2]; exact ⟨hinv, htail⟩

theorem forget_inv (MAX_ENT : Nat) (acktr : ngtcp2_acktr) (i : Nat) (a : ngtcp2_acktr)
    (h : list_inv MAX_ENT acktr ∧ tail_ok acktr)
    (hf : ngtcp2_acktr_forget acktr i = some a) :
    list_inv MAX_ENT a ∧ tail_ok a := by
  obtain ⟨⟨hs, hn, hcap⟩, _⟩ := h
  unfold ngtcp2_acktr_forget at hf
  by_cases hi : i < acktr.ent.length
  · rw [if_pos hi] at hf
    have hloop : forget_loop (acktr.ent.drop i) acktr.nack = i := by
      rw [forget_loop_eq _ _ (by simp; omega)]
      simp; omega
    by_cases h0 : i = 0
    · subst h0
      rw [if_neg (by simp)] at hf
      injection hf with hf
      rw [← hf]
      refine ⟨⟨List.Pairwise.nil, ?_, ?_⟩, fun hne => absurd rfl hne⟩
      · simp only [hloop, List.length_nil]
      · simp only [hloop]; exact Nat.zero_le _
    · rw [if_pos h0] at hf
      injection hf with hf
      rw [← hf]
      refine ⟨⟨List.Pairwise.sublist (List.take_sublist _ _) hs, ?_, ?_⟩, ?_⟩
      · simp only [hloop, List.length_take]; omega
      · simp only [hloop]; omega
      · intro _
        simp only [List.length_take]
        obtain ⟨k, hk⟩ : ∃ k, i = k + 1 := ⟨i - 1, by omega⟩
        rw [hk]
        simp only [ngtcp2_struct_of]
        congr 1; omega
  · rw [if_neg hi] at hf; cases hf

theorem pop_inv (MAX_ENT : Nat) (acktr : ngtcp2_acktr) (a : ngtcp2_acktr)
    (h : list_inv MAX_ENT acktr ∧ tail_ok acktr)
    (hp : ngtcp2_acktr_pop acktr = some a) :
    list_inv MAX_ENT a ∧ tail_ok a := by
  obtain ⟨⟨hs, hn, hcap⟩, ht⟩ := h
  unfold ngtcp2_acktr_pop at hp
  cases hent : acktr.ent with
  | nil => rw [hent] at hp; cases hp
  | cons e rest =>
    rw [hent] at hp
    simp only [] at hp
    injection hp with hp
    rw [hent] at hs hn
    simp only [List.length_cons] at hn
    have htl := ht (by rw [hent]; simp)
    rw [hent] at htl
    simp only [List.length_cons, Nat.add_sub_cancel] at htl
    rw [← hp]
    refine ⟨⟨(List.pairwise_cons.mp hs).2, ?_, ?_⟩, ?_⟩
    · simp only []
      rw [size_dec_eq _ (by omega)]; omega
    · simp only []
      rw [size_dec_eq _ (by omega)]; omega
    · intro hne
      simp only [] at hne ⊢
      rw [if_pos hne, htl]
      have hpos : 0 < rest.length := List.length_pos.mpr hne
      simp only [entry_ptr.after_remove]
      rw [if_neg (by omega), if_neg (by omega)]

theorem reachable_inv (MAX_ENT : Nat) (hmax : MAX_ENT + 1 < 2 ^ 64) (ts_ok : Nat → Prop)
    (acktr : ngtcp2_acktr) (h : reachable MAX_ENT ts_ok acktr) :
    list_inv MAX_ENT acktr ∧ tail_ok acktr := by
  induction h with
  | init => exact init_inv MAX_ENT
  | add a ent active_ack ts rv a' _ _ hadd ih =>
    exact add_inv MAX_ENT hmax a ent active_ack ts rv a' ih hadd
  | forget a i a' _ hf ih => exact forget_inv MAX_ENT a i a' ih hf
  | pop a a' _ hp ih => exact pop_inv MAX_ENT a a' ih hp
  | add_ack a pkt_num fr ts unprotected ack_only _ ih =>
    unfold ngtcp2_acktr_add_ack
    simp only []
    split <;> exact ih
  | recv_ack a fr unprotected conn ts res _ hrecv ih =>
    rcases recv_ack_cases a fr unprotected conn ts res hrecv with h | ⟨rb, j, h⟩
    · rw [h]; exact ih
    · exact on_ack_inv MAX_ENT a rb j res.acktr ih h
  | commit_ack a unprotected _ ih =>
    unfold ngtcp2_acktr_commit_ack
    split <;> exact ih

/-- C7: in every state reachable from `ngtcp2_acktr_init` by calls of
`ngtcp2_acktr_add`, `ngtcp2_acktr_forget` (on a node of the list),
`ngtcp2_acktr_pop` (on a non-empty list), `ngtcp2_acktr_recv_ack` (and also
`ngtcp2_acktr_add_ack` and `ngtcp2_acktr_commit_ack`), with a capacity whose
successor fits in `size_t`: the tracked list is strictly descending by `pkt_num`
and so has no duplicate, `nack` is the number of nodes, and `nack` is at most
NGTCP2_ACKTR_MAX_ENT. -/
theorem reachable_list_invariant (MAX_ENT : Nat) (hmax : MAX_ENT + 1 < 2 ^ 64)
    (ts_ok : Nat → Prop) (acktr : ngtcp2_acktr) (h : reachable MAX_ENT ts_ok acktr) :
    ent_descending acktr.ent ∧ (acktr.ent.map (fun e => e.pkt_num)).Nodup ∧
      acktr.nack = acktr.ent.length ∧ acktr.nack ≤ MAX_ENT := by
  obtain ⟨⟨hs, hn, hcap⟩, _⟩ := reachable_inv MAX_ENT hmax ts_ok acktr h
  refine ⟨hs, ?_, hn, hcap⟩
  unfold ent_descending at hs
  rw [List.Nodup, List.pairwise_map]
  exact hs.imp (fun h => by omega)

theorem reachable_list_invariant_witness :
    ent_descending [(⟨5, 0, 0⟩ : ngtcp2_acktr_entry), ⟨2, 0, 0⟩] ∧
      ([(⟨5, 0, 0⟩ : ngtcp2_acktr_entry), ⟨2, 0, 0⟩].map (fun e => e.pkt_num)).Nodup ∧
      2 = [(⟨5, 0, 0⟩ : ngtcp2_acktr_entry), ⟨2, 0, 0⟩].length ∧ 2 ≤ 4 :=
  reachable_list_invariant 4 (by decide) (fun _ => True)
    { ngtcp2_acktr_init with ent := [⟨5, 0, 0⟩, ⟨2, 0, 0⟩], tail := .node 1, nack := 2 }
    (reachable.add
      { ngtcp2_acktr_init with ent := [⟨2, 0, 0⟩], tail := .node 0, nack := 1 }
      ⟨5, 0, 0⟩ 0 0 0 _
      (reachable.add ngtcp2_acktr_init ⟨2, 0, 0⟩ 0 0 0 _ reachable.init trivial (by decide))
      trivial (by decide))

/-! ## Flag arithmetic -/

theorem or_and_ne_zero (f g m i : Nat) (hg : g.testBit i = true) (hm : m.testBit i = true) :
    (f ||| g) &&& m ≠ 0 := by
  intro h
  have h2 : ((f ||| g) &&& m).testBit i = (0 : Nat).testBit i := by rw [h]
  rw [Nat.testBit_and, Nat.testBit_or, hg, hm, Nat.zero_testBit, Bool.or_true] at h2
  cases h2

theorem or_active_and_unprotected (f : Nat) :
    (f ||| NGTCP2_ACKTR_FLAG_ACTIVE_ACK) &&& NGTCP2_ACKTR_FLAG_ACTIVE_ACK_UNPROTECTED ≠ 0 :=
  or_and_ne_zero f _ _ 0 (by decide) (by decide)

theorem or_active_and_protected (f : Nat) :
    (f ||| NGTCP2_ACKTR_FLAG_ACTIVE_ACK) &&& NGTCP2_ACKTR_FLAG_ACTIVE_ACK_PROTECTED ≠ 0 :=
  or_and_ne_zero f _ _ 1 (by decide) (by decide)

theorem or_protected_and_protected (f : Nat) :
    (f ||| NGTCP2_ACKTR_FLAG_ACTIVE_ACK_PROTECTED) &&& NGTCP2_ACKTR_FLAG_ACTIVE_ACK_PROTECTED
      ≠ 0 :=
  or_and_ne_zero f _ _ 1 (by decide) (by decide)

theorem or_finished_and_finished (f : Nat) :
    (f ||| NGTCP2_ACKTR_FLAG_ACK_FINISHED_ACK) &&& NGTCP2_ACKTR_FLAG_ACK_FINISHED_ACK ≠ 0 :=
  or_and_ne_zero f _ _ 7 (by decide) (by decide)

/-- Setting the bits `g` leaves the bits `m` as they were when `g` and `m` share no
bit. -/
theorem or_and_other (f g m : Nat) (h : g &&& m = 0) : (f ||| g) &&& m = f &&& m := by
  rw [Nat.and_distrib_right, h, Nat.or_zero]

/-- Clearing with the mask `k` leaves the bits `m` as they were when `m` lies inside
`k`. -/
theorem and_mask_other (f k m : Nat) (h : k &&& m = m) : (f &&& k) &&& m = f &&& m := by
  rw [Nat.and_assoc, h]

/-- Clearing with the mask `k` clears the bits `m` when `k` and `m` share no bit. -/
theorem and_mask_clear (f k m : Nat) (h : k &&& m = 0) : (f &&& k) &&& m = 0 := by
  rw [Nat.and_assoc, h, Nat.and_zero]

/-! ## The flags and timestamps written by ngtcp2_acktr_add -/

/-- The two outcomes of `ngtcp2_acktr_add`: the duplicate return, with the tracker as
it was, or the return 0 with the flags and `first_unacked_ts` of lines 133-143
(the eviction does not touch them). -/
theorem add_fields (MAX_ENT : Nat) (acktr : ngtcp2_acktr) (ent : ngtcp2_acktr_entry)
    (active_ack : Int) (ts : Nat) (rv : Int) (a : ngtcp2_acktr)
    (h : ngtcp2_acktr_add MAX_ENT acktr ent active_ack ts = some (rv, a)) :
    (rv = NGTCP2_ERR_PROTO ∧ a = acktr) ∨
    (rv = 0 ∧
      a.flags = (if active_ack ≠ 0 then
          if ent.unprotected ≠ 0 then acktr.flags ||| NGTCP2_ACKTR_FLAG_ACTIVE_ACK
          else acktr.flags ||| NGTCP2_ACKTR_FLAG_ACTIVE_ACK_PROTECTED
        else acktr.flags) ∧
      a.first_unacked_ts = (if active_ack ≠ 0 ∧ acktr.first_unacked_ts = UINT64_MAX then ts
        else acktr.first_unacked_ts) ∧
      a.acks = acktr.acks ∧ a.hs_acks = acktr.hs_acks ∧
      a.last_hs_ack_pkt_num = acktr.last_hs_ack_pkt_num) := by
  unfold ngtcp2_acktr_add at h
  split at h
  · simp only [Option.some.injEq, Prod.mk.injEq] at h
    left; exact ⟨h.1.symm, h.2.symm⟩
  · simp only [] at h
    split at h
    · split at h
      · split at h
        · simp only [Option.some.injEq, Prod.mk.injEq] at h
          right
          obtain ⟨h1, h2⟩ := h
          subst h1; subst h2
          exact ⟨rfl, rfl, rfl, rfl, rfl, rfl⟩
        · cases h
      · cases h
    · simp only [Option.some.injEq, Prod.mk.injEq] at h
      right
      obtain ⟨h1, h2⟩ := h
      subst h1; subst h2
      exact ⟨rfl, rfl, rfl, rfl, rfl, rfl⟩

theorem err_proto_ne_zero : NGTCP2_ERR_PROTO ≠ 0 := by decide

/-! ## C11: the active-ack flag of the entry's own space -/

/-- C11: for every `ngtcp2_acktr_add` that returns 0: with `active_ack` non-zero,
the unprotected active-ack flag is set afterwards for an unprotected entry and
the protected active-ack flag is set afterwards for a protected entry; with
`active_ack` zero the flags (so both active-ack flags) and `first_unacked_ts`
are unchanged. -/
theorem add_sets_own_space_flag (MAX_ENT : Nat) (acktr : ngtcp2_acktr)
    (ent : ngtcp2_acktr_entry) (active_ack : Int) (ts : Nat) (a : ngtcp2_acktr)
    (h : ngtcp2_acktr_add MAX_ENT acktr ent active_ack ts = some (0, a)) :
    (active_ack ≠ 0 → ent.unprotected ≠ 0 →
      a.flags &&& NGTCP2_ACKTR_FLAG_ACTIVE_ACK_UNPROTECTED ≠ 0) ∧
    (active_ack ≠ 0 → ent.unprotected = 0 →
      a.flags &&& NGTCP2_ACKTR_FLAG_ACTIVE_ACK_PROTECTED ≠ 0) ∧
    (active_ack = 0 →
      a.flags = acktr.flags ∧ a.first_unacked_ts = acktr.first_unacked_ts) := by
  rcases add_fields MAX_ENT acktr ent active_ack ts 0 a h with ⟨h0, _⟩ | ⟨_, hf, ht, _⟩
  · exact absurd h0.symm err_proto_ne_zero
  · refine ⟨?_, ?_, ?_⟩
    · intro haa hu
      rw [hf, if_pos haa, if_pos hu]
      exact or_active_and_unprotected _
    · intro haa hu
      rw [hf, if_pos haa, if_neg (by simpa using hu)]
      exact or_protected_and_protected _
    · intro haa
      rw [hf, ht, if_neg (by simpa using haa), if_neg (fun hh => hh.1 haa)]
      exact ⟨rfl, rfl⟩

theorem add_sets_own_space_flag_witness :
    ngtcp2_acktr_add 4 ngtcp2_acktr_init ⟨7, 5, 0⟩ 1 5
      = some (0, { ngtcp2_acktr_init with
          ent := [⟨7, 5, 0⟩], tail := .node 0, nack := 1,
          flags := NGTCP2_ACKTR_FLAG_ACTIVE_ACK_PROTECTED, first_unacked_ts := 5 }) ∧
    NGTCP2_ACKTR_FLAG_ACTIVE_ACK_PROTECTED &&& NGTCP2_ACKTR_FLAG_ACTIVE_ACK_PROTECTED ≠ 0 :=
  ⟨by decide,
    (add_sets_own_space_flag 4 ngtcp2_acktr_init ⟨7, 5, 0⟩ 1 5
      { ngtcp2_acktr_init with
        ent := [⟨7, 5, 0⟩], tail := .node 0, nack := 1,
        flags := NGTCP2_ACKTR_FLAG_ACTIVE_ACK_PROTECTED, first_unacked_ts := 5 }
      (by decide)).2.1 (by decide) rfl⟩

/-! ## C12: the first unacknowledged timestamp -/

/-- C12 (counterexample): a record created by `ngtcp2_acktr_entry_new` with the
receive timestamp 7 and added with `active_ack` set and the argument `ts = 9` to
a fresh tracker (no timestamp recorded): the add returns 0 and
`first_unacked_ts` is 9, the `ts` argument, not the record's timestamp 7. -/
theorem add_first_unacked_ts_not_record_tstamp :
    ∃ ent a, ngtcp2_acktr_entry_new 1 7 0 true = some ent ∧ ent.tstamp = 7 ∧
      ngtcp2_acktr_init.first_unacked_ts = UINT64_MAX ∧
      ngtcp2_acktr_add 4 ngtcp2_acktr_init ent 1 9 = some (0, a) ∧
      a.first_unacked_ts = 9 ∧ a.first_unacked_ts ≠ ent.tstamp :=
  ⟨⟨1, 7, 0⟩,
    { ngtcp2_acktr_init with
      ent := [⟨1, 7, 0⟩], tail := .node 0, nack := 1,
      flags := NGTCP2_ACKTR_FLAG_ACTIVE_ACK_PROTECTED, first_unacked_ts := 9 },
    by decide, rfl, rfl, by decide, rfl, by decide⟩

/-- C12 (amended): for every `ngtcp2_acktr_add` that returns 0 with `active_ack`
non-zero: if no unacknowledged timestamp is recorded (`first_unacked_ts` is
UINT64_MAX) then afterwards `first_unacked_ts` is the `ts` argument of the call
(which is the record's timestamp when the caller passes the same value to
`ngtcp2_acktr_entry_new` and to `ngtcp2_acktr_add`); if one is recorded it is
unchanged. -/
theorem add_records_first_unacked_ts (MAX_ENT : Nat) (acktr : ngtcp2_acktr)
    (ent : ngtcp2_acktr_entry) (active_ack : Int) (ts : Nat) (a : ngtcp2_acktr)
    (h : ngtcp2_acktr_add MAX_ENT acktr ent active_ack ts = some (0, a))
    (haa : active_ack ≠ 0) :
    (acktr.first_unacked_ts = UINT64_MAX → a.first_unacked_ts = ts) ∧
    (acktr.first_unacked_ts = UINT64_MAX → ent.tstamp = ts →
      a.first_unacked_ts = ent.tstamp) ∧
    (acktr.first_unacked_ts ≠ UINT64_MAX → a.first_unacked_ts = acktr.first_unacked_ts) := by
  rcases add_fields MAX_ENT acktr ent active_ack ts 0 a h with ⟨h0, _⟩ | ⟨_, _, ht, _⟩
  · exact absurd h0.symm err_proto_ne_zero
  · refine ⟨?_, ?_, ?_⟩
    · intro hnone
      rw [ht, if_pos ⟨haa, hnone⟩]
    · intro hnone heq
      rw [ht, if_pos ⟨haa, hnone⟩, heq]
    · intro hsome
      rw [ht, if_neg (fun hh => hsome hh.2)]

theorem add_records_first_unacked_ts_witness :
    ngtcp2_acktr_add 4 ngtcp2_acktr_init ⟨1, 7, 0⟩ 1 9
      = some (0, { ngtcp2_acktr_init with
          ent := [⟨1, 7, 0⟩], tail := .node 0, nack := 1,
          flags := NGTCP2_ACKTR_FLAG_ACTIVE_ACK_PROTECTED, first_unacked_ts := 9 }) ∧
    (9 : Nat) = 9 :=
  ⟨by decide,
    (add_records_first_unacked_ts 4 ngtcp2_acktr_init ⟨1, 7, 0⟩ 1 9
      { ngtcp2_acktr_init with
        ent := [⟨1, 7, 0⟩], tail := .node 0, nack := 1,
        flags := NGTCP2_ACKTR_FLAG_ACTIVE_ACK_PROTECTED, first_unacked_ts := 9 }
      (by decide) (by decide)).1 rfl⟩

/-! ## C17: the active-ack flag of the other space -/

/-- C17 (counterexample): adding an unprotected entry with `active_ack` set to a
fresh tracker returns 0 and sets the protected active-ack flag, which was clear
before: `flags |= NGTCP2_ACKTR_FLAG_ACTIVE_ACK` writes both active-ack bits. -/
theorem add_unprotected_sets_protected_flag :
    ∃ a, ngtcp2_acktr_add 4 ngtcp2_acktr_init ⟨1, 5, 1⟩ 1 5 = some (0, a) ∧
      ngtcp2_acktr_init.flags &&& NGTCP2_ACKTR_FLAG_ACTIVE_ACK_PROTECTED = 0 ∧
      a.flags &&& NGTCP2_ACKTR_FLAG_ACTIVE_ACK_PROTECTED ≠ 0 ∧
      a.flags &&& NGTCP2_ACKTR_FLAG_ACTIVE_ACK_PROTECTED
        ≠ ngtcp2_acktr_init.flags &&& NGTCP2_ACKTR_FLAG_ACTIVE_ACK_PROTECTED :=
  ⟨{ ngtcp2_acktr_init with
      ent := [⟨1, 5, 1⟩], tail := .node 0, nack := 1,
      flags := NGTCP2_ACKTR_FLAG_ACTIVE_ACK, first_unacked_ts := 5 },
    by decide, by decide, by decide, by decide⟩

/-- C17 (amended): for every `ngtcp2_acktr_add` that returns 0: adding a protected
entry leaves the unprotected active-ack flag unchanged; adding an unprotected
entry with `active_ack` sets both active-ack flags, the protected one as well
as the unprotected one; the handshake-finished flag is unchanged in every
case. -/
theorem add_flag_of_other_space (MAX_ENT : Nat) (acktr : ngtcp2_acktr)
    (ent : ngtcp2_acktr_entry) (active_ack : Int) (ts : Nat) (a : ngtcp2_acktr)
    (h : ngtcp2_acktr_add MAX_ENT acktr ent active_ack ts = some (0, a)) :
    (ent.unprotected = 0 →
      a.flags &&& NGTCP2_ACKTR_FLAG_ACTIVE_ACK_UNPROTECTED
        = acktr.flags &&& NGTCP2_ACKTR_FLAG_ACTIVE_ACK_UNPROTECTED) ∧
    (ent.unprotected ≠ 0 → active_ack ≠ 0 →
      a.flags &&& NGTCP2_ACKTR_FLAG_ACTIVE_ACK_PROTECTED ≠ 0 ∧
      a.flags &&& NGTCP2_ACKTR_FLAG_ACTIVE_ACK_UNPROTECTED ≠ 0) ∧
    a.flags &&& NGTCP2_ACKTR_FLAG_ACK_FINISHED_ACK
      = acktr.flags &&& NGTCP2_ACKTR_FLAG_ACK_FINISHED_ACK := by
  rcases add_fields MAX_ENT acktr ent active_ack ts 0 a h with ⟨h0, _⟩ | ⟨_, hf, _, _⟩
  · exact absurd h0.symm err_proto_ne_zero
  · refine ⟨?_, ?_, ?_⟩
    · intro hu
      rw [hf]
      split
      · rw [if_neg (by simpa using hu)]
        exact or_and_other _ _ _ (by decide)
      · rfl
    · intro hu haa
      rw [hf, if_pos haa, if_pos hu]
      exact ⟨or_active_and_protected _, or_active_and_unprotected _⟩
    · rw [hf]
      split
      · split
        · exact or_and_other _ _ _ (by decide)
        · exact or_and_other _ _ _ (by decide)
      · rfl

theorem add_flag_of_other_space_witness :
    ngtcp2_acktr_add 4 ngtcp2_acktr_init ⟨1, 5, 1⟩ 1 5
      = some (0, { ngtcp2_acktr_init with
          ent := [⟨1, 5, 1⟩], tail := .node 0, nack := 1,
          flags := NGTCP2_ACKTR_FLAG_ACTIVE_ACK, first_unacked_ts := 5 }) ∧
    NGTCP2_ACKTR_FLAG_ACTIVE_ACK &&& NGTCP2_ACKTR_FLAG_ACTIVE_ACK_PROTECTED ≠ 0 ∧
    NGTCP2_ACKTR_FLAG_ACTIVE_ACK &&& NGTCP2_ACKTR_FLAG_ACTIVE_ACK_UNPROTECTED ≠ 0 :=
  ⟨by decide,
    (add_flag_of_other_space 4 ngtcp2_acktr_init ⟨1, 5, 1⟩ 1 5
      { ngtcp2_acktr_init with
        ent := [⟨1, 5, 1⟩], tail := .node 0, nack := 1,
        flags := NGTCP2_ACKTR_FLAG_ACTIVE_ACK, first_unacked_ts := 5 }
      (by decide)).2.1 (by decide) (by decide)⟩

/-! ## C13: ngtcp2_acktr_commit_ack -/

/-- C13: `ngtcp2_acktr_commit_ack` for the unprotected space clears the unprotected
active-ack flag and leaves the protected flag and `first_unacked_ts` unchanged;
for the protected space it clears the protected active-ack flag, resets
`first_unacked_ts` to UINT64_MAX and leaves the unprotected flag unchanged. In
both cases the handshake-finished flag, the tracked list (with `nack` and
`tail`), both sent-ACK buffers and `last_hs_ack_pkt_num` are unchanged, and
`ngtcp2_acktr_require_active_ack` for the committed space returns 0 right
afterwards, for every `max_ack_delay` and `ts`. -/
theorem commit_ack_clears_flag (acktr : ngtcp2_acktr) (unprotected : Int) :
    (if unprotected ≠ 0 then
        (ngtcp2_acktr_commit_ack acktr unprotected).flags
            &&& NGTCP2_ACKTR_FLAG_ACTIVE_ACK_UNPROTECTED = 0 ∧
        (ngtcp2_acktr_commit_ack acktr unprotected).flags
            &&& NGTCP2_ACKTR_FLAG_ACTIVE_ACK_PROTECTED
          = acktr.flags &&& NGTCP2_ACKTR_FLAG_ACTIVE_ACK_PROTECTED ∧
        (ngtcp2_acktr_commit_ack acktr unprotected).first_unacked_ts
          = acktr.first_unacked_ts
      else
        (ngtcp2_acktr_commit_ack acktr unprotected).flags
            &&& NGTCP2_ACKTR_FLAG_ACTIVE_ACK_PROTECTED = 0 ∧
        (ngtcp2_acktr_commit_ack acktr unprotected).flags
            &&& NGTCP2_ACKTR_FLAG_ACTIVE_ACK_UNPROTECTED
          = acktr.flags &&& NGTCP2_ACKTR_FLAG_ACTIVE_ACK_UNPROTECTED ∧
        (ngtcp2_acktr_commit_ack acktr unprotected).first_unacked_ts = UINT64_MAX) ∧
    (ngtcp2_acktr_commit_ack acktr unprotected).flags &&& NGTCP2_ACKTR_FLAG_ACK_FINISHED_ACK
      = acktr.flags &&& NGTCP2_ACKTR_FLAG_ACK_FINISHED_ACK ∧
    (ngtcp2_acktr_commit_ack acktr unprotected).ent = acktr.ent ∧
    (ngtcp2_acktr_commit_ack acktr unprotected).nack = acktr.nack ∧
    (ngtcp2_acktr_commit_ack acktr unprotected).tail = acktr.tail ∧
    (ngtcp2_acktr_commit_ack acktr unprotected).acks = acktr.acks ∧
    (ngtcp2_acktr_commit_ack acktr unprotected).hs_acks = acktr.hs_acks ∧
    (ngtcp2_acktr_commit_ack acktr unprotected).last_hs_ack_pkt_num
      = acktr.last_hs_ack_pkt_num ∧
    ∀ max_ack_delay ts,
      ngtcp2_acktr_require_active_ack (ngtcp2_acktr_commit_ack acktr unprotected)
        unprotected max_ack_delay ts = 0 := by
  by_cases hu : unprotected ≠ 0
  · have hc : (ngtcp2_acktr_commit_ack acktr unprotected).flags
          &&& NGTCP2_ACKTR_FLAG_ACTIVE_ACK_UNPROTECTED = 0 := by
      simp only [ngtcp2_acktr_commit_ack, if_pos hu]
      exact and_mask_clear _ _ _ (by decide)
    rw [if_pos hu]
    refine ⟨⟨hc, ?_, ?_⟩, ?_, ?_, ?_, ?_, ?_, ?_, ?_, ?_⟩
    · simp only [ngtcp2_acktr_commit_ack, if_pos hu]
      exact and_mask_other _ _ _ (by decide)
    · simp only [ngtcp2_acktr_commit_ack, if_pos hu]
    · simp only [ngtcp2_acktr_commit_ack, if_pos hu]
      exact and_mask_other _ _ _ (by decide)
    · simp only [ngtcp2_acktr_commit_ack, if_pos hu]
    · simp only [ngtcp2_acktr_commit_ack, if_pos hu]
    · simp only [ngtcp2_acktr_commit_ack, if_pos hu]
    · simp only [ngtcp2_acktr_commit_ack, if_pos hu]
    · simp only [ngtcp2_acktr_commit_ack, if_pos hu]
    · simp only [ngtcp2_acktr_commit_ack, if_pos hu]
    · intro D T
      simp only [ngtcp2_acktr_require_active_ack, if_pos hu]
      rw [hc]; rfl
  · have hc : (ngtcp2_acktr_commit_ack acktr unprotected).flags
          &&& NGTCP2_ACKTR_FLAG_ACTIVE_ACK_PROTECTED = 0 := by
      simp only [ngtcp2_acktr_commit_ack, if_neg hu]
      exact and_mask_clear _ _ _ (by decide)
    rw [if_neg hu]
    refine ⟨⟨hc, ?_, ?_⟩, ?_, ?_, ?_, ?_, ?_, ?_, ?_, ?_⟩
    · simp only [ngtcp2_acktr_commit_ack, if_neg hu]
      exact and_mask_other _ _ _ (by decide)
    · simp only [ngtcp2_acktr_commit_ack, if_neg hu]
    · simp only [ngtcp2_acktr_commit_ack, if_neg hu]
      exact and_mask_other _ _ _ (by decide)
    · simp only [ngtcp2_acktr_commit_ack, if_neg hu]
    · simp only [ngtcp2_acktr_commit_ack, if_neg hu]
    · simp only [ngtcp2_acktr_commit_ack, if_neg hu]
    · simp only [ngtcp2_acktr_commit_ack, if_neg hu]
    · simp only [ngtcp2_acktr_commit_ack, if_neg hu]
    · simp only [ngtcp2_acktr_commit_ack, if_neg hu]
    · intro D T
      simp only [ngtcp2_acktr_require_active_ack, if_neg hu]
      rw [if_neg (fun hh => hh.1 hc)]

/-! ## C16: ngtcp2_acktr_include_protected_pkt -/

theorem include_protected_loop_spec (l : List ngtcp2_acktr_entry) :
    (include_protected_loop l = 1 ↔ ∃ e ∈ l, e.unprotected = 0) ∧
    (include_protected_loop l = 0 ↔ ¬ ∃ e ∈ l, e.unprotected = 0) := by
  induction l with
  | nil => simp [include_protected_loop]
  | cons e rest ih =>
    simp only [include_protected_loop]
    by_cases hu : e.unprotected = 0
    · rw [if_pos hu]
      have hex : ∃ x ∈ e :: rest, x.unprotected = 0 := ⟨e, List.mem_cons_self _ _, hu⟩
      exact ⟨⟨fun _ => hex, fun _ => rfl⟩, ⟨fun h => (by cases h), fun h => absurd hex h⟩⟩
    · rw [if_neg hu]
      have hiff : (∃ x ∈ e :: rest, x.unprotected = 0) ↔ ∃ x ∈ rest, x.unprotected = 0 := by
        constructor
        · rintro ⟨x, hx, hx0⟩
          rcases List.mem_cons.mp hx with h | h
          · subst h; exact absurd hx0 hu
          · exact ⟨x, h, hx0⟩
        · rintro ⟨x, hx, hx0⟩
          exact ⟨x, List.mem_cons_of_mem _ hx, hx0⟩
      rw [hiff]
      exact ih

/-- C16: `ngtcp2_acktr_include_protected_pkt` returns 1 exactly when some node of
the tracked list belongs to the protected space (`unprotected == 0`), and 0
exactly when none does, in particular for the empty list; it returns nothing
else. The function only reads the tracker. -/
theorem include_protected_pkt_iff (acktr : ngtcp2_acktr) :
    (ngtcp2_acktr_include_protected_pkt acktr = 1 ↔ ∃ e ∈ acktr.ent, e.unprotected = 0) ∧
    (ngtcp2_acktr_include_protected_pkt acktr = 0 ↔ ¬ ∃ e ∈ acktr.ent, e.unprotected = 0) ∧
    (acktr.ent = [] → ngtcp2_acktr_include_protected_pkt acktr = 0) := by
  obtain ⟨h1, h0⟩ := include_protected_loop_spec acktr.ent
  refine ⟨h1, h0, ?_⟩
  intro he
  unfold ngtcp2_acktr_include_protected_pkt
  rw [he]
  rfl

/-! ## C14: the handshake boundary -/

/-- The flags, `last_hs_ack_pkt_num` and `first_unacked_ts` after `acktr_on_ack` for
the slot `j` holding `rec`: only lines 245-251 write them. -/
theorem on_ack_hs_fields (acktr : ngtcp2_acktr) (rb : ringbuf_ref) (j : Nat)
    (rec : ngtcp2_acktr_ack_entry) (a : ngtcp2_acktr)
    (hrec : ngtcp2_ringbuf_get (rb.get acktr) j = some rec)
    (hon : acktr_on_ack acktr rb j = some a) :
    a.flags = (if rec.pkt_num ≥ acktr.last_hs_ack_pkt_num then
        acktr.flags ||| NGTCP2_ACKTR_FLAG_ACK_FINISHED_ACK else acktr.flags) ∧
    a.last_hs_ack_pkt_num = (if rec.pkt_num ≥ acktr.last_hs_ack_pkt_num then UINT64_MAX
        else acktr.last_hs_ack_pkt_num) ∧
    a.first_unacked_ts = acktr.first_unacked_ts := by
  obtain ⟨a0, w, heq, ha0, hpres, _⟩ := acktr_on_ack_shape acktr rb j rec hrec
  rw [heq] at hon
  injection hon with hon
  have hw : w.flags = a0.flags ∧ w.last_hs_ack_pkt_num = a0.last_hs_ack_pkt_num ∧
      w.first_unacked_ts = a0.first_unacked_ts := by
    apply hpres (fun a => a.flags = a0.flags ∧
      a.last_hs_ack_pkt_num = a0.last_hs_ack_pkt_num ∧
      a.first_unacked_ts = a0.first_unacked_ts)
    · intro a p _ ha; exact ha
    · exact ⟨rfl, rfl, rfl⟩
  obtain ⟨_, _, _, f4, f5, f6, _⟩ := ringbuf_set_fields rb w (ngtcp2_ringbuf_resize (rb.get w) j)
  rw [← hon, f4, f5, f6, hw.1, hw.2.1, hw.2.2, ha0]
  split <;> exact ⟨rfl, rfl, rfl⟩

/-- C14: when `ngtcp2_acktr_recv_ack` matches a sent record `rec` (the first record
of the descending selected buffer that the valid peer frame covers): if
`rec.pkt_num >= last_hs_ack_pkt_num` then afterwards the
NGTCP2_ACKTR_FLAG_ACK_FINISHED_ACK flag is set (the other flag bits as before)
and `last_hs_ack_pkt_num` is UINT64_MAX; if `rec.pkt_num < last_hs_ack_pkt_num`
then the flags and `last_hs_ack_pkt_num` are unchanged. -/
theorem recv_ack_handshake_boundary (acktr : ngtcp2_acktr) (fr : ngtcp2_ack)
    (unprotected : Int) (conn : Bool) (ts : Nat) (rb : ringbuf_ref)
    (hrb : rb = if unprotected ≠ 0 then ringbuf_ref.hs_acks else ringbuf_ref.acks)
    (hs : ack_descending (rb.get acktr).buf) (hv : ack_valid fr)
    (hex : ∃ r ∈ (rb.get acktr).buf, covered (decoded_ranges fr) r.pkt_num = true) :
    ∃ j rec res,
      (rb.get acktr).buf.get? j = some rec ∧
      covered (decoded_ranges fr) rec.pkt_num = true ∧
      (∀ k r, k < j → (rb.get acktr).buf.get? k = some r →
        covered (decoded_ranges fr) r.pkt_num = false) ∧
      ngtcp2_acktr_recv_ack acktr fr unprotected conn ts = some res ∧
      (rec.pkt_num ≥ acktr.last_hs_ack_pkt_num →
        res.acktr.flags &&& NGTCP2_ACKTR_FLAG_ACK_FINISHED_ACK ≠ 0 ∧
        res.acktr.flags = acktr.flags ||| NGTCP2_ACKTR_FLAG_ACK_FINISHED_ACK ∧
        res.acktr.last_hs_ack_pkt_num = UINT64_MAX) ∧
      (rec.pkt_num < acktr.last_hs_ack_pkt_num →
        res.acktr.flags = acktr.flags ∧
        res.acktr.last_hs_ack_pkt_num = acktr.last_hs_ack_pkt_num) := by
  obtain ⟨K, rec, S, hbuf, hK, hrec⟩ :=
    exists_first (fun r => covered (decoded_ranges fr) r.pkt_num) _ hex
  subst hrb
  obtain ⟨a, hon, hrecv⟩ := recv_ack_match acktr fr unprotected conn ts K S rec hbuf
    (by rw [← hbuf]; exact hs) hv hK hrec
  have hget := on_ack_some acktr _ K S rec hbuf
  obtain ⟨hf, hl, _⟩ := on_ack_hs_fields acktr _ K.length rec a hget hon
  refine ⟨K.length, rec, _, hget, hrec, ?_, hrecv, ?_, ?_⟩
  · intro k r hk hr
    rw [hbuf] at hr
    exact hK r (get?_of_lt_append K S rec r k hk hr)
  · intro hge
    simp only []
    rw [hf, hl, if_pos hge, if_pos hge]
    exact ⟨or_finished_and_finished _, rfl, rfl⟩
  · intro hlt
    have hnge : ¬ rec.pkt_num ≥ acktr.last_hs_ack_pkt_num := by omega
    simp only []
    rw [hf, hl, if_neg hnge, if_neg hnge]
    exact ⟨rfl, rfl⟩

theorem recv_ack_handshake_boundary_witness :
    ∃ j rec res,
      [(⟨⟨3, 0, 1, []⟩, 20, 5, 1⟩ : ngtcp2_acktr_ack_entry), ⟨⟨2, 0, 0, []⟩, 18, 4, 1⟩].get? j
        = some rec ∧
      ngtcp2_acktr_recv_ack
        { ngtcp2_acktr_init with
          ent := [⟨3, 0, 0⟩, ⟨2, 0, 0⟩], nack := 2, tail := .node 1,
          last_hs_ack_pkt_num := 10,
          acks := { nmemb := 128,
                    buf := [⟨⟨3, 0, 1, []⟩, 20, 5, 1⟩, ⟨⟨2, 0, 0, []⟩, 18, 4, 1⟩] } }
        ⟨18, 0, 0, []⟩ 0 true 100 = some res ∧
      res.acktr.flags = NGTCP2_ACKTR_FLAG_ACK_FINISHED_ACK ∧
      res.acktr.last_hs_ack_pkt_num = UINT64_MAX := by
  obtain ⟨j, rec, res, h1, h2, h3, h4, _, _⟩ := recv_ack_handshake_boundary
    { ngtcp2_acktr_init with
      ent := [⟨3, 0, 0⟩, ⟨2, 0, 0⟩], nack := 2, tail := .node 1,
      last_hs_ack_pkt_num := 10,
      acks := { nmemb := 128,
                buf := [⟨⟨3, 0, 1, []⟩, 20, 5, 1⟩, ⟨⟨2, 0, 0, []⟩, 18, 4, 1⟩] } }
    ⟨18, 0, 0, []⟩ 0 true 100 .acks (by decide) (by decide) (by decide) (by decide)
  refine ⟨j, rec, res, h1, h4, ?_⟩
  have h5 : ngtcp2_acktr_recv_ack
      { ngtcp2_acktr_init with
        ent := [⟨3, 0, 0⟩, ⟨2, 0, 0⟩], nack := 2, tail := .node 1,
        last_hs_ack_pkt_num := 10,
        acks := { nmemb := 128,
                  buf := [⟨⟨3, 0, 1, []⟩, 20, 5, 1⟩, ⟨⟨2, 0, 0, []⟩, 18, 4, 1⟩] } }
      ⟨18, 0, 0, []⟩ 0 true 100
      = some { rv := 0,
               acktr := { ngtcp2_acktr_init with
                 ent := [⟨3, 0, 0⟩], nack := 1, tail := .node 0,
                 flags := NGTCP2_ACKTR_FLAG_ACK_FINISHED_ACK,
                 acks := { nmemb := 128, buf := [⟨⟨3, 0, 1, []⟩, 20, 5, 1⟩] } },
               rtt_calls := [⟨96, 0, 1⟩] } := by decide
  rw [h5] at h4
  injection h4 with h4
  rw [← h4]
  exact ⟨rfl, rfl⟩

/-! ## C18: the decoded ranges of a valid frame -/

theorem decoded_blk_ranges_wf (mn : Nat) (blks : List ngtcp2_ack_blk)
    (hv : blks_valid mn blks) :
    (∀ r ∈ decoded_blk_ranges mn blks, r.1 ≤ r.2 ∧ r.2 + 1 < mn) ∧
    (decoded_blk_ranges mn blks).Pairwise (fun r r' => r'.2 + 1 < r.1) := by
  induction blks generalizing mn with
  | nil => exact ⟨by simp [decoded_blk_ranges], by simp [decoded_blk_ranges]⟩
  | cons b bs ih =>
    obtain ⟨h1, h2, h3⟩ := hv
    have e1 : u64_sub (u64_sub mn b.gap) 2 = mn - b.gap - 2 := by
      rw [u64_sub_eq mn b.gap (by omega), u64_sub_eq _ 2 (by omega)]
    have e2 : u64_sub (mn - b.gap - 2) b.blklen = mn - b.gap - 2 - b.blklen :=
      u64_sub_eq _ _ h2
    obtain ⟨ih1, ih2⟩ := ih _ h3
    simp only [decoded_blk_ranges, e1, e2]
    refine ⟨?_, List.pairwise_cons.mpr ⟨fun r hr => (ih1 r hr).2, ih2⟩⟩
    intro r hr
    rcases List.mem_cons.mp hr with h | h
    · subst h
      simp only []
      omega
    · have := ih1 r h
      omega

/-- C18: for every ACK frame in which no subtraction underflows, the ranges
`(min, max)` that the walkers compute (`(largest_ack - first_ack_blklen,
largest_ack)`, then `max = min - gap - 2`, `min = max - blklen` per block)
satisfy `min <= max` for every range and `max' + 1 < min` for every later range
`(min', max')`, in particular for consecutive ones: the ranges are strictly
descending, pairwise disjoint and separated by at least one packet number. -/
theorem decoded_ranges_descending_disjoint (fr : ngtcp2_ack) (hv : ack_valid fr) :
    (∀ r ∈ decoded_ranges fr, r.1 ≤ r.2) ∧
    (decoded_ranges fr).Pairwise (fun r r' => r'.2 + 1 < r.1) ∧
    (decoded_ranges fr).Chain' (fun r r' => r'.2 < r.1 - 1) ∧
    (decoded_ranges fr).head? = some (fr.largest_ack - fr.first_ack_blklen, fr.largest_ack) ∧
    (decoded_ranges fr).length = fr.blks.length + 1 := by
  obtain ⟨_, hv1, hv2⟩ := hv
  have hmn : u64_sub fr.largest_ack fr.first_ack_blklen
      = fr.largest_ack - fr.first_ack_blklen := u64_sub_eq _ _ hv1
  obtain ⟨h1, h2⟩ := decoded_blk_ranges_wf _ _ hv2
  have hpw : (decoded_ranges fr).Pairwise (fun r r' => r'.2 + 1 < r.1) := by
    simp only [decoded_ranges, hmn]
    exact List.pairwise_cons.mpr ⟨fun r hr => (h1 r hr).2, h2⟩
  have hlen : ∀ (m : Nat) (bs : List ngtcp2_ack_blk),
      (decoded_blk_ranges m bs).length = bs.length := by
    intro m bs
    induction bs generalizing m with
    | nil => rfl
    | cons b bs ih => simp only [decoded_blk_ranges, List.length_cons, ih]
  refine ⟨?_, hpw, ?_, ?_, ?_⟩
  · intro r hr
    simp only [decoded_ranges, hmn] at hr
    rcases List.mem_cons.mp hr with h | h
    · subst h
      simp only []
      omega
    · exact (h1 r h).1
  · apply List.Pairwise.chain'
    exact hpw.imp (fun h => by omega)
  · simp only [decoded_ranges, hmn, List.head?_cons]
  · simp only [decoded_ranges, List.length_cons, hlen]

theorem decoded_ranges_descending_disjoint_witness :
    (∀ r ∈ decoded_ranges ⟨10, 0, 2, [⟨1, 1⟩]⟩, r.1 ≤ r.2) ∧
    (decoded_ranges ⟨10, 0, 2, [⟨1, 1⟩]⟩).Pairwise (fun r r' => r'.2 + 1 < r.1) ∧
    (decoded_ranges ⟨10, 0, 2, [⟨1, 1⟩]⟩).Chain' (fun r r' => r'.2 < r.1 - 1) ∧
    (decoded_ranges ⟨10, 0, 2, [⟨1, 1⟩]⟩).head? = some (10 - 2, 10) ∧
    (decoded_ranges ⟨10, 0, 2, [⟨1, 1⟩]⟩).length = 1 + 1 :=
  decoded_ranges_descending_disjoint ⟨10, 0, 2, [⟨1, 1⟩]⟩ (by decide)

/-! ## C19: a set protected flag has a recorded timestamp -/

theorem on_ack_record (acktr : ngtcp2_acktr) (rb : ringbuf_ref) (j : Nat) (a : ngtcp2_acktr)
    (hon : acktr_on_ack acktr rb j = some a) :
    ∃ rec, ngtcp2_ringbuf_get (rb.get acktr) j = some rec := by
  cases hrec : ngtcp2_ringbuf_get (rb.get acktr) j with
  | none => simp [acktr_on_ack, hrec] at hon
  | some rec => exact ⟨rec, rfl⟩

theorem forget_fields (acktr : ngtcp2_acktr) (i : Nat) (a : ngtcp2_acktr)
    (h : ngtcp2_acktr_forget acktr i = some a) :
    a.flags = acktr.flags ∧ a.first_unacked_ts = acktr.first_unacked_ts := by
  unfold ngtcp2_acktr_forget at h
  split at h
  · split at h <;>
      · injection h with h
        rw [← h]
        exact ⟨rfl, rfl⟩
  · cases h

theorem pop_fields (acktr : ngtcp2_acktr) (a : ngtcp2_acktr)
    (h : ngtcp2_acktr_pop acktr = some a) :
    a.flags = acktr.flags ∧ a.first_unacked_ts = acktr.first_unacked_ts := by
  unfold ngtcp2_acktr_pop at h
  split at h
  · cases h
  · injection h with h
    rw [← h]
    exact ⟨rfl, rfl⟩

/-- C19: in every state reachable from `ngtcp2_acktr_init` by `ngtcp2_acktr_add`
called with timestamps other than UINT64_MAX, `ngtcp2_acktr_forget`,
`ngtcp2_acktr_pop`, `ngtcp2_acktr_add_ack`, `ngtcp2_acktr_recv_ack` and
`ngtcp2_acktr_commit_ack`: if the protected active-ack flag is set then
`first_unacked_ts` is not the UINT64_MAX sentinel. -/
theorem reachable_protected_flag_has_ts (MAX_ENT : Nat) (acktr : ngtcp2_acktr)
    (h : reachable MAX_ENT (fun ts => ts ≠ UINT64_MAX) acktr) :
    acktr.flags &&& NGTCP2_ACKTR_FLAG_ACTIVE_ACK_PROTECTED ≠ 0 →
      acktr.first_unacked_ts ≠ UINT64_MAX := by
  induction h with
  | init => intro hf; exact absurd rfl hf
  | add a ent active_ack ts rv a' _ hts hadd ih =>
    rcases add_fields MAX_ENT a ent active_ack ts rv a' hadd with ⟨_, h1⟩ | ⟨_, hf, ht, _⟩
    · rw [h1]; exact ih
    · intro hflag
      rw [ht]
      by_cases haa : active_ack ≠ 0
      · split
        · exact hts
        · rename_i hn
          intro hmax
          exact hn ⟨haa, hmax⟩
      · rw [if_neg (fun hh => haa hh.1)]
        rw [hf, if_neg haa] at hflag
        exact ih hflag
  | forget a i a' _ hf ih =>
    obtain ⟨h1, h2⟩ := forget_fields a i a' hf
    rw [h1, h2]; exact ih
  | pop a a' _ hp ih =>
    obtain ⟨h1, h2⟩ := pop_fields a a' hp
    rw [h1, h2]; exact ih
  | add_ack a pkt_num fr ts unprotected ack_only _ ih =>
    unfold ngtcp2_acktr_add_ack
    simp only []
    split <;> exact ih
  | recv_ack a fr unprotected conn ts res _ hrecv ih =>
    rcases recv_ack_cases a fr unprotected conn ts res hrecv with h | ⟨rb, j, h⟩
    · rw [h]; exact ih
    · obtain ⟨rec, hrec⟩ := on_ack_record a rb j res.acktr h
      obtain ⟨hf, _, ht⟩ := on_ack_hs_fields a rb j rec res.acktr hrec h
      rw [hf, ht]
      split
      · rw [or_and_other _ _ _ (by decide)]
        exact ih
      · exact ih
  | commit_ack a unprotected _ ih =>
    unfold ngtcp2_acktr_commit_ack
    split
    · simp only []
      rw [and_mask_other _ _ _ (by decide)]
      exact ih
    · simp only []
      intro hflag
      exact absurd (and_mask_clear _ _ _ (by decide)) hflag

theorem reachable_protected_flag_has_ts_witness :
    NGTCP2_ACKTR_FLAG_ACTIVE_ACK_PROTECTED &&& NGTCP2_ACKTR_FLAG_ACTIVE_ACK_PROTECTED ≠ 0 ∧
      5 ≠ UINT64_MAX :=
  ⟨by decide,
    reachable_protected_flag_has_ts 4
      { ngtcp2_acktr_init with
        ent := [⟨7, 5, 0⟩], tail := .node 0, nack := 1,
        flags := NGTCP2_ACKTR_FLAG_ACTIVE_ACK_PROTECTED, first_unacked_ts := 5 }
      (reachable.add ngtcp2_acktr_init ⟨7, 5, 0⟩ 1 5 0 _ reachable.init (by decide) (by decide))
      (by decide)⟩

/-! ## C20: the tail pointer -/

theorem ent_get?_append_length (K : List ngtcp2_acktr_entry) (x : ngtcp2_acktr_entry) :
    (K ++ [x]).get? K.length = some x := by
  induction K with
  | nil => rfl
  | cons k K' ih => simp

theorem descending_last (l : List ngtcp2_acktr_entry) (n : Nat)
    (hs : ent_descending l) (hlen : l.length = n + 1) :
    ∃ last, l = l.take n ++ [last] ∧ l.get? n = some last ∧
      (∀ e ∈ l.take n, last.pkt_num < e.pkt_num) ∧ (∀ e ∈ l, last.pkt_num ≤ e.pkt_num) := by
  have hdrop : ∃ z, l.drop n = [z] := by
    have h1 : (l.drop n).length = 1 := by simp [hlen]
    match hd : l.drop n, h1 with
    | [z], _ => exact ⟨z, rfl⟩
  obtain ⟨z, hz⟩ := hdrop
  have hsplit : l = l.take n ++ [z] := by
    conv_lhs => rw [← List.take_append_drop n l, hz]
  have hs' : ent_descending (l.take n ++ [z]) := by rw [← hsplit]; exact hs
  unfold ent_descending at hs'
  rw [List.pairwise_append] at hs'
  obtain ⟨_, _, hc⟩ := hs'
  have hlt : ∀ e ∈ l.take n, z.pkt_num < e.pkt_num :=
    fun e he => hc e he z (List.mem_singleton.mpr rfl)
  refine ⟨z, hsplit, ?_, hlt, ?_⟩
  · have htl : (l.take n).length = n := by rw [List.length_take]; omega
    have h2 : (l.take n ++ [z]).get? (l.take n).length = some z :=
      ent_get?_append_length _ z
    rw [htl, ← hsplit] at h2
    exact h2
  · intro e he
    rw [hsplit] at he
    rcases List.mem_append.mp he with h | h
    · exact Nat.le_of_lt (hlt e h)
    · rw [List.mem_singleton.mp h]

/-- C20: in every state reachable from `ngtcp2_acktr_init` by `ngtcp2_acktr_add`,
`ngtcp2_acktr_forget`, `ngtcp2_acktr_pop`, `ngtcp2_acktr_recv_ack` (and also
`ngtcp2_acktr_add_ack`, `ngtcp2_acktr_commit_ack`), with a capacity whose
successor fits in `size_t`: when the tracked list is not empty `acktr->tail`
designates its last node, which has the smallest `pkt_num`; every
`ngtcp2_acktr_add` from such a state returns (the `assert(acktr->tail)` holds and
`tail` is a node of the list); and when an add returns 0 through the eviction
branch, the node it unlinks is the last node of the list with the new entry
linked in, the one with the smallest `pkt_num`. -/
theorem reachable_tail_is_last (MAX_ENT : Nat) (hmax : MAX_ENT + 1 < 2 ^ 64)
    (ts_ok : Nat → Prop) (acktr : ngtcp2_acktr) (h : reachable MAX_ENT ts_ok acktr) :
    (acktr.ent ≠ [] →
      ∃ last, acktr.tail = .node (acktr.ent.length - 1) ∧
        acktr.ent.get? (acktr.ent.length - 1) = some last ∧
        ∀ e ∈ acktr.ent, last.pkt_num ≤ e.pkt_num) ∧
    (∀ ent active_ack ts, ∃ rv a,
      ngtcp2_acktr_add MAX_ENT acktr ent active_ack ts = some (rv, a)) ∧
    (∀ ent active_ack ts a,
      ngtcp2_acktr_add MAX_ENT acktr ent active_ack ts = some (0, a) →
      size_inc acktr.nack > MAX_ENT →
      ∃ p last, acktr.ent.take p ++ ent :: acktr.ent.drop p = a.ent ++ [last] ∧
        ent_descending (a.ent ++ [last]) ∧
        ∀ e ∈ a.ent, last.pkt_num < e.pkt_num) := by
  obtain ⟨hinv, htail⟩ := reachable_inv MAX_ENT hmax ts_ok acktr h
  have hn : acktr.nack + 1 < 2 ^ 64 := by have := hinv.2.2; omega
  refine ⟨?_, ?_, ?_⟩
  · intro hne
    have hpos : 0 < acktr.ent.length := List.length_pos.mpr hne
    obtain ⟨last, _, h2, _, h4⟩ := descending_last acktr.ent (acktr.ent.length - 1) hinv.1
      (by omega)
    exact ⟨last, htail hne, h2, h4⟩
  · intro ent active_ack ts
    by_cases hdup : ∃ e ∈ acktr.ent, e.pkt_num = ent.pkt_num
    · have hnone := add_find_dup ent.pkt_num acktr.ent hinv.1 hdup
      exact ⟨NGTCP2_ERR_PROTO, acktr, by simp only [ngtcp2_acktr_add, hnone]⟩
    · obtain ⟨p, a, hadd, _⟩ := add_spec MAX_ENT acktr ent active_ack ts hinv htail hn
        (fun e he heq => hdup ⟨e, he, heq⟩)
      exact ⟨0, a, hadd⟩
  · intro ent active_ack ts a hadd hev
    have hndup : ¬ ∃ e ∈ acktr.ent, e.pkt_num = ent.pkt_num := by
      intro hdup
      have hnone := add_find_dup ent.pkt_num acktr.ent hinv.1 hdup
      simp only [ngtcp2_acktr_add, hnone, Option.some.injEq, Prod.mk.injEq] at hadd
      exact err_proto_ne_zero hadd.1
    obtain ⟨p, a', hadd', hle, hdesc, hent, _⟩ := add_spec MAX_ENT acktr ent active_ack ts
      hinv htail hn (fun e he heq => hndup ⟨e, he, heq⟩)
    rw [hadd'] at hadd
    simp only [Option.some.injEq, Prod.mk.injEq, true_and] at hadd
    subst hadd
    have hlen : (acktr.ent.take p ++ ent :: acktr.ent.drop p).length = MAX_ENT + 1 := by
      rw [(insert_perm acktr.ent ent p).length_eq]
      simp only [List.length_cons]
      rw [size_inc_eq _ hn] at hev
      have := hinv.2.1
      have := hinv.2.2
      omega
    obtain ⟨last, h1, _, h3, _⟩ := descending_last _ MAX_ENT hdesc hlen
    rw [← hent] at h1 h3
    refine ⟨p, last, h1, ?_, h3⟩
    rw [← h1]; exact hdesc

theorem reachable_tail_is_last_witness :
    ∃ last, entry_ptr.node 1 = .node ([(⟨5, 0, 0⟩ : ngtcp2_acktr_entry), ⟨2, 0, 0⟩].length - 1) ∧
      [(⟨5, 0, 0⟩ : ngtcp2_acktr_entry), ⟨2, 0, 0⟩].get? (2 - 1) = some last ∧
      ∀ e ∈ [(⟨5, 0, 0⟩ : ngtcp2_acktr_entry), ⟨2, 0, 0⟩], last.pkt_num ≤ e.pkt_num :=
  (reachable_tail_is_last 2 (by decide) (fun _ => True)
    { ngtcp2_acktr_init with ent := [⟨5, 0, 0⟩, ⟨2, 0, 0⟩], tail := .node 1, nack := 2 }
    (reachable.add
      { ngtcp2_acktr_init with ent := [⟨2, 0, 0⟩], tail := .node 0, nack := 1 }
      ⟨5, 0, 0⟩ 0 0 0 _
      (reachable.add ngtcp2_acktr_init ⟨2, 0, 0⟩ 0 0 0 _ reachable.init trivial (by decide))
      trivial (by decide))).1 (by decide)

/-! ## C15: the end-to-end scenario -/

theorem on_ack_result (acktr : ngtcp2_acktr) (rb : ringbuf_ref) (j : Nat)
    (rec : ngtcp2_acktr_ack_entry) (a : ngtcp2_acktr)
    (hrec : ngtcp2_ringbuf_get (rb.get acktr) j = some rec)
    (hon : acktr_on_ack acktr rb j = some a)
    (hs : ent_descending acktr.ent) (hv : ack_valid rec.ack)
    (hn : acktr.nack = acktr.ent.length) :
    a.ent = acktr.ent.filter (fun e => !covered (decoded_ranges rec.ack) e.pkt_num) ∧
      a.nack = a.ent.length := by
  obtain ⟨a0, w, heq, ha0, hpres, hent⟩ := acktr_on_ack_shape acktr rb j rec hrec
  rw [heq] at hon
  injection hon with hon
  have hw := hent hs hv
  have hcount : w.nack = w.ent.length := by
    apply hpres (fun a => a.nack = a.ent.length) remove_count
    rw [ha0]; split <;> exact hn
  obtain ⟨f1, f2, _⟩ := ringbuf_set_fields rb w (ngtcp2_ringbuf_resize (rb.get w) j)
  rw [← hon, f1, f2]
  exact ⟨hw, hcount⟩

theorem scenario_adds (MAX_ENT : Nat) (hcap : 3 ≤ MAX_ENT) (t0 : Nat) :
    add_seq MAX_ENT [(⟨1, t0, 0⟩, 1, t0), (⟨2, t0, 0⟩, 1, t0), (⟨3, t0, 0⟩, 1, t0)]
        ngtcp2_acktr_init
      = some ([0, 0, 0],
          { ngtcp2_acktr_init with
            ent := [⟨3, t0, 0⟩, ⟨2, t0, 0⟩, ⟨1, t0, 0⟩], tail := .node 2, nack := 3,
            flags := NGTCP2_ACKTR_FLAG_ACTIVE_ACK_PROTECTED, first_unacked_ts := t0 }) := by
  have h1 : ¬ (1 > MAX_ENT) := by omega
  have h2 : ¬ (2 > MAX_ENT) := by omega
  have h3 : ¬ (3 > MAX_ENT) := by omega
  have e1 : size_inc 0 = 1 := by decide
  have e2 : size_inc 1 = 2 := by decide
  have e3 : size_inc 2 = 3 := by decide
  have f1 : NGTCP2_ACKTR_FLAG_NONE ||| NGTCP2_ACKTR_FLAG_ACTIVE_ACK_PROTECTED
      = NGTCP2_ACKTR_FLAG_ACTIVE_ACK_PROTECTED := by decide
  have f2 : NGTCP2_ACKTR_FLAG_ACTIVE_ACK_PROTECTED ||| NGTCP2_ACKTR_FLAG_ACTIVE_ACK_PROTECTED
      = NGTCP2_ACKTR_FLAG_ACTIVE_ACK_PROTECTED := by decide
  have s1 : ngtcp2_acktr_add MAX_ENT ngtcp2_acktr_init ⟨1, t0, 0⟩ 1 t0
      = some (0, { ngtcp2_acktr_init with
          ent := [⟨1, t0, 0⟩], tail := .node 0, nack := 1,
          flags := NGTCP2_ACKTR_FLAG_ACTIVE_ACK_PROTECTED, first_unacked_ts := t0 }) := by
    simp [ngtcp2_acktr_add, add_find, ngtcp2_acktr_init, e1, h1, f1]
  have s2 : ngtcp2_acktr_add MAX_ENT
        { ngtcp2_acktr_init with
          ent := [⟨1, t0, 0⟩], tail := .node 0, nack := 1,
          flags := NGTCP2_ACKTR_FLAG_ACTIVE_ACK_PROTECTED, first_unacked_ts := t0 }
        ⟨2, t0, 0⟩ 1 t0
      = some (0, { ngtcp2_acktr_init with
          ent := [⟨2, t0, 0⟩, ⟨1, t0, 0⟩], tail := .node 1, nack := 2,
          flags := NGTCP2_ACKTR_FLAG_ACTIVE_ACK_PROTECTED, first_unacked_ts := t0 }) := by
    simp [ngtcp2_acktr_add, add_find, ngtcp2_acktr_init, e2, h2, f2, entry_ptr.after_insert]
  have s3 : ngtcp2_acktr_add MAX_ENT
        { ngtcp2_acktr_init with
          ent := [⟨2, t0, 0⟩, ⟨1, t0, 0⟩], tail := .node 1, nack := 2,
          flags := NGTCP2_ACKTR_FLAG_ACTIVE_ACK_PROTECTED, first_unacked_ts := t0 }
        ⟨3, t0, 0⟩ 1 t0
      = some (0, { ngtcp2_acktr_init with
          ent := [⟨3, t0, 0⟩, ⟨2, t0, 0⟩, ⟨1, t0, 0⟩], tail := .node 2, nack := 3,
          flags := NGTCP2_ACKTR_FLAG_ACTIVE_ACK_PROTECTED, first_unacked_ts := t0 }) := by
    simp [ngtcp2_acktr_add, add_find, ngtcp2_acktr_init, e3, h3, f2, entry_ptr.after_insert]
  simp only [add_seq, s1, s2, s3]

/-- C15: on a freshly initialised tracker with a capacity of at least 3: the
protected packets 1, 2, 3 are added with `active_ack` at timestamp `t0` (all
adds return 0); then `ngtcp2_acktr_require_active_ack` for the protected space
returns 1 for every `D`, `T` with `t0 + D <= T`; after `ngtcp2_acktr_add_ack`
has recorded a protected ACK frame covering [1,3] (`largest_ack = 3`,
`first_ack_blklen = 2`, no blocks) carried in packet `P`,
`ngtcp2_acktr_recv_ack` with a valid peer frame that covers `P` returns 0 and
leaves the tracked list empty, `nack = 0` and the protected sent-ACK buffer
empty; a following `ngtcp2_acktr_commit_ack` for the protected space clears the
protected flag and `ngtcp2_acktr_require_active_ack` returns 0. -/
theorem end_to_end_scenario (MAX_ENT : Nat) (hcap : 3 ≤ MAX_ENT) (t0 D T : Nat)
    (hT : t0 + D ≤ T) (P ack_delay ts1 : Nat) (ack_only : Int) (fr : ngtcp2_ack)
    (hv : ack_valid fr) (hcov : covered (decoded_ranges fr) P = true)
    (conn : Bool) (ts2 : Nat) :
    ∃ a3, add_seq MAX_ENT
        [(⟨1, t0, 0⟩, 1, t0), (⟨2, t0, 0⟩, 1, t0), (⟨3, t0, 0⟩, 1, t0)] ngtcp2_acktr_init
        = some ([0, 0, 0], a3) ∧
      ngtcp2_acktr_require_active_ack a3 0 D T = 1 ∧
      ∃ res, ngtcp2_acktr_recv_ack
          (ngtcp2_acktr_add_ack a3 P ⟨3, ack_delay, 2, []⟩ ts1 0 ack_only) fr 0 conn ts2
          = some res ∧
        res.rv = 0 ∧ res.acktr.ent = [] ∧ res.acktr.nack = 0 ∧ res.acktr.acks.buf = [] ∧
        (ngtcp2_acktr_commit_ack res.acktr 0).flags
          &&& NGTCP2_ACKTR_FLAG_ACTIVE_ACK_PROTECTED = 0 ∧
        ∀ D' T', ngtcp2_acktr_require_active_ack (ngtcp2_acktr_commit_ack res.acktr 0)
          0 D' T' = 0 := by
  refine ⟨_, scenario_adds MAX_ENT hcap t0, ?_, ?_⟩
  · have hsub : u64_sub T D = T - D := u64_sub_eq T D (by omega)
    have hle : t0 ≤ T - D := by omega
    have hflag : NGTCP2_ACKTR_FLAG_ACTIVE_ACK_PROTECTED
        &&& NGTCP2_ACKTR_FLAG_ACTIVE_ACK_PROTECTED ≠ 0 := by decide
    simp only [ngtcp2_acktr_require_active_ack, hsub]
    rw [if_neg (by decide), if_pos ⟨hflag, hle⟩]
  · generalize hA4 : ngtcp2_acktr_add_ack
        { ngtcp2_acktr_init with
          ent := [⟨3, t0, 0⟩, ⟨2, t0, 0⟩, ⟨1, t0, 0⟩], tail := .node 2, nack := 3,
          flags := NGTCP2_ACKTR_FLAG_ACTIVE_ACK_PROTECTED, first_unacked_ts := t0 }
        P ⟨3, ack_delay, 2, []⟩ ts1 0 ack_only = A4
    have hrb : (if (0 : Int) ≠ 0 then ringbuf_ref.hs_acks else ringbuf_ref.acks)
        = ringbuf_ref.acks := by decide
    have hbuf : A4.acks.buf
        = [] ++ (⟨⟨3, ack_delay, 2, []⟩, P, ts1, to_u8 ack_only⟩ : ngtcp2_acktr_ack_entry)
            :: [] := by
      rw [← hA4]
      simp [ngtcp2_acktr_add_ack, ngtcp2_ringbuf_push_front, ngtcp2_acktr_init,
        ngtcp2_ringbuf_init]
    have hent : A4.ent = [⟨3, t0, 0⟩, ⟨2, t0, 0⟩, ⟨1, t0, 0⟩] := by
      rw [← hA4]; simp [ngtcp2_acktr_add_ack]
    have hnack : A4.nack = 3 := by
      rw [← hA4]; simp [ngtcp2_acktr_add_ack]
    obtain ⟨a, hon, hrecv⟩ := recv_ack_match A4 fr 0 conn ts2 [] []
      ⟨⟨3, ack_delay, 2, []⟩, P, ts1, to_u8 ack_only⟩
      (by rw [hrb]; exact hbuf)
      (by simp [ack_descending]) hv (by simp) hcov
    rw [hrb] at hon
    have hget : ngtcp2_ringbuf_get (ringbuf_ref.acks.get A4) 0
        = some ⟨⟨3, ack_delay, 2, []⟩, P, ts1, to_u8 ack_only⟩ := by
      simp [ngtcp2_ringbuf_get, ringbuf_ref.get, hbuf]
    have hvs : ack_valid (⟨3, ack_delay, 2, []⟩ : ngtcp2_ack) :=
      ⟨(by decide : 3 < 2 ^ 64), (by decide : 2 ≤ 3), trivial⟩
    have hdesc : ent_descending A4.ent := by
      rw [hent]; simp [ent_descending]
    obtain ⟨he, hn⟩ := on_ack_result A4 .acks 0 _ a hget hon hdesc hvs (by rw [hent, hnack]; rfl)
    obtain ⟨hb, _⟩ := on_ack_bufs A4 .acks 0 a _ hget hon
    have hempty : a.ent = [] := by
      rw [he, hent]
      have hr : decoded_ranges (⟨3, ack_delay, 2, []⟩ : ngtcp2_ack) = [(1, 3)] := by
        simp only [decoded_ranges, decoded_blk_ranges]
        have : u64_sub 3 2 = 1 := by decide
        rw [this]
      simp [hr, covered]
    refine ⟨_, hrecv, rfl, hempty, ?_, ?_, ?_, ?_⟩
    · simp only []
      rw [hn, hempty]; rfl
    · simpa [ringbuf_ref.get] using hb
    · simp only [ngtcp2_acktr_commit_ack]
      rw [if_neg (by decide)]
      exact and_mask_clear _ _ _ (by decide)
    · intro D' T'
      have hc : (ngtcp2_acktr_commit_ack a 0).flags
          &&& NGTCP2_ACKTR_FLAG_ACTIVE_ACK_PROTECTED = 0 := by
        simp only [ngtcp2_acktr_commit_ack]
        rw [if_neg (by decide)]
        exact and_mask_clear _ _ _ (by decide)
      simp only [ngtcp2_acktr_require_active_ack]
      rw [if_neg (by decide), if_neg (fun hh => hh.1 hc)]

theorem end_to_end_scenario_witness :
    ∃ a3, add_seq 4
        [(⟨1, 10, 0⟩, 1, 10), (⟨2, 10, 0⟩, 1, 10), (⟨3, 10, 0⟩, 1, 10)] ngtcp2_acktr_init
        = some ([0, 0, 0], a3) ∧
      ngtcp2_acktr_require_active_ack a3 0 25 40 = 1 ∧
      ∃ res, ngtcp2_acktr_recv_ack
          (ngtcp2_acktr_add_ack a3 7 ⟨3, 0, 2, []⟩ 41 0 1) ⟨8, 0, 2, []⟩ 0 true 60
          = some res ∧
        res.rv = 0 ∧ res.acktr.ent = [] ∧ res.acktr.nack = 0 ∧ res.acktr.acks.buf = [] ∧
        (ngtcp2_acktr_commit_ack res.acktr 0).flags
          &&& NGTCP2_ACKTR_FLAG_ACTIVE_ACK_PROTECTED = 0 ∧
        ∀ D' T', ngtcp2_acktr_require_active_ack (ngtcp2_acktr_commit_ack res.acktr 0)
          0 D' T' = 0 :=
  end_to_end_scenario 4 (by decide) 10 25 40 (by decide) 7 0 41 1 ⟨8, 0, 2, []⟩
    (by decide) (by decide) true 60

end Ngtcp2
